import Mathlib

/-!
# Final-block processing of a shard node (src/libNode/FinalBlockProcessing.cpp)

A shallow embedding of the shard-node build (IS_LOOKUP_NODE undefined) of
FinalBlockProcessing.cpp.  Member variables of Node become fields of the
structure Node, member functions become functions that take the node and
return the updated node together with their result and reference parameters.

Conventions.
* std::map and std::unordered_map are partial functions (StdMap); operator[]
  default-constructs a missing entry, which the model reproduces.
* std::unordered_set of hashes is a Finset.
* unsigned int offsets are natural numbers reduced modulo 2 ^ 32, uint256_t and
  uint64_t arithmetic is reduced modulo 2 ^ 256 and 2 ^ 64.
* Undefined behaviour and uncaught exceptions (a read past the end of the
  message, vector::at out of range, a null or end-iterator dereference) make a
  function return none.
* Locks, log output, the account store and the block storage are outside the
  modelled state.  Calls to P2PComm::SendBroadcastMessage and to
  DetachedFunction are recorded in two ghost fields of Node.
-/

namespace Zilliqa

/-! ## Data model -/

/-- One unsigned char of a message. -/
abbrev Byte := Fin 256

/-- TxnHash: a digest, held as its byte array (TRAN_HASH_SIZE bytes when read
from a message). -/
abbrev TxnHash := List Byte

/-- Block numbers (uint256_t). -/
abbrev BlockNum := Nat

/-- Width of unsigned int. -/
def UINT_MOD : Nat := 2 ^ 32

/-- Width of uint256_t. -/
def UINT256_MOD : Nat := 2 ^ 256

/-- Width of uint64_t. -/
def UINT64_MOD : Nat := 2 ^ 64

/-- Constant UINT256_SIZE (common/Constants.h is not part of the sources; the
source comments and the wire layout give 32 bytes). -/
def UINT256_SIZE : Nat := 32

/-- Constant TRAN_HASH_SIZE (32 bytes in the wire layout). -/
def TRAN_HASH_SIZE : Nat := 32

/-- Constant IP_SIZE (16-byte IP in the source comments). -/
def IP_SIZE : Nat := 16

/-- Constant PORT_SIZE (4-byte port in the source comments). -/
def PORT_SIZE : Nat := 4

/-- Modelled from the spec: class Peer is not part of the sources.  A peer is
an IP address and a listening port, compared by value. -/
structure Peer where
  m_ipAddress : Nat
  m_listenPortHost : Nat
deriving DecidableEq, Repr

/-- Modelled from the spec: class Transaction is not part of the sources.  A
transaction is an immutable record with an id, an amount, two addresses and a
payload. -/
structure Transaction where
  tranID : TxnHash
  amount : Nat
  fromAddr : List Byte
  toAddr : List Byte
  payload : List Byte
deriving DecidableEq, Repr

/-- Accessor Transaction::GetTranID. -/
def Transaction.GetTranID (tx : Transaction) : TxnHash := tx.tranID

/-- Modelled from the spec: class MicroBlock is not part of the sources.  The
locally agreed micro-block has a header with its TxRootHash and an ordered
list of transaction ids. -/
structure MicroBlock where
  txRootHash : TxnHash
  tranHashes : List TxnHash
deriving DecidableEq, Repr

/-- Accessor MicroBlock::GetTranHashes. -/
def MicroBlock.GetTranHashes (mb : MicroBlock) : List TxnHash := mb.tranHashes

/-- Accessor MicroBlock::GetHeader().GetTxRootHash. -/
def MicroBlock.GetTxRootHash (mb : MicroBlock) : TxnHash := mb.txRootHash

/-- Modelled from the spec: class TxBlock is not part of the sources.  A final
block has a header (block number, declared transaction root, the number of
micro-block hashes) and the ordered list of per-shard TxRootHash values. -/
structure TxBlock where
  blockNum : BlockNum
  txRootHash : TxnHash
  numMicroBlockHashes : Nat
  microBlockHashes : List TxnHash
deriving DecidableEq, Repr

/-- Accessor TxBlock::GetHeader().GetBlockNum. -/
def TxBlock.GetBlockNum (b : TxBlock) : BlockNum := b.blockNum

/-- Accessor TxBlock::GetMicroBlockHashes. -/
def TxBlock.GetMicroBlockHashes (b : TxBlock) : List TxnHash := b.microBlockHashes

/-- Modelled from the spec: enum TxSharingMode is declared in Node.h, which is
not part of the sources; these are the five constants the source names. -/
inductive TxSharingMode where
  | IDLE
  | SEND_ONLY
  | DS_FORWARD_ONLY
  | NODE_FORWARD_ONLY
  | SEND_AND_FORWARD
deriving DecidableEq, Repr

/-- Modelled from the spec: the round states of a node (the enum is declared in
Node.h, which is not part of the sources). -/
inductive NodeState where
  | POW1_SUBMISSION
  | TX_SUBMISSION
  | TX_SUBMISSION_BUFFER
  | MICROBLOCK_CONSENSUS
  | WAITING_FINALBLOCK
  | PROCESS_FINALBLOCK
deriving DecidableEq, Repr

/-- Work handed to DetachedFunction. -/
inductive DetachedTask where
  | StartPoW1
  | BeginNextConsensusRound
deriving DecidableEq, Repr

/-! ## Maps -/

/-- A std::map or std::unordered_map: none is the absence of an entry. -/
abbrev StdMap (K V : Type) := K → Option V

/-- The map without entries. -/
def StdMap.empty {K V : Type} : StdMap K V := fun _ => none

/-- Member erase(key). -/
def StdMap.erase {K V : Type} [DecidableEq K] (m : StdMap K V) (k : K) : StdMap K V :=
  fun k' => if k' = k then none else m k'

/-- Assignment through a reference to the entry of k. -/
def StdMap.set {K V : Type} [DecidableEq K] (m : StdMap K V) (k : K) (v : V) : StdMap K V :=
  fun k' => if k' = k then some v else m k'

/-- Member insert(make_pair(k, v)): an existing entry is kept. -/
def StdMap.insert {K V : Type} [DecidableEq K] (m : StdMap K V) (k : K) (v : V) : StdMap K V :=
  fun k' => if k' = k then some ((m k).getD v) else m k'

/-- A pool entry: transaction id to transaction. -/
abbrev TxnPool := StdMap TxnHash Transaction

/-- The value operator[] refers to in a pool map: the entry, or a
default-constructed (empty) pool. -/
def poolAt (m : StdMap BlockNum TxnPool) (b : BlockNum) : TxnPool :=
  (m b).getD StdMap.empty

/-- The value operator[] refers to in the committed map. -/
def committedAt (m : StdMap BlockNum (List Transaction)) (b : BlockNum) : List Transaction :=
  (m b).getD []

/-- The value operator[] refers to in the tracker map. -/
def outstandingAt (m : StdMap BlockNum (Finset TxnHash)) (b : BlockNum) : Finset TxnHash :=
  (m b).getD ∅

/-! ## Node state -/

/-- The member variables of Node (and of its mediator) that
FinalBlockProcessing.cpp reads or writes. -/
structure Node where
  m_submittedTransactions : StdMap BlockNum TxnPool
  m_receivedTransactions : StdMap BlockNum TxnPool
  m_committedTransactions : StdMap BlockNum (List Transaction)
  m_unavailableMicroBlocks : StdMap BlockNum (Finset TxnHash)
  m_forwardingAssignment : StdMap BlockNum (List Peer)
  m_microblock : Option MicroBlock
  m_consensusID : Nat
  m_consensusLeaderID : Nat
  m_consensusMyID : Nat
  m_isPrimary : Bool
  m_state : NodeState
  m_myShardMembersNetworkInfo : List Peer
  m_txBlockChain : List TxBlock
  m_currentEpochNum : Nat
  m_selfPeer : Peer
  sentBroadcasts : List (List Peer × List Byte)
  detachedTasks : List DetachedTask

/-- Collaborators whose code is not part of the sources. -/
structure Externals where
  /-- Transaction::GetSerializedSize -/
  TxnSerializedSize : Nat
  /-- Constructor Transaction(message, offset) -/
  readTransaction : List Byte → Nat → Transaction
  /-- Transaction::Serialize -/
  serializeTransaction : Transaction → List Byte
  /-- ComputeTransactionsRoot -/
  ComputeTransactionsRoot : List TxnHash → TxnHash
  /-- Constructor TxBlock(message, offset) -/
  readTxBlock : List Byte → Nat → TxBlock
  /-- TxBlock::GetSerializedSize -/
  TxBlockSerializedSize : TxBlock → Nat
  /-- Node::CheckWhetherDSBlockNumIsLatest -/
  CheckWhetherDSBlockNumIsLatest : Node → Nat → Bool
  /-- Node::CheckState(PROCESS_FINALBLOCK) -/
  CheckStateProcessFinalBlock : NodeState → Bool
  /-- Constant NUM_FINAL_BLOCK_PER_POW -/
  NUM_FINAL_BLOCK_PER_POW : Nat
  /-- Constant MessageType::NODE -/
  MessageType_NODE : Byte
  /-- Constant NodeInstructionType::FORWARDTRANSACTION -/
  FORWARDTRANSACTION : Byte
  /-- The value of sizeof(uint256_t): the object size of
  boost::multiprecision::uint256_t, which the Boost headers and the platform
  fix -/
  sizeof_uint256_t : Nat

/-! ## Tracker -/

/-- Node::IsMicroBlockTxRootHashInFinalBlock: operator[] creates the entry of
blocknum when it is missing, erase reports whether the hash was a member. -/
def IsMicroBlockTxRootHashInFinalBlock (n : Node) (microBlockTxRootHash : TxnHash)
    (blocknum : BlockNum) : Bool × Node :=
  let entry := outstandingAt n.m_unavailableMicroBlocks blocknum
  (decide (microBlockTxRootHash ∈ entry),
   { n with m_unavailableMicroBlocks :=
              n.m_unavailableMicroBlocks.set blocknum (entry.erase microBlockTxRootHash) })

/-! ## Pools -/

/-- The test of the sharing mode made before a transaction is queued for
sending. -/
def sendsBodies (sharing_mode : TxSharingMode) : Bool :=
  decide (sharing_mode = TxSharingMode.SEND_ONLY) || decide (sharing_mode = TxSharingMode.SEND_AND_FORWARD)

/-- Node::FindTxnInSubmittedTxnsList (the unused parameter finalblock is left
out).  Returns the result, the node and txns_to_send. -/
def FindTxnInSubmittedTxnsList (n : Node) (blockNum : BlockNum) (sharing_mode : TxSharingMode)
    (txns_to_send : List Transaction) (tx_hash : TxnHash) : Bool × Node × List Transaction :=
  let submittedTransactions := poolAt n.m_submittedTransactions blockNum
  let committedTransactions := committedAt n.m_committedTransactions blockNum
  match submittedTransactions tx_hash with
  | some txn =>
    (true,
     { n with
       m_submittedTransactions :=
         n.m_submittedTransactions.set blockNum (submittedTransactions.erase tx_hash)
       m_committedTransactions :=
         n.m_committedTransactions.set blockNum (committedTransactions ++ [txn]) },
     if sendsBodies sharing_mode then txns_to_send ++ [txn] else txns_to_send)
  | none =>
    (false,
     { n with
       m_submittedTransactions := n.m_submittedTransactions.set blockNum submittedTransactions
       m_committedTransactions := n.m_committedTransactions.set blockNum committedTransactions },
     txns_to_send)

/-- Node::FindTxnInReceivedTxnsList (the unused parameter finalblock is left
out). -/
def FindTxnInReceivedTxnsList (n : Node) (blockNum : BlockNum) (sharing_mode : TxSharingMode)
    (txns_to_send : List Transaction) (tx_hash : TxnHash) : Bool × Node × List Transaction :=
  let receivedTransactions := poolAt n.m_receivedTransactions blockNum
  let committedTransactions := committedAt n.m_committedTransactions blockNum
  match receivedTransactions tx_hash with
  | some txn =>
    (true,
     { n with
       m_receivedTransactions :=
         n.m_receivedTransactions.set blockNum (receivedTransactions.erase tx_hash)
       m_committedTransactions :=
         n.m_committedTransactions.set blockNum (committedTransactions ++ [txn]) },
     if sendsBodies sharing_mode then txns_to_send ++ [txn] else txns_to_send)
  | none =>
    (false,
     { n with
       m_receivedTransactions := n.m_receivedTransactions.set blockNum receivedTransactions
       m_committedTransactions := n.m_committedTransactions.set blockNum committedTransactions },
     txns_to_send)

/-- The loop of Node::CommitMyShardsMicroBlock over the remaining transaction
ids. -/
def commitLoop (blocknum : BlockNum) (sharing_mode : TxSharingMode) :
    List TxnHash → Node → List Transaction → Node × List Transaction
  | [], n, txns_to_send => (n, txns_to_send)
  | tx_hash :: rest, n, txns_to_send =>
    let r := FindTxnInSubmittedTxnsList n blocknum sharing_mode txns_to_send tx_hash
    if r.1 then
      commitLoop blocknum sharing_mode rest r.2.1 r.2.2
    else
      let r2 := FindTxnInReceivedTxnsList r.2.1 blocknum sharing_mode r.2.2 tx_hash
      commitLoop blocknum sharing_mode rest r2.2.1 r2.2.2

/-- Node::CommitMyShardsMicroBlock (the unused parameter finalblock is left
out).  m_microblock is dereferenced without a check: a null pointer gives
none. -/
def CommitMyShardsMicroBlock (n : Node) (blocknum : BlockNum) (sharing_mode : TxSharingMode)
    (txns_to_send : List Transaction) : Option (Node × List Transaction) :=
  match n.m_microblock with
  | none => none
  | some mb =>
    let r := commitLoop blocknum sharing_mode mb.GetTranHashes n txns_to_send
    some ({ r.1 with
            m_receivedTransactions := r.1.m_receivedTransactions.erase blocknum
            m_submittedTransactions := r.1.m_submittedTransactions.erase blocknum },
          r.2)

/-! ## Wire helpers -/

/-- Modelled from the spec: Serializable::GetNumber is not part of the sources.
Fields are big-endian and of fixed width; a read that needs more bytes than the
message holds is left undefined by the spec and has no result here. -/
def GetNumber (message : List Byte) (offset len : Nat) : Option Nat :=
  if offset + len ≤ message.length then
    some (((message.drop offset).take len).foldl (fun acc b => acc * 256 + b.val) 0)
  else none

/-- The big-endian bytes of a number, most significant first. -/
def encodeBE : Nat → Nat → List Byte
  | 0, _ => []
  | len + 1, v => encodeBE len (v / 256) ++ [Fin.ofNat (v % 256)]

/-- Writing bytes into a vector at an offset, growing the vector when it is too
short (the effect of Serializable::SetNumber, of resize followed by copy, and
of Serialize(dst, offset)). -/
def writeAt (dst : List Byte) (offset : Nat) (src : List Byte) : List Byte :=
  dst.take offset ++ List.replicate (offset - dst.length) 0 ++ src ++ dst.drop (offset + src.length)

/-- Constant MessageOffset::BODY: the body follows the two tag bytes. -/
def MessageOffset_BODY : Nat := 2

/-- Modelled from the spec: the constructor Peer(message, offset) is not part of
the sources.  A peer entry is a 16-byte IP followed by a 4-byte port. -/
def readPeer (message : List Byte) (offset : Nat) : Option Peer :=
  match GetNumber message offset IP_SIZE, GetNumber message (offset + IP_SIZE) PORT_SIZE with
  | some ip, some port => some { m_ipAddress := ip, m_listenPortHost := port }
  | _, _ => none

/-! ## Header of the final-block message -/

/-- Node::ReadAuxilliaryInfoFromFinalBlockMsg.  Returns the result, cur_offset
and shard_id.  The DS block number is read from, and the offset advanced by,
sizeof(uint256_t) bytes, not UINT256_SIZE; the number read is a uint256_t, so
the check is made on its value plus one modulo 2 ^ 256. -/
def ReadAuxilliaryInfoFromFinalBlockMsg (ext : Externals) (n : Node) (message : List Byte)
    (cur_offset : Nat) (shard_id : Nat) : Option (Bool × Nat × Nat) :=
  match GetNumber message cur_offset ext.sizeof_uint256_t with
  | none => none
  | some dsBlockNum =>
    let cur_offset1 := (cur_offset + ext.sizeof_uint256_t) % UINT_MOD
    if ext.CheckWhetherDSBlockNumIsLatest n ((dsBlockNum + 1) % UINT256_MOD) = false then
      some (false, cur_offset1, shard_id)
    else
      match GetNumber message cur_offset1 4 with
      | none => none
      | some consensusID =>
        let cur_offset2 := (cur_offset1 + 4) % UINT_MOD
        if consensusID ≠ n.m_consensusID then
          some (false, cur_offset2, shard_id)
        else
          match GetNumber message cur_offset2 1 with
          | none => none
          | some sid => some (true, (cur_offset2 + 1) % UINT_MOD, sid)

/-- Node::StoreFinalBlock.  Modelled from the spec: the block chain class is not
part of the sources; AddBlock appends and GetBlockCount is the chain height. -/
def StoreFinalBlock (n : Node) (txBlock : TxBlock) : Node :=
  let chain := n.m_txBlockChain ++ [txBlock]
  let epoch := chain.length % UINT64_MOD
  { n with
    m_txBlockChain := chain
    m_currentEpochNum := epoch
    m_committedTransactions := n.m_committedTransactions.erase ((epoch + UINT64_MOD - 2) % UINT64_MOD) }

/-- Node::LoadUnavailableMicroBlockTxRootHashes.  The recomputed root is only
compared for a log line. -/
def LoadUnavailableMicroBlockTxRootHashes (n : Node) (finalBlock : TxBlock)
    (blocknum : BlockNum) : Node :=
  finalBlock.GetMicroBlockHashes.foldl
    (fun (n : Node) hash =>
      { n with m_unavailableMicroBlocks :=
                 n.m_unavailableMicroBlocks.set blocknum
                   (insert hash (outstandingAt n.m_unavailableMicroBlocks blocknum)) })
    n

/-! ## Sending and forwarding -/

/-- The message built by Node::BroadcastTransactionsToSendingAssignment. -/
def forwardTxnMessage (ext : Externals) (blocknum : BlockNum) (microBlockTxHash : TxnHash)
    (txns_to_send : List Transaction) : List Byte :=
  let msg0 : List Byte := [ext.MessageType_NODE, ext.FORWARDTRANSACTION]
  let cur_offset0 := MessageOffset_BODY
  let msg1 := writeAt msg0 cur_offset0 (encodeBE UINT256_SIZE (blocknum % UINT256_MOD))
  let cur_offset1 := cur_offset0 + UINT256_SIZE
  let msg2 := writeAt msg1 cur_offset1 (microBlockTxHash.take TRAN_HASH_SIZE)
  let cur_offset2 := cur_offset1 + TRAN_HASH_SIZE
  (txns_to_send.foldl
    (fun (st : List Byte × Nat) tx =>
      (writeAt st.1 st.2 (ext.serializeTransaction tx), (st.2 + ext.TxnSerializedSize) % UINT_MOD))
    (msg2, cur_offset2)).1

/-- Node::BroadcastTransactionsToSendingAssignment. -/
def BroadcastTransactionsToSendingAssignment (ext : Externals) (n : Node) (blocknum : BlockNum)
    (sendingAssignment : List Peer) (microBlockTxHash : TxnHash)
    (txns_to_send : List Transaction) : Node :=
  if txns_to_send.length > 0 then
    { n with sentBroadcasts :=
               n.sentBroadcasts ++
                 [(sendingAssignment, forwardTxnMessage ext blocknum microBlockTxHash txns_to_send)] }
  else n

/-- The first loop of Node::LoadForwardingAssignmentFromFinalBlock: every shard
member but the one at the own index is pushed. -/
def pushShardMembers (myID : Nat) : List Peer → Nat → List Peer → List Peer
  | [], _, peers => peers
  | p :: rest, i, peers =>
    if i = myID then pushShardMembers myID rest (i + 1) peers
    else pushShardMembers myID rest (i + 1) (peers ++ [p])

/-- The inner loop of Node::LoadForwardingAssignmentFromFinalBlock: the first
peer equal to the fellow forwarder is overwritten by the last peer, which is
then popped. -/
def removeFellowForwarder (peers : List Peer) (fellowforwarder : Peer) : List Peer :=
  let j := peers.indexOf fellowforwarder
  if j < peers.length then
    match peers.getLast? with
    | some last => (peers.set j last).dropLast
    | none => peers
  else peers

/-- Node::LoadForwardingAssignmentFromFinalBlock. -/
def LoadForwardingAssignmentFromFinalBlock (n : Node) (fellowForwarderNodes : List Peer)
    (blocknum : BlockNum) : Node :=
  let peers0 := (n.m_forwardingAssignment blocknum).getD []
  let peers1 := pushShardMembers n.m_consensusMyID n.m_myShardMembersNetworkInfo 0 peers0
  let peers2 := fellowForwarderNodes.foldl removeFellowForwarder peers1
  { n with m_forwardingAssignment := n.m_forwardingAssignment.set blocknum peers2 }

/-- Node::IsMyShardsMicroBlockTxRootHashInFinalBlock. -/
def IsMyShardsMicroBlockTxRootHashInFinalBlock (n : Node) (blocknum : BlockNum) : Bool × Node :=
  match n.m_microblock with
  | none => (false, n)
  | some mb => IsMicroBlockTxRootHashInFinalBlock n mb.GetTxRootHash blocknum

/-- The reconciliation that both overloads of Node::ActOnFinalBlock run after
the switch on the sharing mode. -/
def reconcileAndSend (ext : Externals) (n : Node) (blocknum : BlockNum)
    (tx_sharing_mode : TxSharingMode) (sendingAssignment : List Peer) : Option Node :=
  let r := IsMyShardsMicroBlockTxRootHashInFinalBlock n blocknum
  if r.1 then
    match CommitMyShardsMicroBlock r.2 blocknum tx_sharing_mode [], r.2.m_microblock with
    | some (n2, txns_to_send), some mb =>
      if sendingAssignment.length > 0 then
        some (BroadcastTransactionsToSendingAssignment ext n2 blocknum sendingAssignment
                mb.GetTxRootHash txns_to_send)
      else some n2
    | _, _ => none
  else some r.2

/-- Node::ActOnFinalBlock(tx_sharing_mode, nodes).  The last block of an empty
chain has no result. -/
def ActOnFinalBlock (ext : Externals) (n : Node) (tx_sharing_mode : TxSharingMode)
    (nodes : List Peer) : Option (Bool × Node) :=
  match n.m_txBlockChain.getLast? with
  | none => none
  | some finalblock =>
    let blocknum := finalblock.GetBlockNum
    let sendingAssignment : List Peer :=
      if tx_sharing_mode = TxSharingMode.SEND_ONLY then nodes else []
    let n1 : Node :=
      match tx_sharing_mode with
      | TxSharingMode.SEND_ONLY => n
      | TxSharingMode.DS_FORWARD_ONLY =>
        { n with m_forwardingAssignment := n.m_forwardingAssignment.insert blocknum nodes }
      | TxSharingMode.NODE_FORWARD_ONLY => LoadForwardingAssignmentFromFinalBlock n nodes blocknum
      | _ => n
    (reconcileAndSend ext n1 blocknum tx_sharing_mode sendingAssignment).map (fun n2 => (true, n2))

/-- Node::ActOnFinalBlock(tx_sharing_mode, sendingAssignment,
fellowForwarderNodes). -/
def ActOnFinalBlock3 (ext : Externals) (n : Node) (tx_sharing_mode : TxSharingMode)
    (sendingAssignment : List Peer) (fellowForwarderNodes : List Peer) : Option (Bool × Node) :=
  if tx_sharing_mode = TxSharingMode.SEND_AND_FORWARD then
    match n.m_txBlockChain.getLast? with
    | none => none
    | some finalblock =>
      let blocknum := finalblock.GetBlockNum
      let n1 := LoadForwardingAssignmentFromFinalBlock n fellowForwarderNodes blocknum
      (reconcileAndSend ext n1 blocknum tx_sharing_mode sendingAssignment).map (fun n2 => (true, n2))
  else some (false, n)

/-! ## Round state -/

/-- Node::InitiatePoW1: the proof of work itself runs in a detached thread. -/
def InitiatePoW1 (n : Node) : Node :=
  { n with
    m_consensusID := 0
    m_consensusLeaderID := 0
    m_state := NodeState.POW1_SUBMISSION
    detachedTasks := n.detachedTasks ++ [DetachedTask.StartPoW1] }

/-- Node::UpdateStateForNextConsensusRound. -/
def UpdateStateForNextConsensusRound (n : Node) : Node :=
  let n1 : Node := if n.m_isPrimary = true then { n with m_isPrimary := false } else n
  let n2 : Node :=
    { n1 with
      m_consensusLeaderID := (n1.m_consensusLeaderID + 1) % UINT_MOD
      m_consensusID := (n1.m_consensusID + 1) % UINT_MOD }
  let n3 : Node :=
    if n2.m_consensusMyID = n2.m_consensusLeaderID then { n2 with m_isPrimary := true } else n2
  { n3 with m_state := NodeState.TX_SUBMISSION }

/-! ## Sharing setup -/

/-- A loop of Node::LoadTxnSharingInfo that reads count peers into the last
list of nodes (here: peers) without comparing them with the own address. -/
def readPeers (message : List Byte) : Nat → Nat → List Peer → Option (List Peer × Nat)
  | 0, cur_offset, peers => some (peers, cur_offset)
  | count + 1, cur_offset, peers =>
    match readPeer message cur_offset with
    | none => none
    | some p => readPeers message count ((cur_offset + (IP_SIZE + PORT_SIZE)) % UINT_MOD) (peers ++ [p])

/-- A loop of Node::LoadTxnSharingInfo over the lists of the own shard: the flag
is set when a peer read equals m_selfPeer. -/
def readPeersSelf (message : List Byte) (selfPeer : Peer) :
    Nat → Nat → List Peer → Bool → Option (List Peer × Nat × Bool)
  | 0, cur_offset, peers, flag => some (peers, cur_offset, flag)
  | count + 1, cur_offset, peers, flag =>
    match readPeer message cur_offset with
    | none => none
    | some p =>
      readPeersSelf message selfPeer count ((cur_offset + (IP_SIZE + PORT_SIZE)) % UINT_MOD)
        (peers ++ [p]) (if p = selfPeer then true else flag)

/-- The reference parameters of Node::LoadTxnSharingInfo. -/
structure SharingInfo where
  cur_offset : Nat
  i_am_sender : Bool
  i_am_forwarder : Bool
  nodes : List (List Peer)
deriving DecidableEq, Repr

/-- The loop of Node::LoadTxnSharingInfo over the shards; i is the loop
counter, the first argument the number of iterations left. -/
def loadShards (message : List Byte) (shard_id : Nat) (selfPeer : Peer) :
    Nat → Nat → SharingInfo → Option SharingInfo
  | 0, _, st => some st
  | left + 1, i, st =>
    if i = shard_id then
      match GetNumber message st.cur_offset 4 with
      | none => none
      | some num_recv =>
        match readPeersSelf message selfPeer num_recv ((st.cur_offset + 4) % UINT_MOD) []
                st.i_am_forwarder with
        | none => none
        | some (recv, off1, fwd) =>
          match GetNumber message off1 4 with
          | none => none
          | some num_send =>
            match readPeersSelf message selfPeer num_send ((off1 + 4) % UINT_MOD) []
                    st.i_am_sender with
            | none => none
            | some (send, off2, snd) =>
              loadShards message shard_id selfPeer left (i + 1)
                { cur_offset := off2, i_am_sender := snd, i_am_forwarder := fwd,
                  nodes := st.nodes ++ [recv] ++ [send] }
    else
      match GetNumber message st.cur_offset 4 with
      | none => none
      | some num_recv =>
        match readPeers message num_recv ((st.cur_offset + 4) % UINT_MOD) [] with
        | none => none
        | some (recv, off1) =>
          match GetNumber message off1 4 with
          | none => none
          | some num_send =>
            match readPeers message num_send ((off1 + 4) % UINT_MOD) [] with
            | none => none
            | some (send, off2) =>
              loadShards message shard_id selfPeer left (i + 1)
                { st with cur_offset := off2, nodes := st.nodes ++ [recv] ++ [send] }

/-- Node::LoadTxnSharingInfo. -/
def LoadTxnSharingInfo (n : Node) (message : List Byte) (shard_id : Nat) (st : SharingInfo) :
    Option SharingInfo :=
  match GetNumber message st.cur_offset 4 with
  | none => none
  | some num_ds_nodes =>
    match readPeers message num_ds_nodes ((st.cur_offset + 4) % UINT_MOD) [] with
    | none => none
    | some (ds, off1) =>
      match GetNumber message off1 4 with
      | none => none
      | some num_shards =>
        loadShards message shard_id n.m_selfPeer num_shards 0
          { st with cur_offset := (off1 + 4) % UINT_MOD, nodes := st.nodes ++ [ds] }

/-- The loop over the odd indices of nodes in
Node::CallActOnFinalBlockBasedOnSenderForwarderAssgn: the receiver list of
every shard but the own one is appended. -/
def otherShardReceivers (nodes : List (List Peer)) (shard_id : Nat) :
    Nat → Nat → List Peer → List Peer
  | 0, _, acc => acc
  | fuel + 1, i, acc =>
    if i < nodes.length then
      if (i - 1) / 2 = shard_id then otherShardReceivers nodes shard_id fuel (i + 2) acc
      else otherShardReceivers nodes shard_id fuel (i + 2) (acc ++ (nodes.getD i []))
    else acc

/-- The list built in the sender branches of
Node::CallActOnFinalBlockBasedOnSenderForwarderAssgn; nodes.at(0) throws on an
empty list. -/
def receiversInOtherCommittees (nodes : List (List Peer)) (shard_id : Nat) : Option (List Peer) :=
  match nodes.get? 0 with
  | none => none
  | some ds => some (otherShardReceivers nodes shard_id nodes.length 1 ds)

/-- Node::CallActOnFinalBlockBasedOnSenderForwarderAssgn. -/
def CallActOnFinalBlockBasedOnSenderForwarderAssgn (ext : Externals) (n : Node)
    (i_am_sender i_am_forwarder : Bool) (nodes : List (List Peer)) (shard_id : Nat) :
    Option Node :=
  if i_am_sender = false ∧ i_am_forwarder = true then
    match nodes.get? (shard_id + 1) with
    | none => none
    | some my_shard_receivers =>
      (ActOnFinalBlock ext n TxSharingMode.NODE_FORWARD_ONLY my_shard_receivers).map (fun r => r.2)
  else if i_am_sender = true ∧ i_am_forwarder = false then
    match receiversInOtherCommittees nodes shard_id with
    | none => none
    | some nodes_to_send =>
      (ActOnFinalBlock ext n TxSharingMode.SEND_ONLY nodes_to_send).map (fun r => r.2)
  else if i_am_sender = true ∧ i_am_forwarder = true then
    match nodes.get? (shard_id + 1) with
    | none => none
    | some my_shard_receivers =>
      match receiversInOtherCommittees nodes shard_id with
      | none => none
      | some fellowForwarderNodes =>
        (ActOnFinalBlock3 ext n TxSharingMode.SEND_AND_FORWARD my_shard_receivers
          fellowForwarderNodes).map (fun r => r.2)
  else
    (ActOnFinalBlock ext n TxSharingMode.IDLE []).map (fun r => r.2)

/-! ## Final block -/

/-- Node::ProcessFinalBlock (the unused parameter from is left out).  A call
made in state MICROBLOCK_CONSENSUS polls until another thread changes the
state; without such a thread it does not return, which is none here. -/
def ProcessFinalBlock (ext : Externals) (n : Node) (message : List Byte) (offset : Nat) :
    Option (Bool × Node) :=
  if n.m_state = NodeState.MICROBLOCK_CONSENSUS then none
  else if ext.CheckStateProcessFinalBlock n.m_state = false then some (false, n)
  else
    match ReadAuxilliaryInfoFromFinalBlockMsg ext n message offset 255 with
    | none => none
    | some (false, _, _) => some (false, n)
    | some (true, cur_offset, shard_id) =>
      let txBlock := ext.readTxBlock message cur_offset
      let cur_offset1 := (cur_offset + ext.TxBlockSerializedSize txBlock) % UINT_MOD
      let n1 := LoadUnavailableMicroBlockTxRootHashes n txBlock txBlock.GetBlockNum
      let n2 := StoreFinalBlock n1 txBlock
      let n3 : Node :=
        if n2.m_currentEpochNum % ext.NUM_FINAL_BLOCK_PER_POW = 0 then InitiatePoW1 n2
        else { n2 with detachedTasks := n2.detachedTasks ++ [DetachedTask.BeginNextConsensusRound] }
      match LoadTxnSharingInfo n3 message shard_id
              { cur_offset := cur_offset1, i_am_sender := false, i_am_forwarder := false,
                nodes := [] } with
      | none => none
      | some info =>
        (CallActOnFinalBlockBasedOnSenderForwarderAssgn ext n3 info.i_am_sender
          info.i_am_forwarder info.nodes shard_id).map (fun n4 => (true, n4))

/-! ## Forwarded transactions -/

/-- The while loop of Node::LoadForwardedTxnsAndCheckRoot.  The first argument
bounds the number of iterations; running out of it is none. -/
def loadTxnsLoop (ext : Externals) (message : List Byte) :
    Nat → Nat → List Transaction → Option (List Transaction)
  | 0, _, _ => none
  | fuel + 1, cur_offset, txns =>
    if (cur_offset + ext.TxnSerializedSize) % UINT_MOD ≤ message.length then
      loadTxnsLoop ext message fuel ((cur_offset + ext.TxnSerializedSize) % UINT_MOD)
        (txns ++ [ext.readTransaction message cur_offset])
    else some txns

/-- Node::LoadForwardedTxnsAndCheckRoot.  Returns the result, microBlockTxHash
and txnsInForwardedMessage.  The copy of the root hash needs TRAN_HASH_SIZE
bytes at cur_offset. -/
def LoadForwardedTxnsAndCheckRoot (ext : Externals) (message : List Byte) (cur_offset : Nat)
    (txnsInForwardedMessage : List Transaction) : Option (Bool × TxnHash × List Transaction) :=
  if cur_offset + TRAN_HASH_SIZE < UINT_MOD ∧ cur_offset + TRAN_HASH_SIZE ≤ message.length then
    let microBlockTxHash : TxnHash := (message.drop cur_offset).take TRAN_HASH_SIZE
    match loadTxnsLoop ext message (message.length + 1) (cur_offset + TRAN_HASH_SIZE)
            txnsInForwardedMessage with
    | none => none
    | some txns =>
      let txnHashesInForwardedMessage :=
        (txns.drop txnsInForwardedMessage.length).map Transaction.GetTranID
      some (decide (ext.ComputeTransactionsRoot txnHashesInForwardedMessage = microBlockTxHash),
            microBlockTxHash, txns)
  else none

/-- Node::CommitForwardedTransactions. -/
def CommitForwardedTransactions (n : Node) (txnsInForwardedMessage : List Transaction)
    (blocknum : BlockNum) : Node :=
  txnsInForwardedMessage.foldl
    (fun (n : Node) tx =>
      { n with m_committedTransactions :=
                 n.m_committedTransactions.set blocknum
                   (committedAt n.m_committedTransactions blocknum ++ [tx]) })
    n

/-- Node::LoadFwdingAssgnForThisBlockNum. -/
def LoadFwdingAssgnForThisBlockNum (n : Node) (blocknum : BlockNum) (forward_list : List Peer) :
    List Peer :=
  match n.m_forwardingAssignment blocknum with
  | some f => f
  | none => forward_list

/-- Node::DeleteEntryFromFwdingAssgnAndMissingBodyCountMap.  The iterator find
returns is dereferenced without a check: a missing tracker entry gives none. -/
def DeleteEntryFromFwdingAssgnAndMissingBodyCountMap (n : Node) (blocknum : BlockNum) :
    Option Node :=
  match n.m_unavailableMicroBlocks blocknum with
  | none => none
  | some outstanding =>
    if outstanding = ∅ then
      some { n with
             m_unavailableMicroBlocks := n.m_unavailableMicroBlocks.erase blocknum
             m_forwardingAssignment := n.m_forwardingAssignment.erase blocknum }
    else some n

/-- Node::ProcessForwardTransaction (the unused parameter from is left out). -/
def ProcessForwardTransaction (ext : Externals) (n : Node) (message : List Byte)
    (cur_offset : Nat) : Option (Bool × Node) :=
  match GetNumber message cur_offset UINT256_SIZE with
  | none => none
  | some blocknum =>
    match LoadForwardedTxnsAndCheckRoot ext message ((cur_offset + UINT256_SIZE) % UINT_MOD) [] with
    | none => none
    | some (false, _, _) => some (false, n)
    | some (true, microBlockTxRootHash, txnsInForwardedMessage) =>
      let r := IsMicroBlockTxRootHashInFinalBlock n microBlockTxRootHash blocknum
      if r.1 = false then some (false, r.2)
      else
        let n1 := CommitForwardedTransactions r.2 txnsInForwardedMessage blocknum
        let forward_list := LoadFwdingAssgnForThisBlockNum n1 blocknum []
        match DeleteEntryFromFwdingAssgnAndMissingBodyCountMap n1 blocknum with
        | none => none
        | some n2 =>
          if forward_list.length > 0 then
            some (true, { n2 with sentBroadcasts := n2.sentBroadcasts ++ [(forward_list, message)] })
          else some (true, n2)

/-! ## Reference description of the reconciliation -/

/-- The transactions the reconciliation is to move, following the wording of
the specification: each id of the micro-block, in list order, is looked up in
the submitted pool, or else in the received pool, as the pools stand when the
id is visited; a transaction found is moved out of its pool and an id found in
neither pool is skipped. -/
def expectedMoves : List TxnHash → TxnPool → TxnPool → List Transaction
  | [], _, _ => []
  | t :: rest, submitted, received =>
    match submitted t with
    | some tx => tx :: expectedMoves rest (submitted.erase t) received
    | none =>
      match received t with
      | some tx => tx :: expectedMoves rest submitted (received.erase t)
      | none => expectedMoves rest submitted received

/-- The lookup of an id in the submitted pool, or else in the received pool. -/
def lookupPools (submitted received : TxnPool) (t : TxnHash) : Option Transaction :=
  match submitted t with
  | some tx => some tx
  | none => received t

/-- The root-hash field of a forward-transaction message whose body starts at
cur_offset: the TRAN_HASH_SIZE bytes after the block number. -/
def forwardedRootHash (message : List Byte) (cur_offset : Nat) : TxnHash :=
  (message.drop ((cur_offset + UINT256_SIZE) % UINT_MOD)).take TRAN_HASH_SIZE

/-- The tracker has no entry that is an empty set, and every forwarding
assignment belongs to a block number that has a tracker entry. -/
def TrackerInvariant (n : Node) : Prop :=
  (∀ b, n.m_unavailableMicroBlocks b ≠ some ∅) ∧
  (∀ b, n.m_forwardingAssignment b ≠ none → n.m_unavailableMicroBlocks b ≠ none)

/-! ## Reference description of the sharing setup -/

/-- A sharing setup as the documented layout of the sub-message describes it:
the DS forwarders and, per shard, the receivers and the senders. -/
structure SharingSetup where
  dsForwarders : List Peer
  shards : List (List Peer × List Peer)
deriving DecidableEq, Repr

/-- The documented layout of a peer entry: 16-byte IP, 4-byte port. -/
def encodePeer (p : Peer) : List Byte :=
  encodeBE IP_SIZE p.m_ipAddress ++ encodeBE PORT_SIZE p.m_listenPortHost

/-- The documented layout of a peer list: 4-byte count, then the entries. -/
def encodePeerList (l : List Peer) : List Byte :=
  encodeBE 4 l.length ++ l.flatMap encodePeer

/-- The documented layout of a shard: the receiver list, then the sender list. -/
def encodeShard (sh : List Peer × List Peer) : List Byte :=
  encodePeerList sh.1 ++ encodePeerList sh.2

/-- The documented layout of the sharing-setup sub-message: the DS list, the
4-byte shard count, then the shards. -/
def encodeSharingSetup (s : SharingSetup) : List Byte :=
  encodePeerList s.dsForwarders ++ (encodeBE 4 s.shards.length ++ s.shards.flatMap encodeShard)

/-- The node list a sharing setup stands for: the DS list, then for every shard
its receivers and its senders. -/
def SharingSetup.nodes (s : SharingSetup) : List (List Peer) :=
  s.dsForwarders :: s.shards.flatMap (fun sh => [sh.1, sh.2])

/-- A peer whose IP fits 16 bytes and whose port fits 4 bytes. -/
def Peer.Representable (p : Peer) : Prop :=
  p.m_ipAddress < 2 ^ 128 ∧ p.m_listenPortHost < 2 ^ 32

/-- A peer list that fits its wire form: the count fits 4 bytes and every peer
is representable. -/
def PeersRepresentable (l : List Peer) : Prop :=
  l.length < 2 ^ 32 ∧ ∀ p ∈ l, p.Representable

/-- A sharing setup that fits its wire form: every count is below 2 ^ 32 and
every peer is representable. -/
def SharingSetup.Representable (s : SharingSetup) : Prop :=
  PeersRepresentable s.dsForwarders ∧ s.shards.length < 2 ^ 32 ∧
  ∀ sh ∈ s.shards, PeersRepresentable sh.1 ∧ PeersRepresentable sh.2

/-- The message holds the given bytes at the offset. -/
def HoldsAt (message : List Byte) (offset : Nat) (bytes : List Byte) : Prop :=
  offset + bytes.length ≤ message.length ∧ (message.drop offset).take bytes.length = bytes

instance (p : Peer) : Decidable p.Representable :=
  inferInstanceAs (Decidable (_ ∧ _))

instance (l : List Peer) : Decidable (PeersRepresentable l) :=
  inferInstanceAs (Decidable (_ ∧ _))

instance (s : SharingSetup) : Decidable s.Representable :=
  inferInstanceAs (Decidable (_ ∧ _ ∧ _))

instance (message : List Byte) (offset : Nat) (bytes : List Byte) :
    Decidable (HoldsAt message offset bytes) :=
  inferInstanceAs (Decidable (_ ∧ _))

/-- The receiver lists of the shards whose index differs from shard_id, in
shard order; first is the index of the first shard of the list. -/
def otherReceivers (shard_id : Nat) : List (List Peer × List Peer) → Nat → List Peer
  | [], _ => []
  | sh :: rest, first =>
    if first = shard_id then otherReceivers shard_id rest (first + 1)
    else sh.1 ++ otherReceivers shard_id rest (first + 1)

/-- The sender-only target set in the words of the specification: the DS
forwarder list followed by the receiver list of every other shard. -/
def SharingSetup.senderTargets (s : SharingSetup) (shard_id : Nat) : List Peer :=
  s.dsForwarders ++ otherReceivers shard_id s.shards 0

/-- The node on which ProcessFinalBlock decodes the sharing setup: the tracker
is loaded from the final block read at cur_offset, the block is stored and the
next round is prepared. -/
def nodeAfterStore (ext : Externals) (n : Node) (message : List Byte) (cur_offset : Nat) : Node :=
  let txBlock := ext.readTxBlock message cur_offset
  let n2 := StoreFinalBlock (LoadUnavailableMicroBlockTxRootHashes n txBlock txBlock.GetBlockNum)
    txBlock
  if n2.m_currentEpochNum % ext.NUM_FINAL_BLOCK_PER_POW = 0 then InitiatePoW1 n2
  else { n2 with detachedTasks := n2.detachedTasks ++ [DetachedTask.BeginNextConsensusRound] }

/-- The offset at which ProcessFinalBlock decodes the sharing setup: the end of
the final block read at cur_offset. -/
def sharingSetupOffset (ext : Externals) (message : List Byte) (cur_offset : Nat) : Nat :=
  (cur_offset + ext.TxBlockSerializedSize (ext.readTxBlock message cur_offset)) % UINT_MOD

/-- The outcome of ActOnFinalBlock on the pools, for a node n before and a node
n' after the call and the block number b of the last stored block.  When the
node has a micro-block whose TxRootHash is outstanding for b, the pools after
the call are the pools CommitMyShardsMicroBlock makes of the pools before;
otherwise the pools are unchanged and nothing is broadcast; in either case the
own root is not outstanding for b afterwards. -/
def OwnMicroBlockReconciled (n n' : Node) (b : BlockNum) (mode : TxSharingMode) : Prop :=
  ((∃ mb, n.m_microblock = some mb ∧
        mb.GetTxRootHash ∈ outstandingAt n.m_unavailableMicroBlocks b) →
    ∃ (n2 : Node) (out : List Transaction),
      CommitMyShardsMicroBlock n b mode [] = some (n2, out) ∧
      n'.m_submittedTransactions = n2.m_submittedTransactions ∧
      n'.m_receivedTransactions = n2.m_receivedTransactions ∧
      n'.m_committedTransactions = n2.m_committedTransactions ∧
      n'.m_submittedTransactions b = none ∧ n'.m_receivedTransactions b = none) ∧
  (¬ (∃ mb, n.m_microblock = some mb ∧
        mb.GetTxRootHash ∈ outstandingAt n.m_unavailableMicroBlocks b) →
    n'.m_submittedTransactions = n.m_submittedTransactions ∧
    n'.m_receivedTransactions = n.m_receivedTransactions ∧
    n'.m_committedTransactions = n.m_committedTransactions ∧
    n'.sentBroadcasts = n.sentBroadcasts) ∧
  (∀ mb, n.m_microblock = some mb →
    mb.GetTxRootHash ∉ outstandingAt n'.m_unavailableMicroBlocks b)

/-- Whether the own address is in the picked list (receivers or senders) of the
shard with index shard_id, for a list of shards numbered from first. -/
def selfInShard (selfPeer : Peer) (pick : List Peer × List Peer → List Peer) (shard_id : Nat)
    (shards : List (List Peer × List Peer)) (first : Nat) : Bool :=
  decide (first ≤ shard_id) &&
    (match shards.get? (shard_id - first) with
     | some sh => decide (selfPeer ∈ pick sh)
     | none => false)

/-- The tracker map after the insert loop of
LoadUnavailableMicroBlockTxRootHashes has run over the given hashes. -/
def trackerWith (b : BlockNum) (hashes : List TxnHash)
    (m : StdMap BlockNum (Finset TxnHash)) : StdMap BlockNum (Finset TxnHash) :=
  hashes.foldl (fun m hash => m.set b (insert hash (outstandingAt m b))) m

/-- The part of the node state that the round logic owns: the consensus id, the
leader id, the round state, the epoch counter and the detached tasks. -/
def roundView (n : Node) : Nat × Nat × NodeState × Nat × List DetachedTask :=
  (n.m_consensusID, n.m_consensusLeaderID, n.m_state, n.m_currentEpochNum, n.detachedTasks)

/-- The peer list that CallActOnFinalBlockBasedOnSenderForwarderAssgn hands to
ActOnFinalBlock as the list to broadcast to, read off its four call sites. -/
def sendingTarget (i_am_sender i_am_forwarder : Bool) (nodes : List (List Peer))
    (shard_id : Nat) : List Peer :=
  if i_am_sender = true ∧ i_am_forwarder = false then
    (receiversInOtherCommittees nodes shard_id).getD []
  else if i_am_sender = true ∧ i_am_forwarder = true then (nodes.get? (shard_id + 1)).getD []
  else []

/-- The peer list that CallActOnFinalBlockBasedOnSenderForwarderAssgn hands to
ActOnFinalBlock as the fellow forwarders of a forwarding node, read off its
call sites. -/
def forwardingFellows (i_am_sender : Bool) (nodes : List (List Peer)) (shard_id : Nat) :
    List Peer :=
  if i_am_sender = true then (receiversInOtherCommittees nodes shard_id).getD []
  else (nodes.get? (shard_id + 1)).getD []

/-! ## Sample data for worked examples -/

/-- A node that holds nothing: empty pools, tracker and chain. -/
def emptyNode : Node :=
  { m_submittedTransactions := StdMap.empty
    m_receivedTransactions := StdMap.empty
    m_committedTransactions := StdMap.empty
    m_unavailableMicroBlocks := StdMap.empty
    m_forwardingAssignment := StdMap.empty
    m_microblock := none
    m_consensusID := 0
    m_consensusLeaderID := 0
    m_consensusMyID := 0
    m_isPrimary := false
    m_state := NodeState.WAITING_FINALBLOCK
    m_myShardMembersNetworkInfo := []
    m_txBlockChain := []
    m_currentEpochNum := 0
    m_selfPeer := { m_ipAddress := 1, m_listenPortHost := 1 }
    sentBroadcasts := []
    detachedTasks := [] }

/-- A 32-byte hash whose bytes all equal the given one. -/
def sampleHash (v : Byte) : TxnHash := List.replicate 32 v

/-- A transaction with the given id and nothing else. -/
def sampleTxn (id : TxnHash) : Transaction :=
  { tranID := id, amount := 0, fromAddr := [], toAddr := [], payload := [] }

/-- A node that, for block 5, holds one submitted transaction (id 1), one
received transaction (id 2) and a micro-block that lists both ids. -/
def sampleNode : Node :=
  { emptyNode with
    m_submittedTransactions :=
      StdMap.empty.set 5 (StdMap.empty.set (sampleHash 1) (sampleTxn (sampleHash 1)))
    m_receivedTransactions :=
      StdMap.empty.set 5 (StdMap.empty.set (sampleHash 2) (sampleTxn (sampleHash 2)))
    m_microblock := some { txRootHash := sampleHash 9, tranHashes := [sampleHash 1, sampleHash 2] } }

/-- The node sampleNode with a micro-block that lists id 3, which no pool
holds, between the ids 1 and 2. -/
def sampleNodeMissing : Node :=
  { sampleNode with
    m_microblock :=
      some { txRootHash := sampleHash 9,
             tranHashes := [sampleHash 1, sampleHash 3, sampleHash 2] } }

/-- Collaborators for the worked examples: a transaction is one byte, which is
its id; the root of a list of ids is the hash whose bytes all equal the sum of
the first bytes of the ids; a final block is one byte of block number followed
by one 32-byte micro-block hash; sizeof(uint256_t) is taken to be the 32 bytes
that the comments of the source give for the DS block number. -/
def sampleExt : Externals :=
  { TxnSerializedSize := 1
    readTransaction := fun message offset => sampleTxn ((message.drop offset).take 1)
    serializeTransaction := fun tx => tx.tranID.take 1
    ComputeTransactionsRoot := fun hashes =>
      sampleHash (Fin.ofNat (hashes.foldl (fun acc h => acc + (h.headD 0).val) 0))
    readTxBlock := fun message offset =>
      { blockNum := ((message.drop offset).headD 0).val
        txRootHash := sampleHash 0
        numMicroBlockHashes := 1
        microBlockHashes := [(message.drop (offset + 1)).take 32] }
    TxBlockSerializedSize := fun _ => 33
    CheckWhetherDSBlockNumIsLatest := fun _ num => decide (num = 1)
    CheckStateProcessFinalBlock := fun st => decide (st = NodeState.WAITING_FINALBLOCK)
    NUM_FINAL_BLOCK_PER_POW := 100
    MessageType_NODE := 2
    FORWARDTRANSACTION := 8
    sizeof_uint256_t := 32 }

/-- The body of a forward-transaction message: block number, root hash and the
bytes of the transactions. -/
def sampleForwardMsg (blocknum : Nat) (root : TxnHash) (txns : List Byte) : List Byte :=
  encodeBE 32 blocknum ++ root ++ txns

/-- A peer of the sample shard other than the node itself. -/
def samplePeer : Peer := { m_ipAddress := 2, m_listenPortHost := 2 }

/-- A node whose tracker holds the hashes 1 and 2 for block 7 and which forwards
the bodies of block 7 to one peer. -/
def sampleNodeTwoHashes : Node :=
  { emptyNode with
    m_unavailableMicroBlocks := StdMap.empty.set 7 {sampleHash 1, sampleHash 2}
    m_forwardingAssignment := StdMap.empty.set 7 [samplePeer] }

/-- A node that waits for a final block: its micro-block has the root hash 9,
its shard has two members and it is the first of them. -/
def sampleNodeWaiting : Node :=
  { emptyNode with
    m_microblock := some { txRootHash := sampleHash 9, tranHashes := [] }
    m_myShardMembersNetworkInfo := [emptyNode.m_selfPeer, samplePeer] }

/-- A final-block message for sampleExt: DS block number 0, consensus id 0,
shard id 0, the final block 7 whose only micro-block hash is 9, and a sharing
setup without DS forwarders and with one shard whose only receiver is the node
itself and which has no sender. -/
def sampleFinalBlockMsg : List Byte :=
  encodeBE 32 0 ++ encodeBE 4 0 ++ [0] ++ ([7] ++ sampleHash 9) ++
    (encodeBE 4 0 ++ encodeBE 4 1 ++ (encodeBE 4 1 ++ (encodeBE 16 1 ++ encodeBE 4 1)) ++ encodeBE 4 0)

/-- The message sampleFinalBlockMsg cut after the count of DS forwarders, which
is changed to announce one forwarder: no byte of that peer is in the
message. -/
def sampleTruncatedMsg : List Byte :=
  encodeBE 32 0 ++ encodeBE 4 0 ++ [0] ++ ([7] ++ sampleHash 9) ++ encodeBE 4 1

/-- The sample node in a round state in which no final block is expected. -/
def sampleNodeSubmitting : Node :=
  { sampleNodeWaiting with m_state := NodeState.TX_SUBMISSION }

/-- The final block 7 of the worked examples. -/
def sampleBlock7 : TxBlock :=
  { blockNum := 7, txRootHash := sampleHash 0, numMicroBlockHashes := 1,
    microBlockHashes := [sampleHash 9] }

/-- A node that has stored the final block 7: the root 9 of its micro-block is
outstanding for block 7, the micro-block lists the transaction id 1, which the
submitted pool of block 7 holds. -/
def sampleNodeStored : Node :=
  { emptyNode with
    m_submittedTransactions :=
      StdMap.empty.set 7 (StdMap.empty.set (sampleHash 1) (sampleTxn (sampleHash 1)))
    m_unavailableMicroBlocks := StdMap.empty.set 7 {sampleHash 9}
    m_microblock := some { txRootHash := sampleHash 9, tranHashes := [sampleHash 1] }
    m_myShardMembersNetworkInfo := [emptyNode.m_selfPeer, samplePeer]
    m_txBlockChain := [sampleBlock7] }

/-- A sharing setup with one DS forwarder and three shards; the node itself is
a receiver and a sender of shard 1. -/
def sampleSetup : SharingSetup :=
  { dsForwarders := [{ m_ipAddress := 10, m_listenPortHost := 1 }]
    shards :=
      [([{ m_ipAddress := 20, m_listenPortHost := 1 }], [{ m_ipAddress := 21, m_listenPortHost := 1 }]),
       ([emptyNode.m_selfPeer, samplePeer], [emptyNode.m_selfPeer]),
       ([{ m_ipAddress := 40, m_listenPortHost := 1 }], [{ m_ipAddress := 41, m_listenPortHost := 1 }])] }

/-- A final-block message for sampleExt that carries sampleSetup: DS block
number 0, consensus id 0, shard id 1 and the final block 7 whose only
micro-block hash is 9. -/
def sampleSetupMsg : List Byte :=
  encodeBE 32 0 ++ encodeBE 4 0 ++ [1] ++ ([7] ++ sampleHash 9) ++ encodeSharingSetup sampleSetup

/-- A node that waits for a final block: its micro-block has the root 9 and
lists the transaction id 1, which the submitted pool of block 7 holds. -/
def sampleNodeWaitingTxn : Node :=
  { emptyNode with
    m_submittedTransactions :=
      StdMap.empty.set 7 (StdMap.empty.set (sampleHash 1) (sampleTxn (sampleHash 1)))
    m_microblock := some { txRootHash := sampleHash 9, tranHashes := [sampleHash 1] }
    m_myShardMembersNetworkInfo := [emptyNode.m_selfPeer, samplePeer] }

/-- The sample node in a round led by the last member of its shard of two: the
leader id is 1. -/
def sampleNodeLastLeader : Node :=
  { sampleNodeWaiting with m_consensusLeaderID := 1 }

/-- The collaborators of the worked examples with a proof of work after every
final block. -/
def sampleExtEveryBlock : Externals :=
  { sampleExt with NUM_FINAL_BLOCK_PER_POW := 1 }

/-- A sharing setup with one DS forwarder and two shards; the node itself and
samplePeer are the receivers of shard 1, of which the node is no sender. -/
def sampleSetupReceiver : SharingSetup :=
  { dsForwarders := [{ m_ipAddress := 10, m_listenPortHost := 1 }]
    shards :=
      [([{ m_ipAddress := 20, m_listenPortHost := 1 }], [{ m_ipAddress := 21, m_listenPortHost := 1 }]),
       ([emptyNode.m_selfPeer, samplePeer], [{ m_ipAddress := 31, m_listenPortHost := 1 }])] }

/-- A final-block message for sampleExt that carries sampleSetupReceiver: DS
block number 0, consensus id 0, shard id 1 and the final block 7 whose only
micro-block hash is 9. -/
def sampleReceiverMsg : List Byte :=
  encodeBE 32 0 ++ encodeBE 4 0 ++ [1] ++ ([7] ++ sampleHash 9)
    ++ encodeSharingSetup sampleSetupReceiver

/-- The sample node in shard 1 of sampleSetupReceiver: the shard has the three
members of that setup and the node is the first of them. -/
def sampleNodeShardOfThree : Node :=
  { sampleNodeWaiting with
    m_myShardMembersNetworkInfo :=
      [emptyNode.m_selfPeer, samplePeer, { m_ipAddress := 31, m_listenPortHost := 1 }] }

/-- The collaborators of the worked examples with transactions of two bytes:
the first byte is the id, the second is not read. -/
def sampleExtTwoBytes : Externals :=
  { sampleExt with TxnSerializedSize := 2 }

/-- The root hash 3 followed by two transactions of two bytes (ids 1 and 2) and
a trailing fragment of one byte. -/
def sampleFragmentMsg : List Byte :=
  sampleHash 3 ++ [1, 0, 2, 0, 9]

/-- A node whose tracker holds the hash 1 alone for block 7, which has one
committed transaction (id 5) for block 7 and forwards the bodies of block 7 to
one peer. -/
def sampleNodeOneHash : Node :=
  { emptyNode with
    m_committedTransactions := StdMap.empty.set 7 [sampleTxn (sampleHash 5)]
    m_unavailableMicroBlocks := StdMap.empty.set 7 {sampleHash 1}
    m_forwardingAssignment := StdMap.empty.set 7 [samplePeer] }

/-- A node whose tracker holds the hash 3 alone for block 7. -/
def sampleNodeHashThree : Node :=
  { emptyNode with m_unavailableMicroBlocks := StdMap.empty.set 7 {sampleHash 3} }

/-- A sharing setup without DS forwarders and with one shard, whose only
receiver is the node itself and which has no sender. -/
def sampleSetupOwn : SharingSetup :=
  { dsForwarders := [], shards := [([emptyNode.m_selfPeer], [])] }

/-- The node sampleNodeStored in a shard of three members. -/
def sampleNodeStoredOfThree : Node :=
  { sampleNodeStored with
    m_myShardMembersNetworkInfo :=
      [emptyNode.m_selfPeer, samplePeer, { m_ipAddress := 31, m_listenPortHost := 1 }] }

/-- The collaborators of the worked examples on a platform where
sizeof(uint256_t) is 48, the object size of the Boost type with 64-bit limbs:
the 32 bytes of the number, the limb count and the padding. -/
def sampleExtWide : Externals :=
  { sampleExt with sizeof_uint256_t := 48 }

/-- The message sampleFinalBlockMsg with the DS block number in a field of 48
bytes. -/
def sampleWideHeaderMsg : List Byte :=
  encodeBE 48 0 ++ encodeBE 4 0 ++ [0] ++ ([7] ++ sampleHash 9) ++
    (encodeBE 4 0 ++ encodeBE 4 1 ++ (encodeBE 4 1 ++ (encodeBE 16 1 ++ encodeBE 4 1)) ++ encodeBE 4 0)

/-! ## Properties -/

section MapLemmas

variable {K V : Type} [DecidableEq K]

@[simp] theorem StdMap.set_same (m : StdMap K V) (k : K) (v : V) : m.set k v k = some v := by
  simp [StdMap.set]

@[simp] theorem StdMap.set_other (m : StdMap K V) (k k' : K) (v : V) (h : k' ≠ k) :
    m.set k v k' = m k' := by
  simp [StdMap.set, h]

@[simp] theorem StdMap.erase_same (m : StdMap K V) (k : K) : m.erase k k = none := by
  simp [StdMap.erase]

@[simp] theorem StdMap.erase_other (m : StdMap K V) (k k' : K) (h : k' ≠ k) :
    m.erase k k' = m k' := by
  simp [StdMap.erase, h]

end MapLemmas

@[simp] theorem poolAt_set_same (m : StdMap BlockNum TxnPool) (b : BlockNum) (p : TxnPool) :
    poolAt (m.set b p) b = p := by
  simp [poolAt]

@[simp] theorem poolAt_set_other (m : StdMap BlockNum TxnPool) (b b' : BlockNum) (p : TxnPool)
    (h : b' ≠ b) : poolAt (m.set b p) b' = poolAt m b' := by
  simp [poolAt, h]

@[simp] theorem committedAt_set_same (m : StdMap BlockNum (List Transaction)) (b : BlockNum)
    (l : List Transaction) : committedAt (m.set b l) b = l := by
  simp [committedAt]

@[simp] theorem committedAt_set_other (m : StdMap BlockNum (List Transaction)) (b b' : BlockNum)
    (l : List Transaction) (h : b' ≠ b) : committedAt (m.set b l) b' = committedAt m b' := by
  simp [committedAt, h]

theorem poolAt_set_self (m : StdMap BlockNum TxnPool) (b b' : BlockNum) :
    poolAt (m.set b (poolAt m b)) b' = poolAt m b' := by
  by_cases h : b' = b
  · subst h; simp
  · simp [h]

theorem committedAt_set_self (m : StdMap BlockNum (List Transaction)) (b b' : BlockNum) :
    committedAt (m.set b (committedAt m b)) b' = committedAt m b' := by
  by_cases h : b' = b
  · subst h; simp
  · simp [h]

/-- C6: IsMicroBlockTxRootHashInFinalBlock(h, b) returns true exactly when h
was in the outstanding set of b; afterwards h is not in that set, every other
hash of every set is as before and the entries of other block numbers are the
same; a second call with a hash that was outstanding returns false and leaves
the tracker as the first call left it. -/
theorem IsMicroBlockTxRootHashInFinalBlock_markDelivered (n : Node) (h : TxnHash)
    (b : BlockNum) :
    ((IsMicroBlockTxRootHashInFinalBlock n h b).1 = true ↔
        h ∈ outstandingAt n.m_unavailableMicroBlocks b) ∧
    h ∉ outstandingAt (IsMicroBlockTxRootHashInFinalBlock n h b).2.m_unavailableMicroBlocks b ∧
    (∀ (b' : BlockNum) (h' : TxnHash), (b' ≠ b ∨ h' ≠ h) →
        (h' ∈ outstandingAt (IsMicroBlockTxRootHashInFinalBlock n h b).2.m_unavailableMicroBlocks b'
          ↔ h' ∈ outstandingAt n.m_unavailableMicroBlocks b')) ∧
    (∀ b' : BlockNum, b' ≠ b →
        (IsMicroBlockTxRootHashInFinalBlock n h b).2.m_unavailableMicroBlocks b'
          = n.m_unavailableMicroBlocks b') ∧
    (h ∈ outstandingAt n.m_unavailableMicroBlocks b →
        (IsMicroBlockTxRootHashInFinalBlock n h b).1 = true ∧
        (IsMicroBlockTxRootHashInFinalBlock (IsMicroBlockTxRootHashInFinalBlock n h b).2 h b).1
          = false ∧
        (IsMicroBlockTxRootHashInFinalBlock
            (IsMicroBlockTxRootHashInFinalBlock n h b).2 h b).2.m_unavailableMicroBlocks
          = (IsMicroBlockTxRootHashInFinalBlock n h b).2.m_unavailableMicroBlocks) := by
  refine ⟨?_, ?_, ?_, ?_, ?_⟩
  · simp [IsMicroBlockTxRootHashInFinalBlock]
  · simp [IsMicroBlockTxRootHashInFinalBlock, outstandingAt]
  · intro b' h' hne
    by_cases hb : b' = b
    · subst hb
      have hh : h' ≠ h := by
        rcases hne with hne | hne
        · exact absurd rfl hne
        · exact hne
      simp [IsMicroBlockTxRootHashInFinalBlock, outstandingAt, Finset.mem_erase, hh]
    · simp [IsMicroBlockTxRootHashInFinalBlock, outstandingAt, hb]
  · intro b' hb
    simp [IsMicroBlockTxRootHashInFinalBlock, hb]
  · intro hmem
    refine ⟨by simpa [IsMicroBlockTxRootHashInFinalBlock] using hmem, ?_, ?_⟩
    · simp [IsMicroBlockTxRootHashInFinalBlock, outstandingAt]
    · funext b'
      by_cases hb : b' = b
      · subst hb
        simp [IsMicroBlockTxRootHashInFinalBlock, outstandingAt]
      · simp [IsMicroBlockTxRootHashInFinalBlock, hb]

/-- C6, worked example: the hash is outstanding for block 7 of a node; the first
call reports it and the second does not. -/
theorem IsMicroBlockTxRootHashInFinalBlock_markDelivered_witness :
    sampleHash 1 ∈ outstandingAt
        ({ emptyNode with
           m_unavailableMicroBlocks := StdMap.empty.set 7 {sampleHash 1} } : Node).m_unavailableMicroBlocks 7 ∧
    (IsMicroBlockTxRootHashInFinalBlock
        { emptyNode with m_unavailableMicroBlocks := StdMap.empty.set 7 {sampleHash 1} }
        (sampleHash 1) 7).1 = true ∧
    (IsMicroBlockTxRootHashInFinalBlock
        (IsMicroBlockTxRootHashInFinalBlock
          { emptyNode with m_unavailableMicroBlocks := StdMap.empty.set 7 {sampleHash 1} }
          (sampleHash 1) 7).2 (sampleHash 1) 7).1 = false :=
  have hmem : sampleHash 1 ∈ outstandingAt
        ({ emptyNode with
           m_unavailableMicroBlocks := StdMap.empty.set 7 {sampleHash 1} } : Node).m_unavailableMicroBlocks 7 := by
    simp [outstandingAt]
  ⟨hmem,
   ((IsMicroBlockTxRootHashInFinalBlock_markDelivered _ (sampleHash 1) 7).2.2.2.2 hmem).1,
   ((IsMicroBlockTxRootHashInFinalBlock_markDelivered _ (sampleHash 1) 7).2.2.2.2 hmem).2.1⟩

/-- C7: for a block number b with a tracker entry,
DeleteEntryFromFwdingAssgnAndMissingBodyCountMap(b) returns; when the
outstanding set of b is empty, the tracker and the forwarding-assignment map
have no entry for b afterwards; when it is not empty, both maps are unchanged;
entries of other block numbers are unchanged in both cases. -/
theorem DeleteEntryFromFwdingAssgnAndMissingBodyCountMap_checkCompletion (n : Node)
    (b : BlockNum) (s : Finset TxnHash) (hentry : n.m_unavailableMicroBlocks b = some s) :
    ∃ n' : Node, DeleteEntryFromFwdingAssgnAndMissingBodyCountMap n b = some n' ∧
      (s = ∅ → n'.m_unavailableMicroBlocks b = none ∧ n'.m_forwardingAssignment b = none) ∧
      (s ≠ ∅ → n'.m_unavailableMicroBlocks = n.m_unavailableMicroBlocks ∧
                n'.m_forwardingAssignment = n.m_forwardingAssignment) ∧
      (∀ b' : BlockNum, b' ≠ b →
          n'.m_unavailableMicroBlocks b' = n.m_unavailableMicroBlocks b' ∧
          n'.m_forwardingAssignment b' = n.m_forwardingAssignment b') := by
  by_cases hs : s = ∅
  · refine ⟨{ n with
              m_unavailableMicroBlocks := n.m_unavailableMicroBlocks.erase b
              m_forwardingAssignment := n.m_forwardingAssignment.erase b }, ?_, ?_, ?_, ?_⟩
    · simp [DeleteEntryFromFwdingAssgnAndMissingBodyCountMap, hentry, hs]
    · intro _; simp
    · intro hne; exact absurd hs hne
    · intro b' hb; simp [hb]
  · refine ⟨n, ?_, ?_, ?_, ?_⟩
    · simp [DeleteEntryFromFwdingAssgnAndMissingBodyCountMap, hentry, hs]
    · intro he; exact absurd he hs
    · intro _; exact ⟨rfl, rfl⟩
    · intro b' _; exact ⟨rfl, rfl⟩

/-- C7, worked example: block 7 has an empty outstanding set and a forwarding
assignment; both entries are gone after the call. -/
theorem DeleteEntryFromFwdingAssgnAndMissingBodyCountMap_checkCompletion_witness :
    ({ emptyNode with
       m_unavailableMicroBlocks := StdMap.empty.set 7 ∅
       m_forwardingAssignment := StdMap.empty.set 7 [emptyNode.m_selfPeer] } : Node).m_unavailableMicroBlocks 7
      = some ∅ ∧
    ∃ n' : Node,
      DeleteEntryFromFwdingAssgnAndMissingBodyCountMap
        { emptyNode with
          m_unavailableMicroBlocks := StdMap.empty.set 7 ∅
          m_forwardingAssignment := StdMap.empty.set 7 [emptyNode.m_selfPeer] } 7 = some n' ∧
      n'.m_unavailableMicroBlocks 7 = none ∧ n'.m_forwardingAssignment 7 = none :=
  ⟨by simp,
   match DeleteEntryFromFwdingAssgnAndMissingBodyCountMap_checkCompletion
      { emptyNode with
        m_unavailableMicroBlocks := StdMap.empty.set 7 ∅
        m_forwardingAssignment := StdMap.empty.set 7 [emptyNode.m_selfPeer] } 7 ∅ (by simp) with
   | ⟨n', h1, h2, _, _⟩ => ⟨n', h1, h2 rfl⟩⟩

/-- C5: each of FindTxnInSubmittedTxnsList and FindTxnInReceivedTxnsList returns
true exactly when the id is a key of its source pool for the block number.  On
true the id is gone from the source pool, the transaction stored under it is
the new last element of the committed list of that block number, and nothing
else changed in the source pool, the other pool or the committed lists.  On
false the transactions held by the three pools are unchanged. -/
theorem FindTxn_moves_atomically (n : Node) (b : BlockNum) (mode : TxSharingMode)
    (out : List Transaction) (t : TxnHash) :
    (((FindTxnInSubmittedTxnsList n b mode out t).1 = true ↔
        (poolAt n.m_submittedTransactions b t).isSome = true) ∧
     ((FindTxnInSubmittedTxnsList n b mode out t).1 = true →
        poolAt (FindTxnInSubmittedTxnsList n b mode out t).2.1.m_submittedTransactions b t = none ∧
        (∃ tx, poolAt n.m_submittedTransactions b t = some tx ∧
          (FindTxnInSubmittedTxnsList n b mode out t).2.1.m_committedTransactions b
            = some (committedAt n.m_committedTransactions b ++ [tx])) ∧
        (∀ t', t' ≠ t →
          poolAt (FindTxnInSubmittedTxnsList n b mode out t).2.1.m_submittedTransactions b t'
            = poolAt n.m_submittedTransactions b t') ∧
        (∀ b', b' ≠ b →
          (FindTxnInSubmittedTxnsList n b mode out t).2.1.m_submittedTransactions b'
            = n.m_submittedTransactions b' ∧
          (FindTxnInSubmittedTxnsList n b mode out t).2.1.m_committedTransactions b'
            = n.m_committedTransactions b') ∧
        (FindTxnInSubmittedTxnsList n b mode out t).2.1.m_receivedTransactions
          = n.m_receivedTransactions) ∧
     ((FindTxnInSubmittedTxnsList n b mode out t).1 = false →
        ∀ b',
          poolAt (FindTxnInSubmittedTxnsList n b mode out t).2.1.m_submittedTransactions b'
            = poolAt n.m_submittedTransactions b' ∧
          poolAt (FindTxnInSubmittedTxnsList n b mode out t).2.1.m_receivedTransactions b'
            = poolAt n.m_receivedTransactions b' ∧
          committedAt (FindTxnInSubmittedTxnsList n b mode out t).2.1.m_committedTransactions b'
            = committedAt n.m_committedTransactions b')) ∧
    (((FindTxnInReceivedTxnsList n b mode out t).1 = true ↔
        (poolAt n.m_receivedTransactions b t).isSome = true) ∧
     ((FindTxnInReceivedTxnsList n b mode out t).1 = true →
        poolAt (FindTxnInReceivedTxnsList n b mode out t).2.1.m_receivedTransactions b t = none ∧
        (∃ tx, poolAt n.m_receivedTransactions b t = some tx ∧
          (FindTxnInReceivedTxnsList n b mode out t).2.1.m_committedTransactions b
            = some (committedAt n.m_committedTransactions b ++ [tx])) ∧
        (∀ t', t' ≠ t →
          poolAt (FindTxnInReceivedTxnsList n b mode out t).2.1.m_receivedTransactions b t'
            = poolAt n.m_receivedTransactions b t') ∧
        (∀ b', b' ≠ b →
          (FindTxnInReceivedTxnsList n b mode out t).2.1.m_receivedTransactions b'
            = n.m_receivedTransactions b' ∧
          (FindTxnInReceivedTxnsList n b mode out t).2.1.m_committedTransactions b'
            = n.m_committedTransactions b') ∧
        (FindTxnInReceivedTxnsList n b mode out t).2.1.m_submittedTransactions
          = n.m_submittedTransactions) ∧
     ((FindTxnInReceivedTxnsList n b mode out t).1 = false →
        ∀ b',
          poolAt (FindTxnInReceivedTxnsList n b mode out t).2.1.m_submittedTransactions b'
            = poolAt n.m_submittedTransactions b' ∧
          poolAt (FindTxnInReceivedTxnsList n b mode out t).2.1.m_receivedTransactions b'
            = poolAt n.m_receivedTransactions b' ∧
          committedAt (FindTxnInReceivedTxnsList n b mode out t).2.1.m_committedTransactions b'
            = committedAt n.m_committedTransactions b')) := by
  constructor
  · cases hfind : poolAt n.m_submittedTransactions b t with
    | none =>
      refine ⟨by simp [FindTxnInSubmittedTxnsList, hfind], ?_, ?_⟩
      · intro h; simp [FindTxnInSubmittedTxnsList, hfind] at h
      · intro _ b'
        simp [FindTxnInSubmittedTxnsList, hfind, poolAt_set_self, committedAt_set_self]
    | some tx =>
      refine ⟨by simp [FindTxnInSubmittedTxnsList, hfind], ?_, ?_⟩
      · intro _
        refine ⟨?_, ⟨tx, rfl, ?_⟩, ?_, ?_, ?_⟩
        · simp [FindTxnInSubmittedTxnsList, hfind]
        · simp [FindTxnInSubmittedTxnsList, hfind]
        · intro t' ht
          simp [FindTxnInSubmittedTxnsList, hfind, ht]
        · intro b' hb
          simp [FindTxnInSubmittedTxnsList, hfind, hb]
        · simp [FindTxnInSubmittedTxnsList, hfind]
      · intro h; simp [FindTxnInSubmittedTxnsList, hfind] at h
  · cases hfind : poolAt n.m_receivedTransactions b t with
    | none =>
      refine ⟨by simp [FindTxnInReceivedTxnsList, hfind], ?_, ?_⟩
      · intro h; simp [FindTxnInReceivedTxnsList, hfind] at h
      · intro _ b'
        simp [FindTxnInReceivedTxnsList, hfind, poolAt_set_self, committedAt_set_self]
    | some tx =>
      refine ⟨by simp [FindTxnInReceivedTxnsList, hfind], ?_, ?_⟩
      · intro _
        refine ⟨?_, ⟨tx, rfl, ?_⟩, ?_, ?_, ?_⟩
        · simp [FindTxnInReceivedTxnsList, hfind]
        · simp [FindTxnInReceivedTxnsList, hfind]
        · intro t' ht
          simp [FindTxnInReceivedTxnsList, hfind, ht]
        · intro b' hb
          simp [FindTxnInReceivedTxnsList, hfind, hb]
        · simp [FindTxnInReceivedTxnsList, hfind]
      · intro h; simp [FindTxnInReceivedTxnsList, hfind] at h

theorem FindTxnInSubmittedTxnsList_found (n : Node) (b : BlockNum) (mode : TxSharingMode)
    (out : List Transaction) (t : TxnHash) (tx : Transaction)
    (h : poolAt n.m_submittedTransactions b t = some tx) :
    FindTxnInSubmittedTxnsList n b mode out t =
      (true,
       { n with
         m_submittedTransactions :=
           n.m_submittedTransactions.set b ((poolAt n.m_submittedTransactions b).erase t)
         m_committedTransactions :=
           n.m_committedTransactions.set b (committedAt n.m_committedTransactions b ++ [tx]) },
       if sendsBodies mode then out ++ [tx] else out) := by
  simp [FindTxnInSubmittedTxnsList, h]

theorem FindTxnInSubmittedTxnsList_missing (n : Node) (b : BlockNum) (mode : TxSharingMode)
    (out : List Transaction) (t : TxnHash)
    (h : poolAt n.m_submittedTransactions b t = none) :
    FindTxnInSubmittedTxnsList n b mode out t =
      (false,
       { n with
         m_submittedTransactions :=
           n.m_submittedTransactions.set b (poolAt n.m_submittedTransactions b)
         m_committedTransactions :=
           n.m_committedTransactions.set b (committedAt n.m_committedTransactions b) },
       out) := by
  simp [FindTxnInSubmittedTxnsList, h]

theorem FindTxnInReceivedTxnsList_found (n : Node) (b : BlockNum) (mode : TxSharingMode)
    (out : List Transaction) (t : TxnHash) (tx : Transaction)
    (h : poolAt n.m_receivedTransactions b t = some tx) :
    FindTxnInReceivedTxnsList n b mode out t =
      (true,
       { n with
         m_receivedTransactions :=
           n.m_receivedTransactions.set b ((poolAt n.m_receivedTransactions b).erase t)
         m_committedTransactions :=
           n.m_committedTransactions.set b (committedAt n.m_committedTransactions b ++ [tx]) },
       if sendsBodies mode then out ++ [tx] else out) := by
  simp [FindTxnInReceivedTxnsList, h]

theorem FindTxnInReceivedTxnsList_missing (n : Node) (b : BlockNum) (mode : TxSharingMode)
    (out : List Transaction) (t : TxnHash)
    (h : poolAt n.m_receivedTransactions b t = none) :
    FindTxnInReceivedTxnsList n b mode out t =
      (false,
       { n with
         m_receivedTransactions :=
           n.m_receivedTransactions.set b (poolAt n.m_receivedTransactions b)
         m_committedTransactions :=
           n.m_committedTransactions.set b (committedAt n.m_committedTransactions b) },
       out) := by
  simp [FindTxnInReceivedTxnsList, h]

/-- What the loop of CommitMyShardsMicroBlock does to a node: the committed
list of the block number grows by the expected moves, the send list grows by
the same transactions when the mode sends bodies, and nothing else changes
outside the three pool entries of the block number. -/
theorem commitLoop_spec (b : BlockNum) (mode : TxSharingMode) :
    ∀ (hashes : List TxnHash) (n : Node) (out : List Transaction),
      committedAt (commitLoop b mode hashes n out).1.m_committedTransactions b
        = committedAt n.m_committedTransactions b
            ++ expectedMoves hashes (poolAt n.m_submittedTransactions b)
                 (poolAt n.m_receivedTransactions b) ∧
      (commitLoop b mode hashes n out).2
        = out ++ (if sendsBodies mode then
                    expectedMoves hashes (poolAt n.m_submittedTransactions b)
                      (poolAt n.m_receivedTransactions b)
                  else []) ∧
      (∀ b', b' ≠ b →
        (commitLoop b mode hashes n out).1.m_submittedTransactions b'
          = n.m_submittedTransactions b' ∧
        (commitLoop b mode hashes n out).1.m_receivedTransactions b'
          = n.m_receivedTransactions b' ∧
        (commitLoop b mode hashes n out).1.m_committedTransactions b'
          = n.m_committedTransactions b') ∧
      (hashes ≠ [] → ((commitLoop b mode hashes n out).1.m_committedTransactions b).isSome = true) ∧
      (commitLoop b mode hashes n out).1.m_microblock = n.m_microblock ∧
      (commitLoop b mode hashes n out).1.m_unavailableMicroBlocks = n.m_unavailableMicroBlocks ∧
      (commitLoop b mode hashes n out).1.m_forwardingAssignment = n.m_forwardingAssignment ∧
      (commitLoop b mode hashes n out).1.m_txBlockChain = n.m_txBlockChain ∧
      (commitLoop b mode hashes n out).1.sentBroadcasts = n.sentBroadcasts := by
  intro hashes
  induction hashes with
  | nil =>
    intro n out
    simp [commitLoop, expectedMoves]
  | cons t rest ih =>
    intro n out
    cases hs : poolAt n.m_submittedTransactions b t with
    | some tx =>
      have hstep := FindTxnInSubmittedTxnsList_found n b mode out t tx hs
      have h := ih
        { n with
          m_submittedTransactions :=
            n.m_submittedTransactions.set b ((poolAt n.m_submittedTransactions b).erase t)
          m_committedTransactions :=
            n.m_committedTransactions.set b (committedAt n.m_committedTransactions b ++ [tx]) }
        (if sendsBodies mode then out ++ [tx] else out)
      simp only [commitLoop, hstep, if_true]
      simp only [poolAt_set_same, committedAt_set_same] at h
      obtain ⟨h1, h2, h3, h4, h5, h6, h7, h8, h9⟩ := h
      refine ⟨?_, ?_, ?_, ?_, h5, h6, h7, h8, h9⟩
      · rw [h1]; simp [expectedMoves, hs]
      · rw [h2]; cases sendsBodies mode <;> simp [expectedMoves, hs]
      · intro b' hb
        have := h3 b' hb
        simpa [hb] using this
      · intro _
        by_cases hr : rest = []
        · subst hr; simp [commitLoop]
        · exact h4 hr
    | none =>
      have hstep := FindTxnInSubmittedTxnsList_missing n b mode out t hs
      cases hr : poolAt n.m_receivedTransactions b t with
      | some tx =>
        have hstep2 := FindTxnInReceivedTxnsList_found
          { n with
            m_submittedTransactions :=
              n.m_submittedTransactions.set b (poolAt n.m_submittedTransactions b)
            m_committedTransactions :=
              n.m_committedTransactions.set b (committedAt n.m_committedTransactions b) }
          b mode out t tx hr
        have h := ih
          { n with
            m_submittedTransactions :=
              n.m_submittedTransactions.set b (poolAt n.m_submittedTransactions b)
            m_receivedTransactions :=
              n.m_receivedTransactions.set b ((poolAt n.m_receivedTransactions b).erase t)
            m_committedTransactions :=
              (n.m_committedTransactions.set b (committedAt n.m_committedTransactions b)).set b
                (committedAt n.m_committedTransactions b ++ [tx]) }
          (if sendsBodies mode then out ++ [tx] else out)
        simp only [committedAt_set_same] at hstep2
        simp only [commitLoop, hstep, hstep2]
        simp only [poolAt_set_same, committedAt_set_same] at h
        obtain ⟨h1, h2, h3, h4, h5, h6, h7, h8, h9⟩ := h
        refine ⟨?_, ?_, ?_, ?_, h5, h6, h7, h8, h9⟩
        · simp only [Bool.false_eq_true, if_false]; rw [h1]; simp [expectedMoves, hs, hr]
        · simp only [Bool.false_eq_true, if_false]; rw [h2]
          cases sendsBodies mode <;> simp [expectedMoves, hs, hr]
        · intro b' hb
          have := h3 b' hb
          simp only [Bool.false_eq_true, if_false]
          simpa [hb] using this
        · intro _
          simp only [Bool.false_eq_true, if_false]
          by_cases hrest : rest = []
          · subst hrest; simp [commitLoop]
          · exact h4 hrest
      | none =>
        have hstep2 := FindTxnInReceivedTxnsList_missing
          { n with
            m_submittedTransactions :=
              n.m_submittedTransactions.set b (poolAt n.m_submittedTransactions b)
            m_committedTransactions :=
              n.m_committedTransactions.set b (committedAt n.m_committedTransactions b) }
          b mode out t hr
        have h := ih
          { n with
            m_submittedTransactions :=
              n.m_submittedTransactions.set b (poolAt n.m_submittedTransactions b)
            m_receivedTransactions :=
              n.m_receivedTransactions.set b (poolAt n.m_receivedTransactions b)
            m_committedTransactions :=
              (n.m_committedTransactions.set b (committedAt n.m_committedTransactions b)).set b
                (committedAt n.m_committedTransactions b) }
          out
        simp only [committedAt_set_same] at hstep2
        simp only [commitLoop, hstep, hstep2]
        simp only [poolAt_set_same, committedAt_set_same] at h
        obtain ⟨h1, h2, h3, h4, h5, h6, h7, h8, h9⟩ := h
        refine ⟨?_, ?_, ?_, ?_, h5, h6, h7, h8, h9⟩
        · simp only [Bool.false_eq_true, if_false]; rw [h1]; simp [expectedMoves, hs, hr]
        · simp only [Bool.false_eq_true, if_false]; rw [h2]
          cases sendsBodies mode <;> simp [expectedMoves, hs, hr]
        · intro b' hb
          have := h3 b' hb
          simp only [Bool.false_eq_true, if_false]
          simpa [hb] using this
        · intro _
          simp only [Bool.false_eq_true, if_false]
          by_cases hrest : rest = []
          · subst hrest; simp [commitLoop]
          · exact h4 hrest

theorem CommitMyShardsMicroBlock_eq (n : Node) (mb : MicroBlock) (b : BlockNum)
    (mode : TxSharingMode) (out : List Transaction) (hmb : n.m_microblock = some mb) :
    CommitMyShardsMicroBlock n b mode out =
      some ({ (commitLoop b mode mb.GetTranHashes n out).1 with
              m_receivedTransactions :=
                (commitLoop b mode mb.GetTranHashes n out).1.m_receivedTransactions.erase b
              m_submittedTransactions :=
                (commitLoop b mode mb.GetTranHashes n out).1.m_submittedTransactions.erase b },
            (commitLoop b mode mb.GetTranHashes n out).2) := by
  simp [CommitMyShardsMicroBlock, hmb]

theorem lookupPools_erase_submitted (submitted received : TxnPool) (t t' : TxnHash)
    (h : t' ≠ t) : lookupPools (submitted.erase t) received t' = lookupPools submitted received t' := by
  simp [lookupPools, h]

theorem lookupPools_erase_received (submitted received : TxnPool) (t t' : TxnHash)
    (h : t' ≠ t) : lookupPools submitted (received.erase t) t' = lookupPools submitted received t' := by
  simp [lookupPools, h]

/-- For pairwise distinct ids the expected moves are the lookups of the ids in
the pools as they stand before the first id is visited. -/
theorem expectedMoves_of_nodup :
    ∀ (hashes : List TxnHash) (submitted received : TxnPool), hashes.Nodup →
      expectedMoves hashes submitted received
        = hashes.filterMap (lookupPools submitted received) := by
  intro hashes
  induction hashes with
  | nil => intro _ _ _; simp [expectedMoves]
  | cons t rest ih =>
    intro submitted received hnd
    have hnot : t ∉ rest := (List.nodup_cons.mp hnd).1
    have hrest : rest.Nodup := (List.nodup_cons.mp hnd).2
    cases hs : submitted t with
    | some tx =>
      have hc : rest.filterMap (lookupPools (submitted.erase t) received)
          = rest.filterMap (lookupPools submitted received) := by
        apply List.filterMap_congr
        intro t' ht'
        exact lookupPools_erase_submitted submitted received t t'
          (fun he => hnot (he ▸ ht'))
      simp [expectedMoves, hs, lookupPools, ih _ _ hrest, hc]
    | none =>
      cases hr : received t with
      | some tx =>
        have hc : rest.filterMap (lookupPools submitted (received.erase t))
            = rest.filterMap (lookupPools submitted received) := by
          apply List.filterMap_congr
          intro t' ht'
          exact lookupPools_erase_received submitted received t t'
            (fun he => hnot (he ▸ ht'))
        simp [expectedMoves, hs, hr, lookupPools, ih _ _ hrest, hc]
      | none =>
        simp [expectedMoves, hs, hr, lookupPools, ih _ _ hrest]

theorem filterMap_lookup_ids (f : TxnHash → Option Transaction) :
    ∀ hashes : List TxnHash,
      (∀ t ∈ hashes, ∃ tx, f t = some tx ∧ tx.GetTranID = t) →
      (hashes.filterMap f).map Transaction.GetTranID = hashes := by
  intro hashes
  induction hashes with
  | nil => intro _; simp
  | cons t rest ih =>
    intro h
    obtain ⟨tx, htx, hid⟩ := h t (List.mem_cons_self _ _)
    have hrest := ih (fun t' ht' => h t' (List.mem_cons_of_mem _ ht'))
    simp [List.filterMap_cons, htx, hid, hrest]

theorem filterMap_lookup_skip (f : TxnHash → Option Transaction) (missing : TxnHash)
    (hmiss : f missing = none) :
    ∀ hashes : List TxnHash,
      (hashes.filterMap f) = (hashes.filter (fun t => decide (t ≠ missing))).filterMap f := by
  intro hashes
  induction hashes with
  | nil => simp
  | cons t rest ih =>
    by_cases h : t = missing
    · subst h
      simp [List.filterMap_cons, hmiss, ih]
    · simp only [List.filter_cons, h, ne_eq, not_false_eq_true, decide_True, if_true,
        List.filterMap_cons]
      cases f t <;> simp [ih]

theorem filterMap_lookup_all_found (f : TxnHash → Option Transaction) :
    ∀ hashes : List TxnHash,
      (∀ t ∈ hashes, (f t).isSome = true) →
      (hashes.filterMap f).map some = hashes.map f := by
  intro hashes
  induction hashes with
  | nil => intro _; simp
  | cons t rest ih =>
    intro h
    have ht := h t (List.mem_cons_self _ _)
    have hrest := ih (fun t' ht' => h t' (List.mem_cons_of_mem _ ht'))
    cases hf : f t with
    | none => simp [hf] at ht
    | some tx => simp [List.filterMap_cons, hf, hrest]

/-- C2: with a micro-block present, CommitMyShardsMicroBlock(b, mode) returns,
and afterwards neither the submitted map nor the received map has an entry for
b, while their entries for every other block number are as before. -/
theorem CommitMyShardsMicroBlock_discards_pools (n : Node) (mb : MicroBlock) (b : BlockNum)
    (mode : TxSharingMode) (out : List Transaction) (hmb : n.m_microblock = some mb) :
    ∃ (n' : Node) (out' : List Transaction),
      CommitMyShardsMicroBlock n b mode out = some (n', out') ∧
      n'.m_submittedTransactions b = none ∧
      n'.m_receivedTransactions b = none ∧
      (∀ b', b' ≠ b →
        n'.m_submittedTransactions b' = n.m_submittedTransactions b' ∧
        n'.m_receivedTransactions b' = n.m_receivedTransactions b') := by
  refine ⟨_, _, CommitMyShardsMicroBlock_eq n mb b mode out hmb, ?_, ?_, ?_⟩
  · simp
  · simp
  · intro b' hb
    have h := (commitLoop_spec b mode mb.GetTranHashes n out).2.2.1 b' hb
    simp [hb, h.1, h.2.1]

/-- C2, worked example: after the reconciliation of block 5 the sample node has
no submitted and no received entry for block 5. -/
theorem CommitMyShardsMicroBlock_discards_pools_witness :
    sampleNode.m_microblock
        = some { txRootHash := sampleHash 9, tranHashes := [sampleHash 1, sampleHash 2] } ∧
    ∃ (n' : Node) (out' : List Transaction),
      CommitMyShardsMicroBlock sampleNode 5 TxSharingMode.SEND_ONLY [] = some (n', out') ∧
      n'.m_submittedTransactions 5 = none ∧
      n'.m_receivedTransactions 5 = none :=
  ⟨rfl,
   match CommitMyShardsMicroBlock_discards_pools sampleNode _ 5 TxSharingMode.SEND_ONLY [] rfl with
   | ⟨n', out', h1, h2, h3, _⟩ => ⟨n', out', h1, h2, h3⟩⟩

/-- C3: with a micro-block present, CommitMyShardsMicroBlock returns and the
committed list of b afterwards is the list before followed by the expected
moves: the transactions of the micro-block ids found in the submitted pool, or
else in the received pool, when they are visited, in micro-block order, ids
found in neither pool being skipped.  In particular, when the ids are pairwise
distinct, one of them is in neither pool and every other one is in a pool, the
transactions appended are those of the other ids, in micro-block order, and
there are N - 1 of them. -/
theorem CommitMyShardsMicroBlock_appends_found (n : Node) (mb : MicroBlock) (b : BlockNum)
    (mode : TxSharingMode) (out : List Transaction) (hmb : n.m_microblock = some mb) :
    ∃ (n' : Node) (out' : List Transaction),
      CommitMyShardsMicroBlock n b mode out = some (n', out') ∧
      committedAt n'.m_committedTransactions b
        = committedAt n.m_committedTransactions b
            ++ expectedMoves mb.GetTranHashes (poolAt n.m_submittedTransactions b)
                 (poolAt n.m_receivedTransactions b) ∧
      (∀ missing : TxnHash,
        mb.GetTranHashes.Nodup →
        missing ∈ mb.GetTranHashes →
        lookupPools (poolAt n.m_submittedTransactions b) (poolAt n.m_receivedTransactions b)
          missing = none →
        (∀ t ∈ mb.GetTranHashes, t ≠ missing →
          (lookupPools (poolAt n.m_submittedTransactions b) (poolAt n.m_receivedTransactions b)
            t).isSome = true) →
        ∃ appended : List Transaction,
          committedAt n'.m_committedTransactions b
            = committedAt n.m_committedTransactions b ++ appended ∧
          appended.map some
            = (mb.GetTranHashes.filter (fun t => decide (t ≠ missing))).map
                (lookupPools (poolAt n.m_submittedTransactions b)
                  (poolAt n.m_receivedTransactions b)) ∧
          appended.length = mb.GetTranHashes.length - 1) := by
  have hloop := commitLoop_spec b mode mb.GetTranHashes n out
  refine ⟨_, _, CommitMyShardsMicroBlock_eq n mb b mode out hmb, ?_, ?_⟩
  · simpa using hloop.1
  · intro missing hnd hmem hmiss hall
    refine ⟨expectedMoves mb.GetTranHashes (poolAt n.m_submittedTransactions b)
              (poolAt n.m_receivedTransactions b), by simpa using hloop.1, ?_, ?_⟩
    · rw [expectedMoves_of_nodup _ _ _ hnd, filterMap_lookup_skip _ missing hmiss]
      apply filterMap_lookup_all_found
      intro t ht
      have ht' := List.mem_filter.mp ht
      exact hall t ht'.1 (by simpa using ht'.2)
    · have hlen : (expectedMoves mb.GetTranHashes (poolAt n.m_submittedTransactions b)
              (poolAt n.m_receivedTransactions b)).length
            = (mb.GetTranHashes.filter (fun t => decide (t ≠ missing))).length := by
        have h1 : (expectedMoves mb.GetTranHashes (poolAt n.m_submittedTransactions b)
              (poolAt n.m_receivedTransactions b)).map some
            = (mb.GetTranHashes.filter (fun t => decide (t ≠ missing))).map
                (lookupPools (poolAt n.m_submittedTransactions b)
                  (poolAt n.m_receivedTransactions b)) := by
          rw [expectedMoves_of_nodup _ _ _ hnd, filterMap_lookup_skip _ missing hmiss]
          apply filterMap_lookup_all_found
          intro t ht
          have ht' := List.mem_filter.mp ht
          exact hall t ht'.1 (by simpa using ht'.2)
        have h2 := congrArg List.length h1
        simpa using h2
      rw [hlen]
      have hfil : mb.GetTranHashes.filter (fun t => decide (t ≠ missing))
          = mb.GetTranHashes.erase missing := by
        rw [List.Nodup.erase_eq_filter hnd]
        apply List.filter_congr
        intro x _
        by_cases hx : x = missing <;> simp [hx]
      rw [hfil, List.length_erase_of_mem hmem]

/-- C3, worked example: the micro-block of the sample node lists the ids 1, 3
and 2, of which 3 is in neither pool; the reconciliation of block 5 returns and
appends two transactions. -/
theorem CommitMyShardsMicroBlock_appends_found_witness :
    sampleNodeMissing.m_microblock
        = some { txRootHash := sampleHash 9,
                 tranHashes := [sampleHash 1, sampleHash 3, sampleHash 2] } ∧
    ∃ (n' : Node) (out' : List Transaction),
      CommitMyShardsMicroBlock sampleNodeMissing 5 TxSharingMode.SEND_ONLY [] = some (n', out') ∧
      ∃ appended : List Transaction,
        committedAt n'.m_committedTransactions 5
          = committedAt sampleNodeMissing.m_committedTransactions 5 ++ appended ∧
        appended.length = 2 := by
  refine ⟨rfl, ?_⟩
  obtain ⟨n', out', h1, _, h3⟩ :=
    CommitMyShardsMicroBlock_appends_found sampleNodeMissing
      { txRootHash := sampleHash 9, tranHashes := [sampleHash 1, sampleHash 3, sampleHash 2] }
      5 TxSharingMode.SEND_ONLY [] rfl
  obtain ⟨appended, ha, _, hlen⟩ := h3 (sampleHash 3) (by decide) (by decide) (by decide)
    (by
      intro t ht hne
      have hcases : t = sampleHash 1 ∨ t = sampleHash 3 ∨ t = sampleHash 2 := by
        simpa [MicroBlock.GetTranHashes] using ht
      rcases hcases with h | h | h
      · subst h; decide
      · exact absurd h hne
      · subst h; decide)
  exact ⟨n', out', h1, appended, ha, hlen⟩

/-- C4: with a micro-block present, CommitMyShardsMicroBlock returns; when the
sharing mode is SEND_ONLY or SEND_AND_FORWARD the transactions appended to the
send list are exactly the transactions appended to the committed list of b, in
the same order; for every other sharing mode the send list is unchanged. -/
theorem CommitMyShardsMicroBlock_gossip_list (n : Node) (mb : MicroBlock) (b : BlockNum)
    (mode : TxSharingMode) (out : List Transaction) (hmb : n.m_microblock = some mb) :
    ∃ (n' : Node) (out' appended : List Transaction),
      CommitMyShardsMicroBlock n b mode out = some (n', out') ∧
      committedAt n'.m_committedTransactions b
        = committedAt n.m_committedTransactions b ++ appended ∧
      (mode = TxSharingMode.SEND_ONLY ∨ mode = TxSharingMode.SEND_AND_FORWARD →
        out' = out ++ appended) ∧
      (mode ≠ TxSharingMode.SEND_ONLY → mode ≠ TxSharingMode.SEND_AND_FORWARD → out' = out) := by
  have hloop := commitLoop_spec b mode mb.GetTranHashes n out
  refine ⟨_, _, expectedMoves mb.GetTranHashes (poolAt n.m_submittedTransactions b)
            (poolAt n.m_receivedTransactions b),
          CommitMyShardsMicroBlock_eq n mb b mode out hmb, by simpa using hloop.1, ?_, ?_⟩
  · intro hmode
    have hs : sendsBodies mode = true := by
      rcases hmode with h | h <;> simp [sendsBodies, h]
    simpa [hs] using hloop.2.1
  · intro h1 h2
    have hs : sendsBodies mode = false := by
      simp [sendsBodies, h1, h2]
    simpa [hs] using hloop.2.1

/-- C4, worked example: in mode SEND_ONLY the two transactions of the sample
node are committed for block 5 and are the send list. -/
theorem CommitMyShardsMicroBlock_gossip_list_witness :
    sampleNode.m_microblock
        = some { txRootHash := sampleHash 9, tranHashes := [sampleHash 1, sampleHash 2] } ∧
    ∃ (n' : Node) (out' appended : List Transaction),
      CommitMyShardsMicroBlock sampleNode 5 TxSharingMode.SEND_ONLY [] = some (n', out') ∧
      committedAt n'.m_committedTransactions 5
        = committedAt sampleNode.m_committedTransactions 5 ++ appended ∧
      out' = [] ++ appended := by
  refine ⟨rfl, ?_⟩
  obtain ⟨n', out', appended, h1, h2, h3, _⟩ :=
    CommitMyShardsMicroBlock_gossip_list sampleNode
      { txRootHash := sampleHash 9, tranHashes := [sampleHash 1, sampleHash 2] }
      5 TxSharingMode.SEND_ONLY [] rfl
  exact ⟨n', out', appended, h1, h2, h3 (Or.inl rfl)⟩

/-- C1, counterexample: the micro-block of the sample node lists the ids 1, 3
and 2 and no pool holds id 3; after the reconciliation of block 5 the ids of
the committed list are 1 and 2, not the list of the micro-block. -/
theorem CommitMyShardsMicroBlock_ids_counterexample :
    sampleNodeMissing.m_microblock
        = some { txRootHash := sampleHash 9,
                 tranHashes := [sampleHash 1, sampleHash 3, sampleHash 2] } ∧
    (CommitMyShardsMicroBlock sampleNodeMissing 5 TxSharingMode.SEND_ONLY []).map
        (fun r => (committedAt r.1.m_committedTransactions 5).map Transaction.GetTranID)
      = some [sampleHash 1, sampleHash 2] ∧
    [sampleHash 1, sampleHash 2] ≠ [sampleHash 1, sampleHash 3, sampleHash 2] := by
  refine ⟨rfl, ?_, by decide⟩
  decide

/-- C1, amended: when every key of the submitted and received pools of b is
the id of the transaction stored under it, and the ids of the micro-block are
pairwise distinct and each a key of one of the two pools, then
CommitMyShardsMicroBlock returns and the committed list of b is the list held
before the call followed by transactions whose ids are the ids of the
micro-block, element for element and in the same order. -/
theorem CommitMyShardsMicroBlock_ids_when_all_present (n : Node) (mb : MicroBlock)
    (b : BlockNum) (mode : TxSharingMode) (out : List Transaction)
    (hmb : n.m_microblock = some mb)
    (hkeyS : ∀ t tx, poolAt n.m_submittedTransactions b t = some tx → tx.GetTranID = t)
    (hkeyR : ∀ t tx, poolAt n.m_receivedTransactions b t = some tx → tx.GetTranID = t)
    (hnodup : mb.GetTranHashes.Nodup)
    (hall : ∀ t ∈ mb.GetTranHashes,
      (lookupPools (poolAt n.m_submittedTransactions b) (poolAt n.m_receivedTransactions b)
        t).isSome = true) :
    ∃ (n' : Node) (out' appended : List Transaction),
      CommitMyShardsMicroBlock n b mode out = some (n', out') ∧
      committedAt n'.m_committedTransactions b
        = committedAt n.m_committedTransactions b ++ appended ∧
      appended.map Transaction.GetTranID = mb.GetTranHashes := by
  have hloop := commitLoop_spec b mode mb.GetTranHashes n out
  refine ⟨_, _, expectedMoves mb.GetTranHashes (poolAt n.m_submittedTransactions b)
            (poolAt n.m_receivedTransactions b),
          CommitMyShardsMicroBlock_eq n mb b mode out hmb, by simpa using hloop.1, ?_⟩
  rw [expectedMoves_of_nodup _ _ _ hnodup]
  apply filterMap_lookup_ids
  intro t ht
  have hsome := hall t ht
  cases hs : poolAt n.m_submittedTransactions b t with
  | some tx =>
    exact ⟨tx, by simp [lookupPools, hs], hkeyS t tx hs⟩
  | none =>
    cases hr : poolAt n.m_receivedTransactions b t with
    | some tx => exact ⟨tx, by simp [lookupPools, hs, hr], hkeyR t tx hr⟩
    | none => simp [lookupPools, hs, hr] at hsome

/-- C1, worked example: the sample node holds both ids of its micro-block and
has committed nothing for block 5, so the ids committed for block 5 are the ids
of the micro-block. -/
theorem CommitMyShardsMicroBlock_ids_when_all_present_witness :
    (sampleNode.m_microblock
        = some { txRootHash := sampleHash 9, tranHashes := [sampleHash 1, sampleHash 2] } ∧
     committedAt sampleNode.m_committedTransactions 5 = []) ∧
    ∃ (n' : Node) (out' appended : List Transaction),
      CommitMyShardsMicroBlock sampleNode 5 TxSharingMode.SEND_ONLY [] = some (n', out') ∧
      committedAt n'.m_committedTransactions 5
        = committedAt sampleNode.m_committedTransactions 5 ++ appended ∧
      appended.map Transaction.GetTranID = [sampleHash 1, sampleHash 2] := by
  refine ⟨⟨rfl, rfl⟩, ?_⟩
  exact CommitMyShardsMicroBlock_ids_when_all_present sampleNode
    { txRootHash := sampleHash 9, tranHashes := [sampleHash 1, sampleHash 2] }
    5 TxSharingMode.SEND_ONLY [] rfl
    (by
      intro t tx h
      by_cases ht : t = sampleHash 1
      · subst ht
        have : tx = sampleTxn (sampleHash 1) := by
          have h' : some (sampleTxn (sampleHash 1)) = some tx := h
          exact (Option.some.inj h').symm
        subst this; rfl
      · simp [sampleNode, poolAt, StdMap.set, StdMap.empty, ht] at h)
    (by
      intro t tx h
      by_cases ht : t = sampleHash 2
      · subst ht
        have : tx = sampleTxn (sampleHash 2) := by
          have h' : some (sampleTxn (sampleHash 2)) = some tx := h
          exact (Option.some.inj h').symm
        subst this; rfl
      · simp [sampleNode, poolAt, StdMap.set, StdMap.empty, ht] at h)
    (by decide)
    (by
      intro t ht
      have hcases : t = sampleHash 1 ∨ t = sampleHash 2 := by
        simpa [MicroBlock.GetTranHashes] using ht
      rcases hcases with h | h
      · subst h; decide
      · subst h; decide)

/-- C5, worked example: id 1 is a key of the submitted pool of block 5 of the
sample node; the call returns true and the committed list of block 5 is the
transaction stored under id 1. -/
theorem FindTxn_moves_atomically_witness :
    (poolAt sampleNode.m_submittedTransactions 5 (sampleHash 1)).isSome = true ∧
    (FindTxnInSubmittedTxnsList sampleNode 5 TxSharingMode.IDLE [] (sampleHash 1)).1 = true ∧
    ∃ tx, poolAt sampleNode.m_submittedTransactions 5 (sampleHash 1) = some tx ∧
      (FindTxnInSubmittedTxnsList sampleNode 5 TxSharingMode.IDLE []
          (sampleHash 1)).2.1.m_committedTransactions 5
        = some (committedAt sampleNode.m_committedTransactions 5 ++ [tx]) :=
  have hkey : (poolAt sampleNode.m_submittedTransactions 5 (sampleHash 1)).isSome = true := by
    decide
  have hret :=
    (FindTxn_moves_atomically sampleNode 5 TxSharingMode.IDLE [] (sampleHash 1)).1.1.mpr hkey
  ⟨hkey, hret,
   ((FindTxn_moves_atomically sampleNode 5 TxSharingMode.IDLE [] (sampleHash 1)).1.2.1 hret).2.1⟩

theorem CommitForwardedTransactions_frame :
    ∀ (txns : List Transaction) (n : Node) (b : BlockNum),
      (CommitForwardedTransactions n txns b).m_unavailableMicroBlocks = n.m_unavailableMicroBlocks ∧
      (CommitForwardedTransactions n txns b).m_forwardingAssignment = n.m_forwardingAssignment ∧
      (CommitForwardedTransactions n txns b).sentBroadcasts = n.sentBroadcasts := by
  intro txns
  induction txns with
  | nil => intro n b; simp [CommitForwardedTransactions]
  | cons tx rest ih =>
    intro n b
    have h := ih
      { n with m_committedTransactions :=
                 n.m_committedTransactions.set b (committedAt n.m_committedTransactions b ++ [tx]) } b
    simpa [CommitForwardedTransactions] using h

theorem LoadForwardedTxnsAndCheckRoot_hash (ext : Externals) (message : List Byte)
    (cur_offset : Nat) (acc : List Transaction) (res : Bool) (hash : TxnHash)
    (txns : List Transaction)
    (h : LoadForwardedTxnsAndCheckRoot ext message cur_offset acc = some (res, hash, txns)) :
    hash = (message.drop cur_offset).take TRAN_HASH_SIZE := by
  unfold LoadForwardedTxnsAndCheckRoot at h
  split at h
  · split at h
    · exact absurd h (by simp)
    · simp only [Option.some.injEq, Prod.mk.injEq] at h
      exact h.2.1.symm
  · exact absurd h (by simp)

theorem StdMap.erase_set {K V : Type} [DecidableEq K] (m : StdMap K V) (k : K) (v : V) :
    (m.set k v).erase k = m.erase k := by
  funext k'
  by_cases h : k' = k <;> simp [StdMap.erase, StdMap.set, h]

theorem CommitForwardedTransactions_committed :
    ∀ (txns : List Transaction) (n : Node) (b : BlockNum),
      (CommitForwardedTransactions n txns b).m_committedTransactions
        = txns.foldl (fun (m : StdMap BlockNum (List Transaction)) tx =>
            m.set b (committedAt m b ++ [tx])) n.m_committedTransactions := by
  intro txns
  induction txns with
  | nil => intro n b; simp [CommitForwardedTransactions]
  | cons tx rest ih =>
    intro n b
    have h := ih
      { n with m_committedTransactions :=
                 n.m_committedTransactions.set b (committedAt n.m_committedTransactions b ++ [tx]) } b
    simpa [CommitForwardedTransactions] using h

theorem DeleteEntryFromFwdingAssgnAndMissingBodyCountMap_eq (n : Node) (b : BlockNum)
    (s : Finset TxnHash) (hentry : n.m_unavailableMicroBlocks b = some s) :
    DeleteEntryFromFwdingAssgnAndMissingBodyCountMap n b =
      some (if s = ∅ then
              { n with
                m_unavailableMicroBlocks := n.m_unavailableMicroBlocks.erase b
                m_forwardingAssignment := n.m_forwardingAssignment.erase b }
            else n) := by
  by_cases hs : s = ∅ <;> simp [DeleteEntryFromFwdingAssgnAndMissingBodyCountMap, hentry, hs]

theorem IsMicroBlockTxRootHashInFinalBlock_eq (n : Node) (h : TxnHash) (b : BlockNum) :
    (IsMicroBlockTxRootHashInFinalBlock n h b).1
      = decide (h ∈ outstandingAt n.m_unavailableMicroBlocks b) ∧
    (IsMicroBlockTxRootHashInFinalBlock n h b).2.m_unavailableMicroBlocks
      = n.m_unavailableMicroBlocks.set b ((outstandingAt n.m_unavailableMicroBlocks b).erase h) ∧
    (IsMicroBlockTxRootHashInFinalBlock n h b).2.m_forwardingAssignment = n.m_forwardingAssignment ∧
    (IsMicroBlockTxRootHashInFinalBlock n h b).2.m_committedTransactions
      = n.m_committedTransactions := by
  simp [IsMicroBlockTxRootHashInFinalBlock]

/-- The forward-transaction path after the two fields of the message have been
read: the tracker test, the commit and the completion check. -/
theorem ProcessForwardTransaction_step (ext : Externals) (n : Node) (message : List Byte)
    (cur_offset : Nat) (b : BlockNum) (res : Bool) (hash : TxnHash) (txns : List Transaction)
    (hnum : GetNumber message cur_offset UINT256_SIZE = some b)
    (hload : LoadForwardedTxnsAndCheckRoot ext message ((cur_offset + UINT256_SIZE) % UINT_MOD) []
      = some (res, hash, txns)) :
    ∃ n' : Node,
      ProcessForwardTransaction ext n message cur_offset
        = some (res && decide (hash ∈ outstandingAt n.m_unavailableMicroBlocks b), n') ∧
      (res = false → n' = n) ∧
      (res = true → hash ∉ outstandingAt n.m_unavailableMicroBlocks b →
        n'.m_unavailableMicroBlocks
          = n.m_unavailableMicroBlocks.set b ((outstandingAt n.m_unavailableMicroBlocks b).erase hash) ∧
        n'.m_forwardingAssignment = n.m_forwardingAssignment ∧
        n'.m_committedTransactions = n.m_committedTransactions) ∧
      (res = true → hash ∈ outstandingAt n.m_unavailableMicroBlocks b →
        n'.m_unavailableMicroBlocks
          = (if (outstandingAt n.m_unavailableMicroBlocks b).erase hash = ∅
             then n.m_unavailableMicroBlocks.erase b
             else n.m_unavailableMicroBlocks.set b
                    ((outstandingAt n.m_unavailableMicroBlocks b).erase hash)) ∧
        n'.m_forwardingAssignment
          = (if (outstandingAt n.m_unavailableMicroBlocks b).erase hash = ∅
             then n.m_forwardingAssignment.erase b
             else n.m_forwardingAssignment) ∧
        n'.m_committedTransactions
          = (CommitForwardedTransactions n txns b).m_committedTransactions) := by
  cases res with
  | false =>
    refine ⟨n, ?_, fun _ => rfl, ?_, ?_⟩
    · simp [ProcessForwardTransaction, hnum, hload]
    · intro h; exact absurd h (by simp)
    · intro h; exact absurd h (by simp)
  | true =>
    obtain ⟨e1, e2, e3, e4⟩ := IsMicroBlockTxRootHashInFinalBlock_eq n hash b
    by_cases hmem : hash ∈ outstandingAt n.m_unavailableMicroBlocks b
    · have hf := CommitForwardedTransactions_frame txns
        (IsMicroBlockTxRootHashInFinalBlock n hash b).2 b
      have hc := CommitForwardedTransactions_committed txns
        (IsMicroBlockTxRootHashInFinalBlock n hash b).2 b
      have hc0 := CommitForwardedTransactions_committed txns n b
      have hentry : (CommitForwardedTransactions
            (IsMicroBlockTxRootHashInFinalBlock n hash b).2 txns b).m_unavailableMicroBlocks b
          = some ((outstandingAt n.m_unavailableMicroBlocks b).erase hash) := by
        rw [hf.1, e2]; simp
      have hdel := DeleteEntryFromFwdingAssgnAndMissingBodyCountMap_eq _ b _ hentry
      have hr1 : (IsMicroBlockTxRootHashInFinalBlock n hash b).1 = true := by
        rw [e1]; simpa using hmem
      have hpft : ∃ n' : Node,
          ProcessForwardTransaction ext n message cur_offset = some (true, n') ∧
          n'.m_unavailableMicroBlocks
            = (if (outstandingAt n.m_unavailableMicroBlocks b).erase hash = ∅ then
                 { (CommitForwardedTransactions
                      (IsMicroBlockTxRootHashInFinalBlock n hash b).2 txns b) with
                   m_unavailableMicroBlocks :=
                     (CommitForwardedTransactions
                       (IsMicroBlockTxRootHashInFinalBlock n hash b).2 txns
                         b).m_unavailableMicroBlocks.erase b
                   m_forwardingAssignment :=
                     (CommitForwardedTransactions
                       (IsMicroBlockTxRootHashInFinalBlock n hash b).2 txns
                         b).m_forwardingAssignment.erase b }
               else CommitForwardedTransactions
                      (IsMicroBlockTxRootHashInFinalBlock n hash b).2 txns b).m_unavailableMicroBlocks ∧
          n'.m_forwardingAssignment
            = (if (outstandingAt n.m_unavailableMicroBlocks b).erase hash = ∅ then
                 { (CommitForwardedTransactions
                      (IsMicroBlockTxRootHashInFinalBlock n hash b).2 txns b) with
                   m_unavailableMicroBlocks :=
                     (CommitForwardedTransactions
                       (IsMicroBlockTxRootHashInFinalBlock n hash b).2 txns
                         b).m_unavailableMicroBlocks.erase b
                   m_forwardingAssignment :=
                     (CommitForwardedTransactions
                       (IsMicroBlockTxRootHashInFinalBlock n hash b).2 txns
                         b).m_forwardingAssignment.erase b }
               else CommitForwardedTransactions
                      (IsMicroBlockTxRootHashInFinalBlock n hash b).2 txns b).m_forwardingAssignment ∧
          n'.m_committedTransactions
            = (CommitForwardedTransactions
                (IsMicroBlockTxRootHashInFinalBlock n hash b).2 txns b).m_committedTransactions := by
        unfold ProcessForwardTransaction
        simp only [hnum, hload, hr1, Bool.true_eq_false, if_false, hdel]
        split
        · refine ⟨_, rfl, ?_, ?_, ?_⟩
          · rfl
          · rfl
          · split <;> rfl
        · refine ⟨_, rfl, ?_, ?_, ?_⟩
          · rfl
          · rfl
          · split <;> rfl
      obtain ⟨n', hp, h1, h2, h3⟩ := hpft
      refine ⟨n', ?_, ?_, ?_, ?_⟩
      · rw [hp]; simp [hmem]
      · intro h; exact absurd h (by simp)
      · intro _ hnot; exact absurd hmem hnot
      · intro _ _
        refine ⟨?_, ?_, ?_⟩
        · rw [h1]
          by_cases hemp : (outstandingAt n.m_unavailableMicroBlocks b).erase hash = ∅
          · simp only [hemp, if_true, hf.1, e2]
            rw [← hemp, StdMap.erase_set]
          · simp only [hemp, if_false, hf.1, e2]
        · rw [h2]
          by_cases hemp : (outstandingAt n.m_unavailableMicroBlocks b).erase hash = ∅
          · simp only [hemp, if_true, hf.2.1, e3]
          · simp only [hemp, if_false, hf.2.1, e3]
        · rw [h3, hc, hc0, e4]
    · have hr1 : (IsMicroBlockTxRootHashInFinalBlock n hash b).1 = false := by
        rw [e1]; simpa using hmem
      refine ⟨(IsMicroBlockTxRootHashInFinalBlock n hash b).2, ?_, ?_, ?_, ?_⟩
      · unfold ProcessForwardTransaction
        simp only [hnum, hload, hr1, if_true]
        simp [hmem]
      · intro h; exact absurd h (by simp)
      · intro _ _; exact ⟨e2, e3, e4⟩
      · intro _ hm; exact absurd hm hmem

theorem ProcessForwardTransaction_accepted (ext : Externals) (n n' : Node)
    (message : List Byte) (cur_offset : Nat) (b : BlockNum)
    (hnum : GetNumber message cur_offset UINT256_SIZE = some b)
    (hacc : ProcessForwardTransaction ext n message cur_offset = some (true, n')) :
    forwardedRootHash message cur_offset ∈ outstandingAt n.m_unavailableMicroBlocks b ∧
    n'.m_unavailableMicroBlocks
      = (if (outstandingAt n.m_unavailableMicroBlocks b).erase
              (forwardedRootHash message cur_offset) = ∅
         then n.m_unavailableMicroBlocks.erase b
         else n.m_unavailableMicroBlocks.set b
                ((outstandingAt n.m_unavailableMicroBlocks b).erase
                  (forwardedRootHash message cur_offset))) ∧
    n'.m_forwardingAssignment
      = (if (outstandingAt n.m_unavailableMicroBlocks b).erase
              (forwardedRootHash message cur_offset) = ∅
         then n.m_forwardingAssignment.erase b
         else n.m_forwardingAssignment) := by
  cases hload : LoadForwardedTxnsAndCheckRoot ext message
      ((cur_offset + UINT256_SIZE) % UINT_MOD) [] with
  | none => simp [ProcessForwardTransaction, hnum, hload] at hacc
  | some r =>
    obtain ⟨res, hash, txns⟩ := r
    have hhash : hash = forwardedRootHash message cur_offset :=
      LoadForwardedTxnsAndCheckRoot_hash ext message _ [] res hash txns hload
    subst hhash
    obtain ⟨n0, hp, _, _, h4⟩ :=
      ProcessForwardTransaction_step ext n message cur_offset b res _ txns hnum hload
    rw [hp] at hacc
    simp only [Option.some.injEq, Prod.mk.injEq, Bool.and_eq_true, decide_eq_true_eq] at hacc
    obtain ⟨⟨hres, hmem⟩, hn⟩ := hacc
    subst hn
    have h := h4 hres hmem
    exact ⟨hmem, h.1, h.2.1⟩

/-- C8: let the outstanding set of block number b be the two distinct hashes h1
and h2.  After an accepted forward-transaction message for (b, h1) the tracker
entry of b is the set of h2 alone and the forwarding assignment of b is as it
was before the message, so one that existed is still present; after a following
accepted message for (b, h2) neither the tracker nor the forwarding-assignment
map has an entry for b. -/
theorem ProcessForwardTransaction_two_deliveries (ext : Externals) (n n1 n2 : Node)
    (b : BlockNum) (h1 h2 : TxnHash) (msg1 msg2 : List Byte) (off1 off2 : Nat)
    (hset : n.m_unavailableMicroBlocks b = some {h1, h2}) (hne : h1 ≠ h2)
    (hb1 : GetNumber msg1 off1 UINT256_SIZE = some b)
    (hh1 : forwardedRootHash msg1 off1 = h1)
    (hacc1 : ProcessForwardTransaction ext n msg1 off1 = some (true, n1))
    (hb2 : GetNumber msg2 off2 UINT256_SIZE = some b)
    (hh2 : forwardedRootHash msg2 off2 = h2)
    (hacc2 : ProcessForwardTransaction ext n1 msg2 off2 = some (true, n2)) :
    n1.m_unavailableMicroBlocks b = some {h2} ∧
    n1.m_forwardingAssignment b = n.m_forwardingAssignment b ∧
    n2.m_unavailableMicroBlocks b = none ∧
    n2.m_forwardingAssignment b = none := by
  obtain ⟨_, ht1, hf1⟩ := ProcessForwardTransaction_accepted ext n n1 msg1 off1 b hb1 hacc1
  have hout : outstandingAt n.m_unavailableMicroBlocks b = {h1, h2} := by
    simp [outstandingAt, hset]
  have herase : ({h1, h2} : Finset TxnHash).erase h1 = {h2} :=
    Finset.erase_insert (by simpa using hne)
  rw [hh1, hout, herase] at ht1 hf1
  have hne2 : ({h2} : Finset TxnHash) ≠ ∅ := Finset.singleton_ne_empty h2
  simp only [hne2, if_false] at ht1 hf1
  have hn1b : n1.m_unavailableMicroBlocks b = some {h2} := by rw [ht1]; simp
  obtain ⟨_, ht2, hf2⟩ := ProcessForwardTransaction_accepted ext n1 n2 msg2 off2 b hb2 hacc2
  have hout2 : outstandingAt n1.m_unavailableMicroBlocks b = {h2} := by
    simp [outstandingAt, hn1b]
  rw [hh2, hout2, Finset.erase_singleton] at ht2 hf2
  simp only [if_true] at ht2 hf2
  refine ⟨hn1b, by rw [hf1], ?_, ?_⟩
  · rw [ht2]; simp
  · rw [hf2]; simp

/-- C8, worked example: the tracker of the sample node holds the hashes 1 and 2
for block 7; after the message for hash 1 and then the message for hash 2 the
tracker and the forwarding-assignment map have no entry for block 7. -/
theorem ProcessForwardTransaction_two_deliveries_witness :
    (sampleNodeTwoHashes.m_unavailableMicroBlocks 7 = some {sampleHash 1, sampleHash 2} ∧
     sampleHash 1 ≠ sampleHash 2 ∧
     (ProcessForwardTransaction sampleExt sampleNodeTwoHashes
        (sampleForwardMsg 7 (sampleHash 1) [1]) 0).map Prod.fst = some true) ∧
    (((ProcessForwardTransaction sampleExt sampleNodeTwoHashes
        (sampleForwardMsg 7 (sampleHash 1) [1]) 0).getD
          (false, sampleNodeTwoHashes)).2.m_unavailableMicroBlocks 7 = some {sampleHash 2} ∧
     ((ProcessForwardTransaction sampleExt
        ((ProcessForwardTransaction sampleExt sampleNodeTwoHashes
          (sampleForwardMsg 7 (sampleHash 1) [1]) 0).getD (false, sampleNodeTwoHashes)).2
        (sampleForwardMsg 7 (sampleHash 2) [2]) 0).getD
          (false, sampleNodeTwoHashes)).2.m_unavailableMicroBlocks 7 = none ∧
     ((ProcessForwardTransaction sampleExt
        ((ProcessForwardTransaction sampleExt sampleNodeTwoHashes
          (sampleForwardMsg 7 (sampleHash 1) [1]) 0).getD (false, sampleNodeTwoHashes)).2
        (sampleForwardMsg 7 (sampleHash 2) [2]) 0).getD
          (false, sampleNodeTwoHashes)).2.m_forwardingAssignment 7 = none) := by
  refine ⟨⟨rfl, by decide, by decide⟩, ?_⟩
  have h := ProcessForwardTransaction_two_deliveries sampleExt sampleNodeTwoHashes
    ((ProcessForwardTransaction sampleExt sampleNodeTwoHashes
        (sampleForwardMsg 7 (sampleHash 1) [1]) 0).getD (false, sampleNodeTwoHashes)).2
    ((ProcessForwardTransaction sampleExt
        ((ProcessForwardTransaction sampleExt sampleNodeTwoHashes
          (sampleForwardMsg 7 (sampleHash 1) [1]) 0).getD (false, sampleNodeTwoHashes)).2
        (sampleForwardMsg 7 (sampleHash 2) [2]) 0).getD (false, sampleNodeTwoHashes)).2
    7 (sampleHash 1) (sampleHash 2)
    (sampleForwardMsg 7 (sampleHash 1) [1]) (sampleForwardMsg 7 (sampleHash 2) [2]) 0 0
    rfl (by decide) (by decide) (by decide) rfl (by decide) (by decide) rfl
  exact ⟨h.1, h.2.2.1, h.2.2.2⟩

theorem GetNumber_isSome (message : List Byte) (offset len : Nat)
    (h : offset + len ≤ message.length) : ∃ v, GetNumber message offset len = some v := by
  simp [GetNumber, h]

/-- The decoding loop returns when the transaction size is positive and no
offset can wrap around. -/
theorem loadTxnsLoop_returns (ext : Externals) (message : List Byte)
    (hT : 0 < ext.TxnSerializedSize)
    (hlen : message.length + ext.TxnSerializedSize < UINT_MOD) :
    ∀ (fuel cur : Nat) (acc : List Transaction),
      cur ≤ message.length → message.length < fuel + cur →
      ∃ txns, loadTxnsLoop ext message fuel cur acc = some txns := by
  intro fuel
  induction fuel with
  | zero =>
    intro cur acc h1 h2
    omega
  | succ fuel ih =>
    intro cur acc h1 h2
    have hmod : (cur + ext.TxnSerializedSize) % UINT_MOD = cur + ext.TxnSerializedSize :=
      Nat.mod_eq_of_lt (by omega)
    unfold loadTxnsLoop
    rw [hmod]
    by_cases hc : cur + ext.TxnSerializedSize ≤ message.length
    · simp only [hc, if_true]
      exact ih _ _ hc (by omega)
    · simp only [hc, if_false]
      exact ⟨acc, rfl⟩

theorem LoadForwardedTxnsAndCheckRoot_returns (ext : Externals) (message : List Byte)
    (cur_offset : Nat) (acc : List Transaction)
    (hT : 0 < ext.TxnSerializedSize)
    (hlen : message.length + ext.TxnSerializedSize < UINT_MOD)
    (hcur : cur_offset + TRAN_HASH_SIZE ≤ message.length) :
    ∃ r, LoadForwardedTxnsAndCheckRoot ext message cur_offset acc = some r := by
  have hlt : cur_offset + TRAN_HASH_SIZE < UINT_MOD := by omega
  obtain ⟨txns, htx⟩ := loadTxnsLoop_returns ext message hT hlen (message.length + 1)
    (cur_offset + TRAN_HASH_SIZE) acc hcur (by omega)
  simp [LoadForwardedTxnsAndCheckRoot, hlt, hcur, htx]

/-- C10: whenever a call of ProcessForwardTransaction returns, a second call
with the same message on the resulting node returns false and leaves the
committed map exactly as the first call left it.  The first call does return
for every message that holds the block number and the root hash at the offset,
when the transaction size is positive and the message is short enough for the
32-bit offsets not to wrap. -/
theorem ProcessForwardTransaction_retransmission (ext : Externals) (n : Node)
    (message : List Byte) (cur_offset : Nat) :
    (∀ (r1 : Bool) (n1 : Node),
      ProcessForwardTransaction ext n message cur_offset = some (r1, n1) →
      ∃ n2 : Node,
        ProcessForwardTransaction ext n1 message cur_offset = some (false, n2) ∧
        n2.m_committedTransactions = n1.m_committedTransactions) ∧
    (0 < ext.TxnSerializedSize →
      message.length + ext.TxnSerializedSize < UINT_MOD →
      cur_offset + UINT256_SIZE + TRAN_HASH_SIZE ≤ message.length →
      ∃ (r1 : Bool) (n1 : Node),
        ProcessForwardTransaction ext n message cur_offset = some (r1, n1)) := by
  constructor
  · intro r1 n1 hfirst
    cases hnum : GetNumber message cur_offset UINT256_SIZE with
    | none => simp [ProcessForwardTransaction, hnum] at hfirst
    | some b =>
      cases hload : LoadForwardedTxnsAndCheckRoot ext message
          ((cur_offset + UINT256_SIZE) % UINT_MOD) [] with
      | none => simp [ProcessForwardTransaction, hnum, hload] at hfirst
      | some r =>
        obtain ⟨res, hash, txns⟩ := r
        obtain ⟨n0, hp, hA, hB, hC⟩ :=
          ProcessForwardTransaction_step ext n message cur_offset b res hash txns hnum hload
        rw [hp] at hfirst
        simp only [Option.some.injEq, Prod.mk.injEq] at hfirst
        obtain ⟨_, hn⟩ := hfirst
        subst hn
        obtain ⟨n2, hp2, hA2, hB2, _⟩ :=
          ProcessForwardTransaction_step ext n0 message cur_offset b res hash txns hnum hload
        cases res with
        | false =>
          refine ⟨n2, ?_, ?_⟩
          · rw [hp2]; simp
          · rw [hA2 rfl]
        | true =>
          have hnot : hash ∉ outstandingAt n0.m_unavailableMicroBlocks b := by
            by_cases hmem : hash ∈ outstandingAt n.m_unavailableMicroBlocks b
            · have h := (hC rfl hmem).1
              by_cases hemp : (outstandingAt n.m_unavailableMicroBlocks b).erase hash = ∅
              · simp only [hemp, if_true] at h
                simp [outstandingAt, h]
              · simp only [hemp, if_false] at h
                simp [outstandingAt, h]
            · have h := (hB rfl hmem).1
              simp [outstandingAt, h]
          refine ⟨n2, ?_, ?_⟩
          · rw [hp2]; simp [hnot]
          · exact (hB2 rfl hnot).2.2
  · intro hT hlen hfields
    have h256 : UINT256_SIZE = 32 := rfl
    have hhash : TRAN_HASH_SIZE = 32 := rfl
    obtain ⟨b, hnum⟩ := GetNumber_isSome message cur_offset UINT256_SIZE (by omega)
    have hmod : (cur_offset + UINT256_SIZE) % UINT_MOD = cur_offset + UINT256_SIZE :=
      Nat.mod_eq_of_lt (by omega)
    obtain ⟨r, hload⟩ := LoadForwardedTxnsAndCheckRoot_returns ext message
      ((cur_offset + UINT256_SIZE) % UINT_MOD) [] hT hlen (by rw [hmod]; exact hfields)
    obtain ⟨res, hash, txns⟩ := r
    obtain ⟨n0, hp, _⟩ :=
      ProcessForwardTransaction_step ext n message cur_offset b res hash txns hnum hload
    exact ⟨_, n0, hp⟩

/-- C10, worked example: the message for hash 1 of block 7 is accepted by the
sample node and commits one transaction; the same message processed again is
rejected and the committed map stays as it is. -/
theorem ProcessForwardTransaction_retransmission_witness :
    (ProcessForwardTransaction sampleExt sampleNodeTwoHashes
        (sampleForwardMsg 7 (sampleHash 1) [1]) 0).map Prod.fst = some true ∧
    ∃ n2 : Node,
      ProcessForwardTransaction sampleExt
        ((ProcessForwardTransaction sampleExt sampleNodeTwoHashes
          (sampleForwardMsg 7 (sampleHash 1) [1]) 0).getD (false, sampleNodeTwoHashes)).2
        (sampleForwardMsg 7 (sampleHash 1) [1]) 0 = some (false, n2) ∧
      n2.m_committedTransactions
        = ((ProcessForwardTransaction sampleExt sampleNodeTwoHashes
            (sampleForwardMsg 7 (sampleHash 1) [1]) 0).getD
              (false, sampleNodeTwoHashes)).2.m_committedTransactions :=
  ⟨by decide,
   (ProcessForwardTransaction_retransmission sampleExt sampleNodeTwoHashes
      (sampleForwardMsg 7 (sampleHash 1) [1]) 0).1 true
      ((ProcessForwardTransaction sampleExt sampleNodeTwoHashes
          (sampleForwardMsg 7 (sampleHash 1) [1]) 0).getD (false, sampleNodeTwoHashes)).2 rfl⟩

/-- C9, evaluation at the failing input: the node waits for a final block, its
tracker and its forwarding assignments are empty, so the invariant holds.  The
final block 7 lists one micro-block hash, the root of the own micro-block.
ProcessFinalBlock returns true; afterwards the tracker entry of block 7 is the
empty set and the forwarding assignment of block 7 is present.  A
forward-transaction message for block 7 with a valid root, processed by a node
whose tracker has no entry for block 7, is rejected and leaves an empty tracker
entry for block 7 as well. -/
theorem ProcessFinalBlock_leaves_empty_tracker_entry :
    TrackerInvariant sampleNodeWaiting ∧
    (ProcessFinalBlock sampleExt sampleNodeWaiting sampleFinalBlockMsg 0).map
        (fun r => (r.1, r.2.m_unavailableMicroBlocks 7, r.2.m_forwardingAssignment 7))
      = some (true, some ∅, some [samplePeer]) ∧
    TrackerInvariant emptyNode ∧
    (ProcessForwardTransaction sampleExt emptyNode (sampleForwardMsg 7 (sampleHash 0) []) 0).map
        (fun r => (r.1, r.2.m_unavailableMicroBlocks 7))
      = some (false, some ∅) := by
  refine ⟨?_, by decide, ?_, by decide⟩
  · constructor
    · intro b; simp [sampleNodeWaiting, emptyNode, StdMap.empty]
    · intro b h; simp [sampleNodeWaiting, emptyNode, StdMap.empty] at h
  · constructor
    · intro b; simp [emptyNode, StdMap.empty]
    · intro b h; simp [emptyNode, StdMap.empty] at h

/-! ### Final-block message: header and rejection -/

theorem GetNumber_of_le (message : List Byte) (offset len : Nat)
    (h : offset + len ≤ message.length) :
    GetNumber message offset len
      = some (((message.drop offset).take len).foldl (fun acc b => acc * 256 + b.val) 0) := by
  simp [GetNumber, h]

theorem GetNumber_one (message : List Byte) (offset : Nat) (b : Byte)
    (h : message.get? offset = some b) : GetNumber message offset 1 = some b.val := by
  have hlt : offset < message.length := by
    rcases Nat.lt_or_ge offset message.length with h1 | h1
    · exact h1
    · rw [List.get?_eq_none.mpr h1] at h; exact absurd h (by simp)
  rw [GetNumber_of_le message offset 1 (by omega)]
  have hd : message.drop offset = b :: message.drop (offset + 1) := by
    have h1 := List.drop_eq_getElem_cons hlt
    have h2 : message[offset] = b := by
      have h3 : message.get? offset = some message[offset] := by
        simp [List.get?_eq_getElem?, List.getElem?_eq_getElem hlt]
      rw [h] at h3
      exact (Option.some.inj h3).symm
    rw [h1, h2]
  simp [hd]

/-- ProcessFinalBlock after the state gate and the header checks have
passed. -/
theorem ProcessFinalBlock_after_checks (ext : Externals) (n : Node)
    (message : List Byte) (offset cur_offset shard_id : Nat)
    (hstate : n.m_state ≠ NodeState.MICROBLOCK_CONSENSUS)
    (hgate : ext.CheckStateProcessFinalBlock n.m_state = true)
    (haux : ReadAuxilliaryInfoFromFinalBlockMsg ext n message offset 255
      = some (true, cur_offset, shard_id)) :
    ProcessFinalBlock ext n message offset =
      (LoadTxnSharingInfo (nodeAfterStore ext n message cur_offset) message shard_id
        { cur_offset := sharingSetupOffset ext message cur_offset, i_am_sender := false,
          i_am_forwarder := false, nodes := [] }).bind
        (fun info =>
          (CallActOnFinalBlockBasedOnSenderForwarderAssgn ext
            (nodeAfterStore ext n message cur_offset) info.i_am_sender info.i_am_forwarder
            info.nodes shard_id).map (fun n4 => (true, n4))) := by
  unfold ProcessFinalBlock
  simp only [hstate, if_false, hgate, Bool.true_eq_false, haux]
  cases hl : LoadTxnSharingInfo (nodeAfterStore ext n message cur_offset) message shard_id
      { cur_offset := sharingSetupOffset ext message cur_offset, i_am_sender := false,
        i_am_forwarder := false, nodes := [] } with
  | none =>
    simp only [nodeAfterStore, sharingSetupOffset] at hl
    simp only [hl, Option.bind]
  | some info =>
    simp only [nodeAfterStore, sharingSetupOffset] at hl
    simp only [hl, Option.bind, nodeAfterStore]

/-- Once the state gate and the header checks have passed, ProcessFinalBlock has
no path that returns false. -/
theorem ProcessFinalBlock_true_after_checks (ext : Externals) (n n' : Node)
    (message : List Byte) (offset cur_offset shard_id : Nat) (r : Bool)
    (hstate : n.m_state ≠ NodeState.MICROBLOCK_CONSENSUS)
    (hgate : ext.CheckStateProcessFinalBlock n.m_state = true)
    (haux : ReadAuxilliaryInfoFromFinalBlockMsg ext n message offset 255
      = some (true, cur_offset, shard_id))
    (h : ProcessFinalBlock ext n message offset = some (r, n')) : r = true := by
  rw [ProcessFinalBlock_after_checks ext n message offset cur_offset shard_id hstate hgate haux] at h
  simp only [Option.bind_eq_some, Option.map_eq_some', Prod.mk.injEq] at h
  obtain ⟨_, _, _, _, hf, _⟩ := h
  exact hf.symm

/-- A call of ProcessFinalBlock that returns false hands back the node it was
given. -/
theorem ProcessFinalBlock_false_node (ext : Externals) (n n' : Node) (message : List Byte)
    (offset : Nat) (h : ProcessFinalBlock ext n message offset = some (false, n')) : n' = n := by
  by_cases hstate : n.m_state = NodeState.MICROBLOCK_CONSENSUS
  · simp [ProcessFinalBlock, hstate] at h
  · cases hgate : ext.CheckStateProcessFinalBlock n.m_state with
    | false =>
      simp only [ProcessFinalBlock, hstate, if_false, hgate, if_true, Option.some.injEq,
        Prod.mk.injEq, true_and] at h
      exact h.symm
    | true =>
      cases haux : ReadAuxilliaryInfoFromFinalBlockMsg ext n message offset 255 with
      | none => simp [ProcessFinalBlock, hstate, hgate, haux] at h
      | some r =>
        obtain ⟨ok, cur_offset, shard_id⟩ := r
        cases ok with
        | false =>
          simp only [ProcessFinalBlock, hstate, if_false, hgate, Bool.true_eq_false, haux,
            Option.some.injEq, Prod.mk.injEq, true_and] at h
          exact h.symm
        | true =>
          have := ProcessFinalBlock_true_after_checks ext n n' message offset cur_offset
            shard_id false hstate hgate haux h
          exact absurd this (by simp)

/-- C17: whenever ProcessFinalBlock returns false the node after the call is the
node before the call, in every field.  It does return false, with the node
untouched, when the local state is wrong, when the DS block number of the
header is not the latest, and when the consensus id of the header differs from
the current one. -/
theorem ProcessFinalBlock_rejection_atomic (ext : Externals) (n : Node) (message : List Byte)
    (offset : Nat) :
    (∀ n' : Node, ProcessFinalBlock ext n message offset = some (false, n') → n' = n) ∧
    (n.m_state ≠ NodeState.MICROBLOCK_CONSENSUS →
      ext.CheckStateProcessFinalBlock n.m_state = false →
      ProcessFinalBlock ext n message offset = some (false, n)) ∧
    (∀ dsBlockNum : Nat,
      n.m_state ≠ NodeState.MICROBLOCK_CONSENSUS →
      ext.CheckStateProcessFinalBlock n.m_state = true →
      GetNumber message offset ext.sizeof_uint256_t = some dsBlockNum →
      ext.CheckWhetherDSBlockNumIsLatest n ((dsBlockNum + 1) % UINT256_MOD) = false →
      ProcessFinalBlock ext n message offset = some (false, n)) ∧
    (∀ dsBlockNum consensusID : Nat,
      n.m_state ≠ NodeState.MICROBLOCK_CONSENSUS →
      ext.CheckStateProcessFinalBlock n.m_state = true →
      GetNumber message offset ext.sizeof_uint256_t = some dsBlockNum →
      ext.CheckWhetherDSBlockNumIsLatest n ((dsBlockNum + 1) % UINT256_MOD) = true →
      GetNumber message ((offset + ext.sizeof_uint256_t) % UINT_MOD) 4 = some consensusID →
      consensusID ≠ n.m_consensusID →
      ProcessFinalBlock ext n message offset = some (false, n)) := by
  refine ⟨fun n' h => ProcessFinalBlock_false_node ext n n' message offset h, ?_, ?_, ?_⟩
  · intro hstate hgate
    simp [ProcessFinalBlock, hstate, hgate]
  · intro dsn hstate hgate hnum hcheck
    have haux : ReadAuxilliaryInfoFromFinalBlockMsg ext n message offset 255
        = some (false, (offset + ext.sizeof_uint256_t) % UINT_MOD, 255) := by
      simp [ReadAuxilliaryInfoFromFinalBlockMsg, hnum, hcheck]
    simp [ProcessFinalBlock, hstate, hgate, haux]
  · intro dsn cid hstate hgate hnum hcheck hcid hne
    have haux : ReadAuxilliaryInfoFromFinalBlockMsg ext n message offset 255
        = some (false, ((offset + ext.sizeof_uint256_t) % UINT_MOD + 4) % UINT_MOD, 255) := by
      simp [ReadAuxilliaryInfoFromFinalBlockMsg, hnum, hcheck, hcid, hne]
    simp [ProcessFinalBlock, hstate, hgate, haux]

/-- C17, worked example: the sample node is in state TX_SUBMISSION, which the
state check does not accept; the final-block message is rejected and the node
returned is the node given. -/
theorem ProcessFinalBlock_rejection_atomic_witness :
    (sampleNodeSubmitting.m_state ≠ NodeState.MICROBLOCK_CONSENSUS ∧
     sampleExt.CheckStateProcessFinalBlock sampleNodeSubmitting.m_state = false) ∧
    ProcessFinalBlock sampleExt sampleNodeSubmitting sampleFinalBlockMsg 0
      = some (false, sampleNodeSubmitting) :=
  ⟨⟨by decide, by decide⟩,
   (ProcessFinalBlock_rejection_atomic sampleExt sampleNodeSubmitting sampleFinalBlockMsg 0).2.1
     (by decide) (by decide)⟩

/-- The header as ReadAuxilliaryInfoFromFinalBlockMsg reads it, for a message
that holds sizeof(uint256_t) + 5 bytes at the offset (and the offset after
them representable in 32 bits): the DS block number takes sizeof(uint256_t)
bytes, the consensus id the 4 bytes after them and the shard id the byte after
those.  The function returns true exactly when the DS block number passes the
latest-block check on its successor and the consensus id is the current one;
on true the offset has advanced by sizeof(uint256_t) + 5. -/
theorem ReadAuxilliaryInfoFromFinalBlockMsg_fields (ext : Externals) (n : Node)
    (message : List Byte) (offset shard_id0 : Nat)
    (havail : offset + (ext.sizeof_uint256_t + 5) ≤ message.length)
    (hrep : offset + (ext.sizeof_uint256_t + 5) < UINT_MOD) :
    ∃ (dsBlockNum consensusID : Nat) (shardByte : Byte),
      GetNumber message offset ext.sizeof_uint256_t = some dsBlockNum ∧
      GetNumber message (offset + ext.sizeof_uint256_t) 4 = some consensusID ∧
      message.get? (offset + ext.sizeof_uint256_t + 4) = some shardByte ∧
      ∃ (r : Bool) (cur_offset shard_id : Nat),
        ReadAuxilliaryInfoFromFinalBlockMsg ext n message offset shard_id0
          = some (r, cur_offset, shard_id) ∧
        (r = true ↔
          (ext.CheckWhetherDSBlockNumIsLatest n ((dsBlockNum + 1) % UINT256_MOD) = true ∧
           consensusID = n.m_consensusID)) ∧
        (r = true →
          shard_id = shardByte.val ∧ cur_offset = offset + ext.sizeof_uint256_t + 5) := by
  generalize hw : ext.sizeof_uint256_t = w at havail hrep ⊢
  obtain ⟨dsn, hdsn⟩ := GetNumber_isSome message offset w (by omega)
  obtain ⟨cid, hcid⟩ := GetNumber_isSome message (offset + w) 4 (by omega)
  have hlt : offset + w + 4 < message.length := by omega
  have hget : message.get? (offset + w + 4) = some message[offset + w + 4] := by
    simp [List.get?_eq_getElem?, List.getElem?_eq_getElem hlt]
  have hsid := GetNumber_one message (offset + w + 4) _ hget
  have hm1 : (offset + w) % UINT_MOD = offset + w := Nat.mod_eq_of_lt (by omega)
  have hm2 : (offset + w + 4) % UINT_MOD = offset + w + 4 := Nat.mod_eq_of_lt (by omega)
  have hm3 : (offset + w + 4 + 1) % UINT_MOD = offset + w + 5 := Nat.mod_eq_of_lt (by omega)
  refine ⟨dsn, cid, message[offset + w + 4], hdsn, hcid, hget, ?_⟩
  cases hcheck : ext.CheckWhetherDSBlockNumIsLatest n ((dsn + 1) % UINT256_MOD) with
  | false =>
    refine ⟨false, offset + w, shard_id0, ?_, by simp, by simp⟩
    simp [ReadAuxilliaryInfoFromFinalBlockMsg, hw, hdsn, hcheck, hm1]
  | true =>
    by_cases hc : cid = n.m_consensusID
    · refine ⟨true, offset + w + 5, (message[offset + w + 4]).val, ?_, by simp [hc], by simp⟩
      simp [ReadAuxilliaryInfoFromFinalBlockMsg, hw, hdsn, hcheck, hm1, hcid, hc, hm2, hsid, hm3]
    · refine ⟨false, offset + w + 4, shard_id0, ?_, by simp [hc], by simp⟩
      simp [ReadAuxilliaryInfoFromFinalBlockMsg, hw, hdsn, hcheck, hm1, hcid, hc, hm2]

/-- C18, evaluation at the failing input: sizeof(uint256_t) is 48.  The sample
final-block message has 37 header bytes in the layout of the claim: the 32-byte
DS block number 0, whose successor passes the latest-block check, the consensus
id 0 of the node at offset 32 and the shard id 0 at offset 36.
ReadAuxilliaryInfoFromFinalBlockMsg reads 48 bytes as the DS block number, which
run into the final block and give a number other than 0, and returns false with
the offset at 48, so that ProcessFinalBlock rejects the message.  On the same
message with the DS block number widened to 48
bytes it returns true: the consensus id is then read at offset 48, the shard id
at offset 52, and the offset has advanced by 53, not 37.  With
sizeof(uint256_t) taken as 32 the first message is accepted with the offset at
37. -/
theorem ReadAuxilliaryInfoFromFinalBlockMsg_header_width :
    sampleExtWide.sizeof_uint256_t = 48 ∧
    0 + 37 ≤ sampleFinalBlockMsg.length ∧
    GetNumber sampleFinalBlockMsg 0 32 = some 0 ∧
    sampleExtWide.CheckWhetherDSBlockNumIsLatest sampleNodeWaiting ((0 + 1) % UINT256_MOD)
      = true ∧
    GetNumber sampleFinalBlockMsg (0 + 32) 4 = some sampleNodeWaiting.m_consensusID ∧
    sampleFinalBlockMsg.get? (0 + 36) = some 0 ∧
    ReadAuxilliaryInfoFromFinalBlockMsg sampleExtWide sampleNodeWaiting sampleFinalBlockMsg 0 255
      = some (false, 48, 255) ∧
    (ProcessFinalBlock sampleExtWide sampleNodeWaiting sampleFinalBlockMsg 0).map Prod.fst
      = some false ∧
    ReadAuxilliaryInfoFromFinalBlockMsg sampleExtWide sampleNodeWaiting sampleWideHeaderMsg 0 255
      = some (true, 53, 0) ∧
    GetNumber sampleWideHeaderMsg (0 + 48) 4 = some sampleNodeWaiting.m_consensusID ∧
    sampleWideHeaderMsg.get? (0 + 52) = some 0 ∧
    ReadAuxilliaryInfoFromFinalBlockMsg sampleExt sampleNodeWaiting sampleFinalBlockMsg 0 255
      = some (true, 37, 0) := by
  refine ⟨rfl, by decide, by decide, by decide, by decide, by decide, by decide, by decide,
    by decide, by decide, by decide, by decide⟩

/-- C19, counterexample: the sample node accepts the header of the truncated
message, whose sharing setup announces one DS forwarder and ends there (the
message has 74 bytes, the count is read at offset 70).  ProcessFinalBlock does
not report failure: the read of the peer past the end of the message has no
result and neither has the call. -/
theorem ProcessFinalBlock_truncated_counterexample :
    ReadAuxilliaryInfoFromFinalBlockMsg sampleExt sampleNodeWaiting sampleTruncatedMsg 0 255
      = some (true, 37, 0) ∧
    sharingSetupOffset sampleExt sampleTruncatedMsg 37 = 70 ∧
    GetNumber sampleTruncatedMsg 70 4 = some 1 ∧
    sampleTruncatedMsg.length = 74 ∧
    readPeer sampleTruncatedMsg 74 = none ∧
    (ProcessFinalBlock sampleExt sampleNodeWaiting sampleTruncatedMsg 0).map Prod.fst = none ∧
    (ProcessFinalBlock sampleExt sampleNodeWaiting sampleTruncatedMsg 0).map Prod.fst
      ≠ some false := by
  refine ⟨by decide, by decide, by decide, by decide, by decide, by decide, by decide⟩

/-- C19, amended: for a final-block message that passes the state gate and the
header checks, ProcessFinalBlock never reports failure: whenever it returns, it
returns true.  When the decoding of the sharing setup has no result, because a
declared count or peer needs more bytes than the message holds, the call has no
result either. -/
theorem ProcessFinalBlock_no_decode_failure (ext : Externals) (n : Node)
    (message : List Byte) (offset cur_offset shard_id : Nat)
    (hstate : n.m_state ≠ NodeState.MICROBLOCK_CONSENSUS)
    (hgate : ext.CheckStateProcessFinalBlock n.m_state = true)
    (haux : ReadAuxilliaryInfoFromFinalBlockMsg ext n message offset 255
      = some (true, cur_offset, shard_id)) :
    (∀ (r : Bool) (n' : Node), ProcessFinalBlock ext n message offset = some (r, n') → r = true) ∧
    (LoadTxnSharingInfo (nodeAfterStore ext n message cur_offset) message shard_id
        { cur_offset := sharingSetupOffset ext message cur_offset, i_am_sender := false,
          i_am_forwarder := false, nodes := [] } = none →
      ProcessFinalBlock ext n message offset = none) := by
  refine ⟨fun r n' h => ProcessFinalBlock_true_after_checks ext n n' message offset cur_offset
    shard_id r hstate hgate haux h, ?_⟩
  intro hl
  rw [ProcessFinalBlock_after_checks ext n message offset cur_offset shard_id hstate hgate haux,
    hl]
  rfl

/-- C19, worked example: the truncated message passes the gate and the header
checks on the sample node, the decoding of its sharing setup has no result, and
the call has no result. -/
theorem ProcessFinalBlock_no_decode_failure_witness :
    (sampleNodeWaiting.m_state ≠ NodeState.MICROBLOCK_CONSENSUS ∧
     sampleExt.CheckStateProcessFinalBlock sampleNodeWaiting.m_state = true ∧
     ReadAuxilliaryInfoFromFinalBlockMsg sampleExt sampleNodeWaiting sampleTruncatedMsg 0 255
       = some (true, 37, 0) ∧
     LoadTxnSharingInfo (nodeAfterStore sampleExt sampleNodeWaiting sampleTruncatedMsg 37)
        sampleTruncatedMsg 0
        { cur_offset := sharingSetupOffset sampleExt sampleTruncatedMsg 37, i_am_sender := false,
          i_am_forwarder := false, nodes := [] } = none) ∧
    ProcessFinalBlock sampleExt sampleNodeWaiting sampleTruncatedMsg 0 = none :=
  ⟨⟨by decide, by decide, by decide, by decide⟩,
   (ProcessFinalBlock_no_decode_failure sampleExt sampleNodeWaiting sampleTruncatedMsg 0 37 0
     (by decide) (by decide) (by decide)).2 (by decide)⟩

/-! ### Reconciliation inside ActOnFinalBlock -/

/-- CommitMyShardsMicroBlock in closed form. -/
theorem CommitMyShardsMicroBlock_closed (n : Node) (mb : MicroBlock) (b : BlockNum)
    (mode : TxSharingMode) (out0 : List Transaction) (hmb : n.m_microblock = some mb) :
    ∃ n2 : Node,
      CommitMyShardsMicroBlock n b mode out0
        = some (n2, out0 ++ (if sendsBodies mode then
                  expectedMoves mb.GetTranHashes (poolAt n.m_submittedTransactions b)
                    (poolAt n.m_receivedTransactions b)
                else [])) ∧
      n2.m_submittedTransactions = n.m_submittedTransactions.erase b ∧
      n2.m_receivedTransactions = n.m_receivedTransactions.erase b ∧
      n2.m_committedTransactions
        = (if mb.GetTranHashes = [] then n.m_committedTransactions
           else n.m_committedTransactions.set b
                  (committedAt n.m_committedTransactions b
                    ++ expectedMoves mb.GetTranHashes (poolAt n.m_submittedTransactions b)
                         (poolAt n.m_receivedTransactions b))) ∧
      n2.m_unavailableMicroBlocks = n.m_unavailableMicroBlocks ∧
      n2.m_forwardingAssignment = n.m_forwardingAssignment ∧
      n2.sentBroadcasts = n.sentBroadcasts ∧
      n2.m_microblock = n.m_microblock := by
  obtain ⟨h1, h2, h3, h4, h5, h6, h7, _, h9⟩ := commitLoop_spec b mode mb.GetTranHashes n out0
  refine ⟨{ (commitLoop b mode mb.GetTranHashes n out0).1 with
            m_receivedTransactions :=
              (commitLoop b mode mb.GetTranHashes n out0).1.m_receivedTransactions.erase b
            m_submittedTransactions :=
              (commitLoop b mode mb.GetTranHashes n out0).1.m_submittedTransactions.erase b },
          ?_, ?_, ?_, ?_, h6, h7, h9, h5⟩
  · rw [CommitMyShardsMicroBlock_eq n mb b mode out0 hmb, h2]
  · funext b'
    by_cases hb : b' = b
    · subst hb; simp
    · simp [hb, (h3 b' hb).1]
  · funext b'
    by_cases hb : b' = b
    · subst hb; simp
    · simp [hb, (h3 b' hb).2.1]
  · by_cases hnil : mb.GetTranHashes = []
    · simp only [hnil, if_true]
      simp [commitLoop]
    · simp only [hnil, if_false]
      funext b'
      by_cases hb : b' = b
      · subst hb
        have hsome := h4 hnil
        cases hc : (commitLoop b' mode mb.GetTranHashes n out0).1.m_committedTransactions b' with
        | none => simp [hc] at hsome
        | some l =>
          have : committedAt (commitLoop b' mode mb.GetTranHashes n out0).1.m_committedTransactions b'
              = l := by simp [committedAt, hc]
          rw [this] at h1
          simp [hc, h1]
      · simp [hb, (h3 b' hb).2.2]

/-- The three cases of the reconciliation that follows the switch on the
sharing mode in both overloads of ActOnFinalBlock. -/
theorem reconcileAndSend_spec (ext : Externals) (n : Node) (b : BlockNum)
    (mode : TxSharingMode) (sa : List Peer) :
    (n.m_microblock = none → reconcileAndSend ext n b mode sa = some n) ∧
    (∀ mb : MicroBlock, n.m_microblock = some mb →
      mb.GetTxRootHash ∉ outstandingAt n.m_unavailableMicroBlocks b →
      ∃ n' : Node, reconcileAndSend ext n b mode sa = some n' ∧
        n'.m_submittedTransactions = n.m_submittedTransactions ∧
        n'.m_receivedTransactions = n.m_receivedTransactions ∧
        n'.m_committedTransactions = n.m_committedTransactions ∧
        n'.m_forwardingAssignment = n.m_forwardingAssignment ∧
        n'.sentBroadcasts = n.sentBroadcasts ∧
        n'.m_unavailableMicroBlocks
          = n.m_unavailableMicroBlocks.set b
              ((outstandingAt n.m_unavailableMicroBlocks b).erase mb.GetTxRootHash)) ∧
    (∀ mb : MicroBlock, n.m_microblock = some mb →
      mb.GetTxRootHash ∈ outstandingAt n.m_unavailableMicroBlocks b →
      ∃ (n' n2 : Node) (out : List Transaction),
        reconcileAndSend ext n b mode sa = some n' ∧
        CommitMyShardsMicroBlock n b mode [] = some (n2, out) ∧
        n'.m_submittedTransactions = n2.m_submittedTransactions ∧
        n'.m_receivedTransactions = n2.m_receivedTransactions ∧
        n'.m_committedTransactions = n2.m_committedTransactions ∧
        n'.m_forwardingAssignment = n.m_forwardingAssignment ∧
        n'.m_unavailableMicroBlocks
          = n.m_unavailableMicroBlocks.set b
              ((outstandingAt n.m_unavailableMicroBlocks b).erase mb.GetTxRootHash) ∧
        n'.sentBroadcasts
          = n.sentBroadcasts ++
              (if sa.length > 0 ∧ out.length > 0 then
                 [(sa, forwardTxnMessage ext b mb.GetTxRootHash out)]
               else [])) := by
  refine ⟨?_, ?_, ?_⟩
  · intro hmb
    simp [reconcileAndSend, IsMyShardsMicroBlockTxRootHashInFinalBlock, hmb]
  · intro mb hmb hnot
    obtain ⟨e1, e2, e3, e4⟩ := IsMicroBlockTxRootHashInFinalBlock_eq n mb.GetTxRootHash b
    have hr1 : (IsMicroBlockTxRootHashInFinalBlock n mb.GetTxRootHash b).1 = false := by
      rw [e1]; simpa using hnot
    refine ⟨(IsMicroBlockTxRootHashInFinalBlock n mb.GetTxRootHash b).2, ?_, ?_, ?_, e4, e3, ?_, e2⟩
    · simp [reconcileAndSend, IsMyShardsMicroBlockTxRootHashInFinalBlock, hmb, hr1]
    · simp [IsMicroBlockTxRootHashInFinalBlock]
    · simp [IsMicroBlockTxRootHashInFinalBlock]
    · simp [IsMicroBlockTxRootHashInFinalBlock]
  · intro mb hmb hmem
    obtain ⟨e1, e2, e3, e4⟩ := IsMicroBlockTxRootHashInFinalBlock_eq n mb.GetTxRootHash b
    have hr1 : (IsMicroBlockTxRootHashInFinalBlock n mb.GetTxRootHash b).1 = true := by
      rw [e1]; simpa using hmem
    have hsub : (IsMicroBlockTxRootHashInFinalBlock n mb.GetTxRootHash b).2.m_submittedTransactions
        = n.m_submittedTransactions := by simp [IsMicroBlockTxRootHashInFinalBlock]
    have hrec : (IsMicroBlockTxRootHashInFinalBlock n mb.GetTxRootHash b).2.m_receivedTransactions
        = n.m_receivedTransactions := by simp [IsMicroBlockTxRootHashInFinalBlock]
    have hsent : (IsMicroBlockTxRootHashInFinalBlock n mb.GetTxRootHash b).2.sentBroadcasts
        = n.sentBroadcasts := by simp [IsMicroBlockTxRootHashInFinalBlock]
    have hmb2 : (IsMicroBlockTxRootHashInFinalBlock n mb.GetTxRootHash b).2.m_microblock
        = some mb := by simp [IsMicroBlockTxRootHashInFinalBlock, hmb]
    obtain ⟨na, ha, ha1, ha2, ha3, ha4, ha5, ha6, _⟩ :=
      CommitMyShardsMicroBlock_closed
        (IsMicroBlockTxRootHashInFinalBlock n mb.GetTxRootHash b).2 mb b mode [] hmb2
    obtain ⟨nb, hb, hb1, hb2, hb3, _, _, _, _⟩ :=
      CommitMyShardsMicroBlock_closed n mb b mode [] hmb
    simp only [hsub, hrec, e4] at ha ha1 ha2 ha3
    generalize ([] : List Transaction) ++
      (if sendsBodies mode = true then
        expectedMoves mb.GetTranHashes (poolAt n.m_submittedTransactions b)
          (poolAt n.m_receivedTransactions b)
       else []) = out at ha hb
    by_cases hsend : sa.length > 0
    · refine ⟨BroadcastTransactionsToSendingAssignment ext na b sa mb.GetTxRootHash out, nb, out,
        ?_, hb, ?_, ?_, ?_, ?_, ?_, ?_⟩
      · simp only [reconcileAndSend, IsMyShardsMicroBlockTxRootHashInFinalBlock, hmb, hr1,
          if_true, ha, hmb2, hsend]
      · unfold BroadcastTransactionsToSendingAssignment
        split <;> simp [ha1, hb1]
      · unfold BroadcastTransactionsToSendingAssignment
        split <;> simp [ha2, hb2]
      · unfold BroadcastTransactionsToSendingAssignment
        split <;> simp [ha3, hb3]
      · unfold BroadcastTransactionsToSendingAssignment
        split <;> simp [ha5, e3]
      · unfold BroadcastTransactionsToSendingAssignment
        split <;> simp [ha4, e2]
      · unfold BroadcastTransactionsToSendingAssignment
        split
        · rename_i hlen
          simp [ha6, hsent, hsend, hlen]
        · rename_i hlen
          simp [ha6, hsent, hlen]
    · refine ⟨na, nb, out, ?_, hb, ?_, ?_, ?_, ?_, ?_, ?_⟩
      · simp only [reconcileAndSend, IsMyShardsMicroBlockTxRootHashInFinalBlock, hmb, hr1,
          if_true, ha, hmb2, hsend, if_false]
      · rw [ha1, hb1]
      · rw [ha2, hb2]
      · rw [ha3, hb3]
      · rw [ha5, e3]
      · rw [ha4, e2]
      · simp [ha6, hsent, hsend]

theorem reconcileAndSend_reconciles (ext : Externals) (n n1 : Node) (b : BlockNum)
    (mode : TxSharingMode) (sa : List Peer)
    (hsub : n1.m_submittedTransactions = n.m_submittedTransactions)
    (hrec : n1.m_receivedTransactions = n.m_receivedTransactions)
    (hcom : n1.m_committedTransactions = n.m_committedTransactions)
    (htr : n1.m_unavailableMicroBlocks = n.m_unavailableMicroBlocks)
    (hmbk : n1.m_microblock = n.m_microblock)
    (hsent : n1.sentBroadcasts = n.sentBroadcasts) :
    ∃ n' : Node, reconcileAndSend ext n1 b mode sa = some n' ∧
      OwnMicroBlockReconciled n n' b mode := by
  obtain ⟨hA, hB, hC⟩ := reconcileAndSend_spec ext n1 b mode sa
  cases hmb : n.m_microblock with
  | none =>
    refine ⟨n1, hA (by rw [hmbk, hmb]), ?_, ?_, ?_⟩
    · rintro ⟨mb, h, _⟩; rw [hmb] at h; exact absurd h (by simp)
    · intro _; exact ⟨hsub, hrec, hcom, hsent⟩
    · intro mb h; rw [hmb] at h; exact absurd h (by simp)
  | some mb =>
    have hmb1 : n1.m_microblock = some mb := by rw [hmbk, hmb]
    by_cases hmem : mb.GetTxRootHash ∈ outstandingAt n.m_unavailableMicroBlocks b
    · obtain ⟨n', n2, out, hr, hc, h1, h2, h3, _, h5, _⟩ := hC mb hmb1 (by rw [htr]; exact hmem)
      obtain ⟨na, ha, ha1, ha2, ha3, _⟩ := CommitMyShardsMicroBlock_closed n1 mb b mode [] hmb1
      obtain ⟨nb, hb, hb1, hb2, hb3, _⟩ := CommitMyShardsMicroBlock_closed n mb b mode [] hmb
      rw [ha] at hc
      simp only [Option.some.injEq, Prod.mk.injEq] at hc
      obtain ⟨hna, _⟩ := hc
      subst hna
      simp only [hsub, hrec, hcom] at ha1 ha2 ha3
      refine ⟨n', hr, ?_, ?_, ?_⟩
      · intro _
        refine ⟨nb, _, hb, ?_, ?_, ?_, ?_, ?_⟩
        · rw [h1, ha1, hb1]
        · rw [h2, ha2, hb2]
        · rw [h3, ha3, hb3]
        · rw [h1, ha1]; simp
        · rw [h2, ha2]; simp
      · intro hno; exact absurd ⟨mb, hmb, hmem⟩ hno
      · intro mb' hmb'
        have : mb' = mb := by
          rw [hmb] at hmb'
          exact (Option.some.inj hmb').symm
        subst this
        rw [h5, htr]
        simp [outstandingAt]
    · obtain ⟨n', hr, h1, h2, h3, _, h5, h6⟩ := hB mb hmb1 (by rw [htr]; exact hmem)
      refine ⟨n', hr, ?_, ?_, ?_⟩
      · rintro ⟨mb', hmb', hm'⟩
        have : mb' = mb := by
          rw [hmb] at hmb'
          exact (Option.some.inj hmb').symm
        subst this
        exact absurd hm' hmem
      · intro _
        exact ⟨by rw [h1, hsub], by rw [h2, hrec], by rw [h3, hcom], by rw [h5, hsent]⟩
      · intro mb' hmb'
        have : mb' = mb := by
          rw [hmb] at hmb'
          exact (Option.some.inj hmb').symm
        subst this
        rw [h6, htr]
        simp [outstandingAt]

theorem LoadForwardingAssignmentFromFinalBlock_frame (n : Node) (fellows : List Peer)
    (b : BlockNum) :
    (LoadForwardingAssignmentFromFinalBlock n fellows b).m_submittedTransactions
      = n.m_submittedTransactions ∧
    (LoadForwardingAssignmentFromFinalBlock n fellows b).m_receivedTransactions
      = n.m_receivedTransactions ∧
    (LoadForwardingAssignmentFromFinalBlock n fellows b).m_committedTransactions
      = n.m_committedTransactions ∧
    (LoadForwardingAssignmentFromFinalBlock n fellows b).m_unavailableMicroBlocks
      = n.m_unavailableMicroBlocks ∧
    (LoadForwardingAssignmentFromFinalBlock n fellows b).m_microblock = n.m_microblock ∧
    (LoadForwardingAssignmentFromFinalBlock n fellows b).sentBroadcasts = n.sentBroadcasts := by
  simp [LoadForwardingAssignmentFromFinalBlock]

/-- C20, counterexample: the sample node has stored block 7 and the root 9 of
its micro-block is outstanding for block 7.  The second overload of
ActOnFinalBlock called with SEND_ONLY returns false: the submitted entry of
block 7 is still there, so nothing was reconciled, and the own root is still
outstanding. -/
theorem ActOnFinalBlock_reconciles_counterexample :
    (sampleNodeStored.m_microblock.map MicroBlock.GetTxRootHash = some (sampleHash 9) ∧
     sampleHash 9 ∈ outstandingAt sampleNodeStored.m_unavailableMicroBlocks 7 ∧
     sampleNodeStored.m_txBlockChain.getLast?.map TxBlock.GetBlockNum = some 7) ∧
    (ActOnFinalBlock3 sampleExt sampleNodeStored TxSharingMode.SEND_ONLY [samplePeer] []).map
        (fun r => (r.1, (r.2.m_submittedTransactions 7).isSome,
          decide (sampleHash 9 ∈ outstandingAt r.2.m_unavailableMicroBlocks 7)))
      = some (false, true, true) := by
  refine ⟨⟨by decide, by decide, by decide⟩, by decide⟩

/-- C20, amended: for the first overload of ActOnFinalBlock with every sharing
mode, and for the second overload called with SEND_AND_FORWARD, on a node whose
chain has a last block with number b: the call returns true, and the own
micro-block is reconciled exactly when the node has a micro-block whose
TxRootHash is outstanding for b before the call (the pools after the call are
then the pools CommitMyShardsMicroBlock makes of the pools before); otherwise
the three pools are unchanged and nothing is broadcast; in either case the own
root is not outstanding for b afterwards.  The second overload called with any
other mode returns false and changes nothing. -/
theorem ActOnFinalBlock_reconciles (ext : Externals) (n : Node) (mode : TxSharingMode)
    (nodes sendingAssignment fellowForwarderNodes : List Peer) (finalblock : TxBlock)
    (hlast : n.m_txBlockChain.getLast? = some finalblock) :
    (∃ n' : Node, ActOnFinalBlock ext n mode nodes = some (true, n') ∧
      OwnMicroBlockReconciled n n' finalblock.GetBlockNum mode) ∧
    (∃ n' : Node,
      ActOnFinalBlock3 ext n TxSharingMode.SEND_AND_FORWARD sendingAssignment
        fellowForwarderNodes = some (true, n') ∧
      OwnMicroBlockReconciled n n' finalblock.GetBlockNum TxSharingMode.SEND_AND_FORWARD) ∧
    (mode ≠ TxSharingMode.SEND_AND_FORWARD →
      ActOnFinalBlock3 ext n mode sendingAssignment fellowForwarderNodes = some (false, n)) := by
  refine ⟨?_, ?_, ?_⟩
  · have hframe : ∀ n1 : Node,
        n1.m_submittedTransactions = n.m_submittedTransactions →
        n1.m_receivedTransactions = n.m_receivedTransactions →
        n1.m_committedTransactions = n.m_committedTransactions →
        n1.m_unavailableMicroBlocks = n.m_unavailableMicroBlocks →
        n1.m_microblock = n.m_microblock →
        n1.sentBroadcasts = n.sentBroadcasts →
        ∀ sa : List Peer,
        ∃ n' : Node,
          (reconcileAndSend ext n1 finalblock.GetBlockNum mode sa).map (fun n2 => (true, n2))
            = some (true, n') ∧
          OwnMicroBlockReconciled n n' finalblock.GetBlockNum mode := by
      intro n1 h1 h2 h3 h4 h5 h6 sa
      obtain ⟨n', hr, hrec⟩ :=
        reconcileAndSend_reconciles ext n n1 finalblock.GetBlockNum mode sa h1 h2 h3 h4 h5 h6
      exact ⟨n', by rw [hr]; rfl, hrec⟩
    obtain ⟨f1, f2, f3, f4, f5, f6⟩ :=
      LoadForwardingAssignmentFromFinalBlock_frame n nodes finalblock.GetBlockNum
    cases mode with
    | IDLE =>
      simpa [ActOnFinalBlock, hlast] using hframe n rfl rfl rfl rfl rfl rfl []
    | SEND_ONLY =>
      simpa [ActOnFinalBlock, hlast] using hframe n rfl rfl rfl rfl rfl rfl nodes
    | DS_FORWARD_ONLY =>
      simpa [ActOnFinalBlock, hlast] using
        hframe { n with m_forwardingAssignment :=
                   n.m_forwardingAssignment.insert finalblock.GetBlockNum nodes }
          rfl rfl rfl rfl rfl rfl []
    | NODE_FORWARD_ONLY =>
      simpa [ActOnFinalBlock, hlast] using hframe _ f1 f2 f3 f4 f5 f6 []
    | SEND_AND_FORWARD =>
      simpa [ActOnFinalBlock, hlast] using hframe n rfl rfl rfl rfl rfl rfl []
  · obtain ⟨f1, f2, f3, f4, f5, f6⟩ :=
      LoadForwardingAssignmentFromFinalBlock_frame n fellowForwarderNodes finalblock.GetBlockNum
    obtain ⟨n', hr, hrec⟩ :=
      reconcileAndSend_reconciles ext n _ finalblock.GetBlockNum TxSharingMode.SEND_AND_FORWARD
        sendingAssignment f1 f2 f3 f4 f5 f6
    refine ⟨n', ?_, hrec⟩
    simp [ActOnFinalBlock3, hlast, hr]
  · intro hmode
    simp [ActOnFinalBlock3, hmode]

/-- C20, worked example: the first overload in mode SEND_ONLY on the sample node
that has stored block 7 returns true and reconciles the own micro-block. -/
theorem ActOnFinalBlock_reconciles_witness :
    sampleNodeStored.m_txBlockChain.getLast? = some sampleBlock7 ∧
    ∃ n' : Node,
      ActOnFinalBlock sampleExt sampleNodeStored TxSharingMode.SEND_ONLY [samplePeer]
        = some (true, n') ∧
      OwnMicroBlockReconciled sampleNodeStored n' sampleBlock7.GetBlockNum
        TxSharingMode.SEND_ONLY :=
  ⟨rfl,
   (ActOnFinalBlock_reconciles sampleExt sampleNodeStored TxSharingMode.SEND_ONLY [samplePeer]
     [] [] sampleBlock7 rfl).1⟩

/-! ### Role resolution -/

theorem reconcileAndSend_no_targets (ext : Externals) (n : Node) (b : BlockNum)
    (mode : TxSharingMode) :
    ∃ n' : Node, reconcileAndSend ext n b mode [] = some n' ∧
      n'.m_forwardingAssignment = n.m_forwardingAssignment ∧
      n'.sentBroadcasts = n.sentBroadcasts := by
  obtain ⟨hA, hB, hC⟩ := reconcileAndSend_spec ext n b mode []
  cases hmb : n.m_microblock with
  | none => exact ⟨n, hA hmb, rfl, rfl⟩
  | some mb =>
    by_cases hmem : mb.GetTxRootHash ∈ outstandingAt n.m_unavailableMicroBlocks b
    · obtain ⟨n', _, _, hr, _, _, _, _, h4, _, h6⟩ := hC mb hmb hmem
      exact ⟨n', hr, h4, by simpa using h6⟩
    · obtain ⟨n', hr, _, _, _, h4, h5, _⟩ := hB mb hmb hmem
      exact ⟨n', hr, h4, h5⟩

/-- C13: the role is a function of the two flags.  Forwarder only calls
ActOnFinalBlock with NODE_FORWARD_ONLY, sender only with SEND_ONLY, both calls
the second overload with SEND_AND_FORWARD, neither calls ActOnFinalBlock with
IDLE and an empty list.  In the IDLE case the call returns when a final block
is stored, the forwarding assignments are those before the call and nothing is
broadcast. -/
theorem CallActOnFinalBlockBasedOnSenderForwarderAssgn_roles (ext : Externals) (n : Node)
    (nodes : List (List Peer)) (shard_id : Nat) :
    (CallActOnFinalBlockBasedOnSenderForwarderAssgn ext n false true nodes shard_id
      = (nodes.get? (shard_id + 1)).bind
          (fun my_shard_receivers =>
            (ActOnFinalBlock ext n TxSharingMode.NODE_FORWARD_ONLY my_shard_receivers).map
              Prod.snd)) ∧
    (CallActOnFinalBlockBasedOnSenderForwarderAssgn ext n true false nodes shard_id
      = (receiversInOtherCommittees nodes shard_id).bind
          (fun nodes_to_send =>
            (ActOnFinalBlock ext n TxSharingMode.SEND_ONLY nodes_to_send).map Prod.snd)) ∧
    (CallActOnFinalBlockBasedOnSenderForwarderAssgn ext n true true nodes shard_id
      = (nodes.get? (shard_id + 1)).bind
          (fun my_shard_receivers =>
            (receiversInOtherCommittees nodes shard_id).bind
              (fun fellowForwarderNodes =>
                (ActOnFinalBlock3 ext n TxSharingMode.SEND_AND_FORWARD my_shard_receivers
                  fellowForwarderNodes).map Prod.snd))) ∧
    (CallActOnFinalBlockBasedOnSenderForwarderAssgn ext n false false nodes shard_id
      = (ActOnFinalBlock ext n TxSharingMode.IDLE []).map Prod.snd) ∧
    (∀ n' : Node,
      CallActOnFinalBlockBasedOnSenderForwarderAssgn ext n false false nodes shard_id = some n' →
      n'.m_forwardingAssignment = n.m_forwardingAssignment ∧
      n'.sentBroadcasts = n.sentBroadcasts) ∧
    (n.m_txBlockChain ≠ [] →
      ∃ n' : Node,
        CallActOnFinalBlockBasedOnSenderForwarderAssgn ext n false false nodes shard_id
          = some n') := by
  have hidle : CallActOnFinalBlockBasedOnSenderForwarderAssgn ext n false false nodes shard_id
      = (ActOnFinalBlock ext n TxSharingMode.IDLE []).map Prod.snd := by
    unfold CallActOnFinalBlockBasedOnSenderForwarderAssgn
    rw [if_neg (by decide), if_neg (by decide), if_neg (by decide)]
  refine ⟨?_, ?_, ?_, hidle, ?_, ?_⟩
  · unfold CallActOnFinalBlockBasedOnSenderForwarderAssgn
    rw [if_pos (by decide)]
    cases nodes.get? (shard_id + 1) <;> rfl
  · unfold CallActOnFinalBlockBasedOnSenderForwarderAssgn
    rw [if_neg (by decide), if_pos (by decide)]
    cases receiversInOtherCommittees nodes shard_id <;> rfl
  · unfold CallActOnFinalBlockBasedOnSenderForwarderAssgn
    rw [if_neg (by decide), if_neg (by decide), if_pos (by decide)]
    cases nodes.get? (shard_id + 1) <;>
      cases receiversInOtherCommittees nodes shard_id <;> rfl
  · intro n' hn'
    rw [hidle] at hn'
    cases hlast : n.m_txBlockChain.getLast? with
    | none => simp [ActOnFinalBlock, hlast] at hn'
    | some fb =>
      obtain ⟨n2, hr, h1, h2⟩ :=
        reconcileAndSend_no_targets ext n fb.GetBlockNum TxSharingMode.IDLE
      simp [ActOnFinalBlock, hlast] at hn'
      rw [hr] at hn'
      have hn2 : n2 = n' := Option.some.inj hn'
      subst hn2
      exact ⟨h1, h2⟩
  · intro hne
    rw [hidle]
    cases hlast : n.m_txBlockChain.getLast? with
    | none => exact absurd (List.getLast?_eq_none_iff.mp hlast) hne
    | some fb =>
      obtain ⟨n2, hr, _, _⟩ :=
        reconcileAndSend_no_targets ext n fb.GetBlockNum TxSharingMode.IDLE
      refine ⟨n2, ?_⟩
      simp [ActOnFinalBlock, hlast]
      exact hr

/-- C13, worked example: the sample node that has stored block 7 is neither
sender nor forwarder; the call returns, no forwarding assignment exists
afterwards and nothing was broadcast. -/
theorem CallActOnFinalBlockBasedOnSenderForwarderAssgn_roles_witness :
    sampleNodeStored.m_txBlockChain ≠ [] ∧
    ∃ n' : Node,
      CallActOnFinalBlockBasedOnSenderForwarderAssgn sampleExt sampleNodeStored false false
        [[], [emptyNode.m_selfPeer], []] 0 = some n' ∧
      n'.m_forwardingAssignment = sampleNodeStored.m_forwardingAssignment ∧
      n'.sentBroadcasts = sampleNodeStored.sentBroadcasts := by
  refine ⟨by decide, ?_⟩
  obtain ⟨n', hn'⟩ :=
    (CallActOnFinalBlockBasedOnSenderForwarderAssgn_roles sampleExt sampleNodeStored
      [[], [emptyNode.m_selfPeer], []] 0).2.2.2.2.2 (by decide)
  exact ⟨n', hn',
    (CallActOnFinalBlockBasedOnSenderForwarderAssgn_roles sampleExt sampleNodeStored
      [[], [emptyNode.m_selfPeer], []] 0).2.2.2.2.1 n' hn'⟩

/-! ### Targets of a sender -/

theorem flatMap_nodes_cons (sh : List Peer × List Peer) (rest : List (List Peer × List Peer)) :
    (sh :: rest).flatMap (fun sh => [sh.1, sh.2])
      = [sh.1, sh.2] ++ rest.flatMap (fun sh => [sh.1, sh.2]) := by
  simp [List.flatMap_cons]

/-- The loop over the odd indices of the node list of a sharing setup collects
the receiver lists of the other shards. -/
theorem otherShardReceivers_nodes (shard_id : Nat) :
    ∀ (rest : List (List Peer × List Peer)) (pre : List (List Peer)) (k fuel : Nat)
      (acc : List Peer),
      pre.length = 2 * k + 1 → rest.length ≤ fuel →
      otherShardReceivers (pre ++ rest.flatMap (fun sh => [sh.1, sh.2])) shard_id fuel
          pre.length acc
        = acc ++ otherReceivers shard_id rest k := by
  intro rest
  induction rest with
  | nil =>
    intro pre k fuel acc _ _
    cases fuel with
    | zero => simp [otherShardReceivers, otherReceivers]
    | succ f => simp [otherShardReceivers, otherReceivers]
  | cons sh rest ih =>
    intro pre k fuel acc hpre hfuel
    cases fuel with
    | zero => simp at hfuel
    | succ f =>
      have hlt : pre.length < (pre ++ (sh :: rest).flatMap (fun sh => [sh.1, sh.2])).length := by
        simp [List.flatMap_cons]
      have hk : (pre.length - 1) / 2 = k := by omega
      have hnodes : pre ++ (sh :: rest).flatMap (fun sh => [sh.1, sh.2])
          = (pre ++ [sh.1, sh.2]) ++ rest.flatMap (fun sh => [sh.1, sh.2]) := by
        simp [List.flatMap_cons]
      have hlen2 : (pre ++ [sh.1, sh.2]).length = pre.length + 2 := by simp
      have hpre2 : (pre ++ [sh.1, sh.2]).length = 2 * (k + 1) + 1 := by rw [hlen2]; omega
      have hfuel2 : rest.length ≤ f := by simpa using hfuel
      have hget : (pre ++ (sh :: rest).flatMap (fun sh => [sh.1, sh.2])).getD pre.length []
          = sh.1 := by
        rw [List.getD_eq_getElem?_getD, List.getElem?_append_right (le_refl _)]
        simp [List.flatMap_cons]
      unfold otherShardReceivers
      rw [if_pos hlt, hk]
      by_cases hs : k = shard_id
      · rw [if_pos hs, hnodes, ← hlen2, ih (pre ++ [sh.1, sh.2]) (k + 1) f acc hpre2 hfuel2]
        simp [otherReceivers, hs]
      · rw [if_neg hs, hget, hnodes, ← hlen2,
          ih (pre ++ [sh.1, sh.2]) (k + 1) f (acc ++ sh.1) hpre2 hfuel2]
        simp [otherReceivers, hs]

theorem receiversInOtherCommittees_nodes (s : SharingSetup) (shard_id : Nat) :
    receiversInOtherCommittees s.nodes shard_id = some (s.senderTargets shard_id) := by
  have h := otherShardReceivers_nodes shard_id s.shards [s.dsForwarders] 0
    (s.nodes.length) s.dsForwarders rfl
    (by simp [SharingSetup.nodes, List.length_flatMap]; induction s.shards <;> simp_all; omega)
  simp only [receiversInOtherCommittees, SharingSetup.nodes, SharingSetup.senderTargets]
  simpa [SharingSetup.nodes] using h

theorem mem_otherReceivers (shard_id : Nat) (p : Peer) :
    ∀ (shards : List (List Peer × List Peer)) (first : Nat),
      p ∈ otherReceivers shard_id shards first ↔
        ∃ (j : Nat) (sh : List Peer × List Peer),
          shards.get? j = some sh ∧ first + j ≠ shard_id ∧ p ∈ sh.1 := by
  intro shards
  induction shards with
  | nil => intro first; simp [otherReceivers]
  | cons sh rest ih =>
    intro first
    by_cases hf : first = shard_id
    · simp only [otherReceivers, hf, if_true]
      rw [ih (shard_id + 1)]
      constructor
      · rintro ⟨j, sh', h1, h2, h3⟩
        exact ⟨j + 1, sh', by simpa using h1, by omega, h3⟩
      · rintro ⟨j, sh', h1, h2, h3⟩
        cases j with
        | zero => exact absurd rfl h2
        | succ j => exact ⟨j, sh', by simpa using h1, by omega, h3⟩
    · simp only [otherReceivers, hf, if_false, List.mem_append]
      rw [ih (first + 1)]
      constructor
      · rintro (h | ⟨j, sh', h1, h2, h3⟩)
        · exact ⟨0, sh, by simp, by simpa using hf, h⟩
        · exact ⟨j + 1, sh', by simpa using h1, by omega, h3⟩
      · rintro ⟨j, sh', h1, h2, h3⟩
        cases j with
        | zero =>
          left
          have : sh = sh' := by simpa using h1
          rw [this]; exact h3
        | succ j => exact Or.inr ⟨j, sh', by simpa using h1, by omega, h3⟩

/-- C14: in the sender-only case, for the node list of every sharing setup and
every shard id, the list handed to ActOnFinalBlock with SEND_ONLY is the DS
forwarder list followed by the receiver lists of every shard whose index
differs from the shard id, in shard order and each in its own order; a peer of
that list is a DS forwarder or a receiver of another shard. -/
theorem CallActOnFinalBlockBasedOnSenderForwarderAssgn_sender_targets (ext : Externals)
    (n : Node) (s : SharingSetup) (shard_id : Nat) :
    receiversInOtherCommittees s.nodes shard_id = some (s.senderTargets shard_id) ∧
    CallActOnFinalBlockBasedOnSenderForwarderAssgn ext n true false s.nodes shard_id
      = (ActOnFinalBlock ext n TxSharingMode.SEND_ONLY (s.senderTargets shard_id)).map Prod.snd ∧
    s.senderTargets shard_id = s.dsForwarders ++ otherReceivers shard_id s.shards 0 ∧
    (∀ p : Peer, p ∈ s.senderTargets shard_id ↔
      (p ∈ s.dsForwarders ∨
       ∃ (j : Nat) (sh : List Peer × List Peer),
         s.shards.get? j = some sh ∧ j ≠ shard_id ∧ p ∈ sh.1)) := by
  refine ⟨receiversInOtherCommittees_nodes s shard_id, ?_, rfl, ?_⟩
  · unfold CallActOnFinalBlockBasedOnSenderForwarderAssgn
    rw [if_neg (by decide), if_pos (by decide), receiversInOtherCommittees_nodes s shard_id]
  · intro p
    simp only [SharingSetup.senderTargets, List.mem_append, mem_otherReceivers, Nat.zero_add]

set_option maxRecDepth 20000 in
/-- C16, evaluation at the failing input: the sample node is a receiver and a
sender of shard 1 of a setup with three shards.  The sender-only target set is
the DS forwarder and the receivers of the shards 0 and 2.  ProcessFinalBlock
decodes both flags as true and returns true, and the only broadcast of the
committed body goes to the list at index shard id + 1 of the node list, which
here is the sender list of shard 0.  Called for shard id 0 the same branch
broadcasts to the receiver list of shard 0, the own shard, while the
sender-only target set for shard 0 is the DS forwarder and the receivers of the
shards 1 and 2. -/
theorem ProcessFinalBlock_both_roles_broadcast_target :
    (LoadTxnSharingInfo sampleNodeWaitingTxn sampleSetupMsg 1
        { cur_offset := 70, i_am_sender := false, i_am_forwarder := false, nodes := [] }).map
        (fun info => (info.i_am_sender, info.i_am_forwarder, info.nodes))
      = some (true, true, sampleSetup.nodes) ∧
    sampleSetup.senderTargets 1
      = [{ m_ipAddress := 10, m_listenPortHost := 1 }, { m_ipAddress := 20, m_listenPortHost := 1 },
         { m_ipAddress := 40, m_listenPortHost := 1 }] ∧
    (ProcessFinalBlock sampleExt sampleNodeWaitingTxn sampleSetupMsg 0).map
        (fun r => (r.1, r.2.sentBroadcasts.map Prod.fst))
      = some (true, [[{ m_ipAddress := 21, m_listenPortHost := 1 }]]) ∧
    (CallActOnFinalBlockBasedOnSenderForwarderAssgn sampleExt sampleNodeStored true true
        sampleSetup.nodes 1).map (fun r => r.sentBroadcasts.map Prod.fst)
      = some [[{ m_ipAddress := 21, m_listenPortHost := 1 }]] ∧
    sampleSetup.senderTargets 0
      = [{ m_ipAddress := 10, m_listenPortHost := 1 }, emptyNode.m_selfPeer, samplePeer,
         { m_ipAddress := 40, m_listenPortHost := 1 }] ∧
    (CallActOnFinalBlockBasedOnSenderForwarderAssgn sampleExt sampleNodeStored true true
        sampleSetup.nodes 0).map (fun r => r.sentBroadcasts.map Prod.fst)
      = some [[{ m_ipAddress := 20, m_listenPortHost := 1 }]] := by
  refine ⟨by decide, by decide, by decide, by decide, by decide, by decide⟩

/-! ### Forwarding assignment -/

theorem set_indexOf_perm (x a : Peer) :
    ∀ l : List Peer, a ∈ l → (l.set (l.indexOf a) x).Perm (x :: l.erase a) := by
  intro l
  induction l with
  | nil => intro h; exact absurd h (by simp)
  | cons h t ih =>
    intro hmem
    by_cases hh : h = a
    · subst hh
      simp [List.indexOf_cons_self]
    · have hmem' : a ∈ t := by
        rcases List.mem_cons.mp hmem with h1 | h1
        · exact absurd h1.symm hh
        · exact h1
      rw [List.indexOf_cons_ne _ hh, List.set_cons_succ, List.erase_cons_tail (by simpa using hh)]
      exact ((ih hmem').cons h).trans (List.Perm.swap x h _)

/-- Swap-and-pop removes one occurrence of the fellow forwarder. -/
theorem removeFellowForwarder_perm (peers : List Peer) (f : Peer) :
    (removeFellowForwarder peers f).Perm (peers.erase f) := by
  by_cases hmem : f ∈ peers
  · rcases List.eq_nil_or_concat peers with hnil | ⟨init, last, hc⟩
    · rw [hnil] at hmem; exact absurd hmem (by simp)
    · rw [List.concat_eq_append] at hc
      subst hc
      have hlast : (init ++ [last]).getLast? = some last := List.getLast?_concat init
      by_cases hin : f ∈ init
      · have hidx : List.indexOf f (init ++ [last]) = List.indexOf f init :=
          List.indexOf_append_of_mem hin
        have hlt : List.indexOf f init < init.length := List.indexOf_lt_length.mpr hin
        have hres : removeFellowForwarder (init ++ [last]) f
            = init.set (List.indexOf f init) last := by
          unfold removeFellowForwarder
          simp only [hidx, hlast]
          rw [if_pos (by simp; omega), List.set_append_left _ _ hlt, List.dropLast_concat]
        rw [hres, List.erase_append_left _ hin]
        exact (set_indexOf_perm last f init hin).trans (List.perm_append_singleton last _).symm
      · have hf : f = last := by
          rcases List.mem_append.mp hmem with h1 | h1
          · exact absurd h1 hin
          · simpa using h1
        subst hf
        have hidx : List.indexOf f (init ++ [f]) = init.length := by
          rw [List.indexOf_append_of_not_mem hin]
          simp [List.indexOf_cons_self]
        have hres : removeFellowForwarder (init ++ [f]) f = init := by
          unfold removeFellowForwarder
          simp only [hidx, hlast]
          rw [if_pos (by simp), List.set_append_right _ _ (le_refl _)]
          simp
        rw [hres, List.erase_append_right _ hin]
        simp
  · have hidx : List.indexOf f peers = peers.length := List.indexOf_eq_length.mpr hmem
    have hres : removeFellowForwarder peers f = peers := by
      unfold removeFellowForwarder
      simp [hidx]
    rw [hres, List.erase_of_not_mem hmem]

theorem foldl_removeFellowForwarder :
    ∀ (fellows peers : List Peer), peers.Nodup →
      (fellows.foldl removeFellowForwarder peers).Nodup ∧
      ∀ p, p ∈ fellows.foldl removeFellowForwarder peers ↔ (p ∈ peers ∧ p ∉ fellows) := by
  intro fellows
  induction fellows with
  | nil => intro peers hnd; simp [hnd]
  | cons f rest ih =>
    intro peers hnd
    have hperm := removeFellowForwarder_perm peers f
    have hnd' : (removeFellowForwarder peers f).Nodup :=
      (hperm.nodup_iff).mpr (hnd.erase f)
    obtain ⟨h1, h2⟩ := ih (removeFellowForwarder peers f) hnd'
    refine ⟨by simpa using h1, ?_⟩
    intro p
    simp only [List.foldl_cons, h2, hperm.mem_iff, hnd.mem_erase_iff, List.mem_cons, not_or]
    tauto

theorem pushShardMembers_append (myID : Nat) :
    ∀ (roster : List Peer) (i : Nat) (acc : List Peer),
      pushShardMembers myID roster i acc = acc ++ pushShardMembers myID roster i [] := by
  intro roster
  induction roster with
  | nil => intro i acc; simp [pushShardMembers]
  | cons p rest ih =>
    intro i acc
    by_cases hi : i = myID
    · simp only [pushShardMembers, hi, if_true]
      exact ih (myID + 1) acc
    · simp only [pushShardMembers, hi, if_false]
      rw [ih (i + 1) (acc ++ [p]), ih (i + 1) ([] ++ [p])]
      simp

theorem pushShardMembers_spec (myID : Nat) :
    ∀ (roster : List Peer) (i : Nat),
      (pushShardMembers myID roster i []).Sublist roster ∧
      ∀ p, p ∈ pushShardMembers myID roster i [] ↔
        ∃ j, i + j ≠ myID ∧ roster.get? j = some p := by
  intro roster
  induction roster with
  | nil => intro i; simp [pushShardMembers]
  | cons q rest ih =>
    intro i
    obtain ⟨hs, hm⟩ := ih (i + 1)
    by_cases hi : i = myID
    · have hstep : pushShardMembers myID (q :: rest) i []
          = pushShardMembers myID rest (i + 1) [] := by
        simp [pushShardMembers, hi]
      rw [hstep]
      refine ⟨hs.cons q, ?_⟩
      intro p
      rw [hm p]
      constructor
      · rintro ⟨j, h1, h2⟩
        exact ⟨j + 1, by omega, by simpa using h2⟩
      · rintro ⟨j, h1, h2⟩
        cases j with
        | zero => exact absurd hi (by omega)
        | succ j => exact ⟨j, by omega, by simpa using h2⟩
    · simp only [pushShardMembers, hi, if_false]
      rw [pushShardMembers_append myID rest (i + 1) ([] ++ [q])]
      refine ⟨by simpa using hs.cons₂ q, ?_⟩
      intro p
      simp only [List.nil_append, List.singleton_append, List.mem_cons, hm p]
      constructor
      · rintro (h | ⟨j, h1, h2⟩)
        · exact ⟨0, by simpa using hi, by simp [h]⟩
        · exact ⟨j + 1, by omega, by simpa using h2⟩
      · rintro ⟨j, h1, h2⟩
        cases j with
        | zero => left; simpa using h2.symm
        | succ j => exact Or.inr ⟨j, by omega, by simpa using h2⟩

/-- C15: when the peers of the shard roster are pairwise distinct and no
forwarding assignment exists yet for block number b,
LoadForwardingAssignmentFromFinalBlock stores for b a list without duplicates
whose peers are exactly the roster members at an index other than the own one
that are not fellow forwarders. -/
theorem LoadForwardingAssignmentFromFinalBlock_targets (n : Node)
    (fellowForwarderNodes : List Peer) (b : BlockNum)
    (hnodup : n.m_myShardMembersNetworkInfo.Nodup)
    (hnone : n.m_forwardingAssignment b = none) :
    ∃ peers : List Peer,
      (LoadForwardingAssignmentFromFinalBlock n fellowForwarderNodes b).m_forwardingAssignment b
        = some peers ∧
      peers.Nodup ∧
      ∀ p : Peer, p ∈ peers ↔
        ((∃ i, i ≠ n.m_consensusMyID ∧ n.m_myShardMembersNetworkInfo.get? i = some p) ∧
         p ∉ fellowForwarderNodes) := by
  obtain ⟨hs, hm⟩ := pushShardMembers_spec n.m_consensusMyID n.m_myShardMembersNetworkInfo 0
  have hnd1 : (pushShardMembers n.m_consensusMyID n.m_myShardMembersNetworkInfo 0 []).Nodup :=
    hs.nodup hnodup
  obtain ⟨h1, h2⟩ := foldl_removeFellowForwarder fellowForwarderNodes _ hnd1
  refine ⟨_, ?_, h1, ?_⟩
  · simp [LoadForwardingAssignmentFromFinalBlock, hnone]
  · intro p
    rw [h2 p, hm p]
    simp

/-- C15, worked example: the sample node is the first of the two members of its
shard and has no forwarding assignment for block 7; with no fellow forwarder
the list stored for block 7 has no duplicates. -/
theorem LoadForwardingAssignmentFromFinalBlock_targets_witness :
    (sampleNodeWaiting.m_myShardMembersNetworkInfo.Nodup ∧
     sampleNodeWaiting.m_forwardingAssignment 7 = none) ∧
    ∃ peers : List Peer,
      (LoadForwardingAssignmentFromFinalBlock sampleNodeWaiting [] 7).m_forwardingAssignment 7
        = some peers ∧
      peers.Nodup :=
  have hnd : sampleNodeWaiting.m_myShardMembersNetworkInfo.Nodup := by decide
  ⟨⟨hnd, rfl⟩,
   match LoadForwardingAssignmentFromFinalBlock_targets sampleNodeWaiting [] 7 hnd rfl with
   | ⟨peers, h1, h2, _⟩ => ⟨peers, h1, h2⟩⟩

/-! ### Decoding the sharing setup -/

theorem encodeBE_length : ∀ (len v : Nat), (encodeBE len v).length = len := by
  intro len
  induction len with
  | zero => intro v; simp [encodeBE]
  | succ len ih => intro v; simp [encodeBE, ih]

theorem foldl_encodeBE :
    ∀ (len v : Nat), v < 256 ^ len →
      (encodeBE len v).foldl (fun acc (b : Byte) => acc * 256 + b.val) 0 = v := by
  intro len
  induction len with
  | zero => intro v hv; simp at hv; simp [encodeBE, hv]
  | succ len ih =>
    intro v hv
    have hdiv : v / 256 < 256 ^ len := by
      rw [Nat.div_lt_iff_lt_mul (by norm_num)]
      rw [pow_succ] at hv
      exact hv
    have hb : (Fin.ofNat (v % 256) : Byte).val = v % 256 := by
      simp [Fin.ofNat]
    simp only [encodeBE, List.foldl_append, List.foldl_cons, List.foldl_nil, ih _ hdiv, hb]
    omega

theorem HoldsAt.append_left {message : List Byte} {offset : Nat} {a b : List Byte}
    (h : HoldsAt message offset (a ++ b)) : HoldsAt message offset a := by
  obtain ⟨h1, h2⟩ := h
  rw [List.length_append] at h1 h2
  refine ⟨by omega, ?_⟩
  have h3 := congrArg (List.take a.length) h2
  rw [List.take_take, List.take_left' rfl, Nat.min_eq_left (Nat.le_add_right _ _)] at h3
  exact h3

theorem HoldsAt.append_right {message : List Byte} {offset : Nat} {a b : List Byte}
    (h : HoldsAt message offset (a ++ b)) : HoldsAt message (offset + a.length) b := by
  obtain ⟨h1, h2⟩ := h
  rw [List.length_append] at h1 h2
  refine ⟨by omega, ?_⟩
  have h3 := congrArg (List.drop a.length) h2
  rw [List.drop_take, List.drop_left' rfl, List.drop_drop, Nat.add_sub_cancel_left] at h3
  exact h3

theorem GetNumber_holdsAt (message : List Byte) (offset len v : Nat)
    (h : HoldsAt message offset (encodeBE len v)) (hv : v < 256 ^ len) :
    GetNumber message offset len = some v := by
  obtain ⟨h1, h2⟩ := h
  rw [encodeBE_length] at h1 h2
  rw [GetNumber_of_le message offset len h1, h2, foldl_encodeBE len v hv]

theorem encodePeer_length (p : Peer) : (encodePeer p).length = 20 := by
  simp [encodePeer, encodeBE_length, IP_SIZE, PORT_SIZE]

theorem readPeer_holdsAt (message : List Byte) (offset : Nat) (p : Peer)
    (h : HoldsAt message offset (encodePeer p)) (hp : p.Representable) :
    readPeer message offset = some p := by
  have h1 := GetNumber_holdsAt message offset IP_SIZE p.m_ipAddress h.append_left
    (by have := hp.1; simpa [IP_SIZE] using this)
  have h2 := GetNumber_holdsAt message (offset + IP_SIZE) PORT_SIZE p.m_listenPortHost
    (by have := h.append_right; rwa [encodeBE_length] at this)
    (by have := hp.2; simpa [PORT_SIZE] using this)
  simp [readPeer, h1, h2]

theorem flatMap_encodePeer_length (l : List Peer) :
    (l.flatMap encodePeer).length = 20 * l.length := by
  induction l with
  | nil => simp
  | cons p rest ih => simp [List.flatMap_cons, encodePeer_length, ih]; omega

theorem encodePeerList_length (l : List Peer) :
    (encodePeerList l).length = 4 + 20 * l.length := by
  rw [encodePeerList, List.length_append, encodeBE_length, flatMap_encodePeer_length]

theorem readPeers_holdsAt (message : List Byte) :
    ∀ (l : List Peer) (offset : Nat) (acc : List Peer),
      HoldsAt message offset (l.flatMap encodePeer) → (∀ p ∈ l, p.Representable) →
      offset + 20 * l.length < UINT_MOD →
      readPeers message l.length offset acc = some (acc ++ l, offset + 20 * l.length) := by
  intro l
  induction l with
  | nil => intro offset acc _ _ _; simp [readPeers]
  | cons p rest ih =>
    intro offset acc h hrep hfit
    rw [List.flatMap_cons] at h
    have hp := readPeer_holdsAt message offset p h.append_left (hrep p (List.mem_cons_self _ _))
    have hr := h.append_right
    rw [encodePeer_length] at hr
    have hlen : (p :: rest).length = rest.length + 1 := rfl
    rw [hlen] at hfit ⊢
    have hmod : (offset + (IP_SIZE + PORT_SIZE)) % UINT_MOD = offset + 20 :=
      Nat.mod_eq_of_lt (by simp only [IP_SIZE, PORT_SIZE]; omega)
    simp only [readPeers, hp, hmod]
    rw [ih (offset + 20) (acc ++ [p]) hr
      (fun q hq => hrep q (List.mem_cons_of_mem _ hq)) (by omega)]
    simp
    omega

theorem readPeersSelf_holdsAt (message : List Byte) (selfPeer : Peer) :
    ∀ (l : List Peer) (offset : Nat) (acc : List Peer) (flag : Bool),
      HoldsAt message offset (l.flatMap encodePeer) → (∀ p ∈ l, p.Representable) →
      offset + 20 * l.length < UINT_MOD →
      readPeersSelf message selfPeer l.length offset acc flag
        = some (acc ++ l, offset + 20 * l.length, flag || decide (selfPeer ∈ l)) := by
  intro l
  induction l with
  | nil => intro offset acc flag _ _ _; simp [readPeersSelf]
  | cons p rest ih =>
    intro offset acc flag h hrep hfit
    rw [List.flatMap_cons] at h
    have hp := readPeer_holdsAt message offset p h.append_left (hrep p (List.mem_cons_self _ _))
    have hr := h.append_right
    rw [encodePeer_length] at hr
    have hlen : (p :: rest).length = rest.length + 1 := rfl
    rw [hlen] at hfit ⊢
    have hmod : (offset + (IP_SIZE + PORT_SIZE)) % UINT_MOD = offset + 20 :=
      Nat.mod_eq_of_lt (by simp only [IP_SIZE, PORT_SIZE]; omega)
    simp only [readPeersSelf, hp, hmod]
    rw [ih (offset + 20) (acc ++ [p]) _ hr
      (fun q hq => hrep q (List.mem_cons_of_mem _ hq)) (by omega)]
    have hflag : ((if p = selfPeer then true else flag) || decide (selfPeer ∈ rest))
        = (flag || decide (selfPeer ∈ p :: rest)) := by
      by_cases hps : p = selfPeer
      · subst hps; simp
      · have hsp : ¬ selfPeer = p := fun h => hps h.symm
        simp [hps, hsp]
    rw [hflag]
    simp
    omega

/-- Reading a peer list in its documented layout: the count and the peers. -/
theorem peerList_holdsAt (message : List Byte) (offset : Nat) (l : List Peer)
    (h : HoldsAt message offset (encodePeerList l)) (hrep : PeersRepresentable l)
    (hfit : offset + (4 + 20 * l.length) < UINT_MOD) :
    GetNumber message offset 4 = some l.length ∧
    (offset + 4) % UINT_MOD = offset + 4 ∧
    HoldsAt message (offset + 4) (l.flatMap encodePeer) := by
  have h1 := GetNumber_holdsAt message offset 4 l.length h.append_left
    (by have := hrep.1; norm_num at this ⊢; exact this)
  have h2 := h.append_right
  rw [encodeBE_length] at h2
  exact ⟨h1, Nat.mod_eq_of_lt (by omega), h2⟩

theorem selfInShard_own (selfPeer : Peer) (pick : List Peer × List Peer → List Peer)
    (shard_id : Nat) (sh : List Peer × List Peer) (rest : List (List Peer × List Peer)) :
    selfInShard selfPeer pick shard_id (sh :: rest) shard_id = decide (selfPeer ∈ pick sh) ∧
    selfInShard selfPeer pick shard_id rest (shard_id + 1) = false := by
  simp [selfInShard]

theorem selfInShard_other (selfPeer : Peer) (pick : List Peer × List Peer → List Peer)
    (shard_id first : Nat) (sh : List Peer × List Peer) (rest : List (List Peer × List Peer))
    (h : first ≠ shard_id) :
    selfInShard selfPeer pick shard_id (sh :: rest) first
      = selfInShard selfPeer pick shard_id rest (first + 1) := by
  unfold selfInShard
  rcases Nat.lt_or_ge first shard_id with hlt | hge
  · have h1 : shard_id - first = (shard_id - (first + 1)) + 1 := by omega
    have d1 : decide (first ≤ shard_id) = true := by simp; omega
    have d2 : decide (first + 1 ≤ shard_id) = true := by simp; omega
    rw [h1, d1, d2]
    simp
  · have d1 : decide (first ≤ shard_id) = false := by simp; omega
    have d2 : decide (first + 1 ≤ shard_id) = false := by simp; omega
    rw [d1, d2]
    simp

theorem encodeShard_length (sh : List Peer × List Peer) :
    (encodeShard sh).length = (4 + 20 * sh.1.length) + (4 + 20 * sh.2.length) := by
  rw [encodeShard, List.length_append, encodePeerList_length, encodePeerList_length]

/-- The loop over the shards decodes the documented layout of the shards. -/
theorem loadShards_holdsAt (message : List Byte) (shard_id : Nat) (selfPeer : Peer) :
    ∀ (shards : List (List Peer × List Peer)) (i : Nat) (st : SharingInfo),
      HoldsAt message st.cur_offset (shards.flatMap encodeShard) →
      (∀ sh ∈ shards, PeersRepresentable sh.1 ∧ PeersRepresentable sh.2) →
      st.cur_offset + (shards.flatMap encodeShard).length < UINT_MOD →
      loadShards message shard_id selfPeer shards.length i st
        = some { cur_offset := st.cur_offset + (shards.flatMap encodeShard).length
                 i_am_sender :=
                   st.i_am_sender || selfInShard selfPeer Prod.snd shard_id shards i
                 i_am_forwarder :=
                   st.i_am_forwarder || selfInShard selfPeer Prod.fst shard_id shards i
                 nodes := st.nodes ++ shards.flatMap (fun sh => [sh.1, sh.2]) } := by
  intro shards
  induction shards with
  | nil =>
    intro i st _ _ _
    cases st
    simp [loadShards, selfInShard]
  | cons sh rest ih =>
    intro i st h hrep hfit
    rw [List.flatMap_cons] at h hfit
    rw [List.length_append, encodeShard_length] at hfit
    have hsh := h.append_left
    have hrest := h.append_right
    rw [encodeShard_length] at hrest
    have hshrep := hrep sh (List.mem_cons_self _ _)
    have hr := hsh.append_left
    have hs := hsh.append_right
    rw [encodePeerList_length] at hs
    obtain ⟨hr1, hr2, hr3⟩ := peerList_holdsAt message st.cur_offset sh.1 hr hshrep.1 (by omega)
    obtain ⟨hs1, hs2, hs3⟩ := peerList_holdsAt message (st.cur_offset + (4 + 20 * sh.1.length))
      sh.2 hs hshrep.2 (by omega)
    have e1 : st.cur_offset + 4 + 20 * sh.1.length = st.cur_offset + (4 + 20 * sh.1.length) := by
      omega
    have e2 : st.cur_offset + (4 + 20 * sh.1.length) + 4 + 20 * sh.2.length
        = st.cur_offset + ((4 + 20 * sh.1.length) + (4 + 20 * sh.2.length)) := by omega
    have hlen : (sh :: rest).length = rest.length + 1 := rfl
    have hfinal : st.cur_offset + ((4 + 20 * sh.1.length) + (4 + 20 * sh.2.length))
          + (rest.flatMap encodeShard).length
        = st.cur_offset + ((sh :: rest).flatMap encodeShard).length := by
      rw [List.flatMap_cons, List.length_append, encodeShard_length]; omega
    rw [hlen]
    by_cases hi : i = shard_id
    · subst hi
      have hrd := readPeersSelf_holdsAt message selfPeer sh.1 (st.cur_offset + 4) []
        st.i_am_forwarder hr3 hshrep.1.2 (by omega)
      have hsd := readPeersSelf_holdsAt message selfPeer sh.2
        (st.cur_offset + (4 + 20 * sh.1.length) + 4) [] st.i_am_sender hs3 hshrep.2.2 (by omega)
      rw [e1] at hrd
      rw [e2] at hsd
      have hih := ih (i + 1)
        { cur_offset := st.cur_offset + ((4 + 20 * sh.1.length) + (4 + 20 * sh.2.length))
          i_am_sender := st.i_am_sender || decide (selfPeer ∈ sh.2)
          i_am_forwarder := st.i_am_forwarder || decide (selfPeer ∈ sh.1)
          nodes := st.nodes ++ [sh.1] ++ [sh.2] } hrest
        (fun x hx => hrep x (List.mem_cons_of_mem _ hx)) (by simp only; omega)
      obtain ⟨ho1, ho2⟩ := selfInShard_own selfPeer Prod.fst i sh rest
      obtain ⟨ho3, ho4⟩ := selfInShard_own selfPeer Prod.snd i sh rest
      rw [loadShards]
      simp only [if_true, hr1, hr2, hrd, hs1, hs2, hsd, List.nil_append]
      rw [hih]
      simp only [ho1, ho2, ho3, ho4, Bool.or_false, hfinal, flatMap_nodes_cons,
        List.append_assoc, List.singleton_append, List.cons_append, List.nil_append]
    · have hrd := readPeers_holdsAt message sh.1 (st.cur_offset + 4) [] hr3 hshrep.1.2 (by omega)
      have hsd := readPeers_holdsAt message sh.2
        (st.cur_offset + (4 + 20 * sh.1.length) + 4) [] hs3 hshrep.2.2 (by omega)
      rw [e1] at hrd
      rw [e2] at hsd
      have hih := ih (i + 1)
        { st with
          cur_offset := st.cur_offset + ((4 + 20 * sh.1.length) + (4 + 20 * sh.2.length))
          nodes := st.nodes ++ [sh.1] ++ [sh.2] } hrest
        (fun x hx => hrep x (List.mem_cons_of_mem _ hx)) (by simp only; omega)
      rw [loadShards]
      simp only [hi, if_false, hr1, hr2, hrd, hs1, hs2, hsd, List.nil_append]
      rw [hih]
      simp only [selfInShard_other selfPeer Prod.fst shard_id i sh rest hi,
        selfInShard_other selfPeer Prod.snd shard_id i sh rest hi, hfinal, flatMap_nodes_cons,
        List.append_assoc, List.singleton_append, List.cons_append, List.nil_append]

/-- LoadTxnSharingInfo on a message that holds the documented layout of a
sharing setup at the offset. -/
theorem LoadTxnSharingInfo_decode (n : Node) (message : List Byte) (shard_id : Nat)
    (s : SharingSetup) (st : SharingInfo)
    (hrep : s.Representable)
    (h : HoldsAt message st.cur_offset (encodeSharingSetup s))
    (hfit : st.cur_offset + (encodeSharingSetup s).length < UINT_MOD) :
    LoadTxnSharingInfo n message shard_id st
      = some { cur_offset := st.cur_offset + (encodeSharingSetup s).length
               i_am_sender :=
                 st.i_am_sender || selfInShard n.m_selfPeer Prod.snd shard_id s.shards 0
               i_am_forwarder :=
                 st.i_am_forwarder || selfInShard n.m_selfPeer Prod.fst shard_id s.shards 0
               nodes := st.nodes ++ s.nodes } := by
  have hlenS : (encodeSharingSetup s).length
      = (4 + 20 * s.dsForwarders.length) + (4 + (s.shards.flatMap encodeShard).length) := by
    rw [encodeSharingSetup, List.length_append, List.length_append, encodePeerList_length,
      encodeBE_length]
  rw [hlenS] at hfit
  unfold encodeSharingSetup at h
  have hds := h.append_left
  have htail := h.append_right
  rw [encodePeerList_length] at htail
  obtain ⟨hd1, hd2, hd3⟩ := peerList_holdsAt message st.cur_offset s.dsForwarders hds hrep.1
    (by omega)
  have hdr := readPeers_holdsAt message s.dsForwarders (st.cur_offset + 4) [] hd3 hrep.1.2
    (by omega)
  have e1 : st.cur_offset + 4 + 20 * s.dsForwarders.length
      = st.cur_offset + (4 + 20 * s.dsForwarders.length) := by omega
  rw [e1] at hdr
  have hcount := GetNumber_holdsAt message (st.cur_offset + (4 + 20 * s.dsForwarders.length)) 4
    s.shards.length htail.append_left (by have := hrep.2.1; norm_num at this ⊢; exact this)
  have hshards := htail.append_right
  rw [encodeBE_length] at hshards
  have hmod : (st.cur_offset + (4 + 20 * s.dsForwarders.length) + 4) % UINT_MOD
      = st.cur_offset + (4 + 20 * s.dsForwarders.length) + 4 := Nat.mod_eq_of_lt (by omega)
  have hl := loadShards_holdsAt message shard_id n.m_selfPeer s.shards 0
    { st with
      cur_offset := st.cur_offset + (4 + 20 * s.dsForwarders.length) + 4
      nodes := st.nodes ++ [s.dsForwarders] } hshards hrep.2.2 (by simp only; omega)
  unfold LoadTxnSharingInfo
  simp only [hd1, hd2, hdr, hcount, hmod, List.nil_append]
  rw [hl]
  have hoff : st.cur_offset + (4 + 20 * s.dsForwarders.length) + 4
        + (s.shards.flatMap encodeShard).length
      = st.cur_offset + (encodeSharingSetup s).length := by
    rw [hlenS]; omega
  simp only [hoff, SharingSetup.nodes, List.append_assoc, List.singleton_append]

theorem selfInShard_zero (selfPeer : Peer) (pick : List Peer × List Peer → List Peer)
    (shard_id : Nat) (shards : List (List Peer × List Peer)) :
    selfInShard selfPeer pick shard_id shards 0 = true ↔
      ∃ sh, shards.get? shard_id = some sh ∧ selfPeer ∈ pick sh := by
  unfold selfInShard
  rw [Nat.sub_zero]
  cases shards.get? shard_id with
  | none => simp
  | some sh => simp

/-- C11: when a message holds, at an offset, the bytes that encode a sharing
setup in the documented layout (every count below 2 ^ 32, every peer
representable in 16 + 4 bytes, the end of the encoding within the 32-bit
offset range), LoadTxnSharingInfo started with an empty node list returns, the
node list is the DS list followed by the receiver list and the sender list of
every shard in order, each list equal to the original, and the offset has
advanced by exactly the encoded length. -/
theorem LoadTxnSharingInfo_round_trip (n : Node) (message : List Byte) (shard_id : Nat)
    (s : SharingSetup) (offset : Nat) (i_am_sender i_am_forwarder : Bool)
    (hrep : s.Representable)
    (h : HoldsAt message offset (encodeSharingSetup s))
    (hfit : offset + (encodeSharingSetup s).length < UINT_MOD) :
    ∃ info : SharingInfo,
      LoadTxnSharingInfo n message shard_id
        { cur_offset := offset, i_am_sender := i_am_sender, i_am_forwarder := i_am_forwarder,
          nodes := [] } = some info ∧
      info.nodes = s.dsForwarders :: s.shards.flatMap (fun sh => [sh.1, sh.2]) ∧
      info.cur_offset = offset + (encodeSharingSetup s).length := by
  refine ⟨_, LoadTxnSharingInfo_decode n message shard_id s
    { cur_offset := offset, i_am_sender := i_am_sender, i_am_forwarder := i_am_forwarder,
      nodes := [] } hrep h hfit, ?_, rfl⟩
  simp [SharingSetup.nodes]

set_option maxRecDepth 20000 in
/-- C11, worked example: the sample final-block message holds the encoding of
the sample setup at offset 70; decoding it gives the node list of the setup and
the offset 70 plus the 192 encoded bytes. -/
theorem LoadTxnSharingInfo_round_trip_witness :
    (sampleSetup.Representable ∧
     HoldsAt sampleSetupMsg 70 (encodeSharingSetup sampleSetup) ∧
     70 + (encodeSharingSetup sampleSetup).length < UINT_MOD) ∧
    ∃ info : SharingInfo,
      LoadTxnSharingInfo sampleNodeWaitingTxn sampleSetupMsg 1
        { cur_offset := 70, i_am_sender := false, i_am_forwarder := false, nodes := [] }
        = some info ∧
      info.nodes
        = sampleSetup.dsForwarders :: sampleSetup.shards.flatMap (fun sh => [sh.1, sh.2]) ∧
      info.cur_offset = 70 + (encodeSharingSetup sampleSetup).length :=
  ⟨⟨by decide, by decide, by decide⟩,
   LoadTxnSharingInfo_round_trip sampleNodeWaitingTxn sampleSetupMsg 1 sampleSetup 70 false false
     (by decide) (by decide) (by decide)⟩

/-- C12: for a message that holds the encoding of a sharing setup at the offset
(as in C11) and both flags false on entry, LoadTxnSharingInfo returns with
i_am_forwarder true exactly when the own address occurs in the receiver list of
the shard whose index is shard_id, and with i_am_sender true exactly when it
occurs in the sender list of that shard; the DS list and the lists of other
shards set neither flag, and both flags stay false when shard_id is not below
the shard count. -/
theorem LoadTxnSharingInfo_flags (n : Node) (message : List Byte) (shard_id : Nat)
    (s : SharingSetup) (offset : Nat)
    (hrep : s.Representable)
    (h : HoldsAt message offset (encodeSharingSetup s))
    (hfit : offset + (encodeSharingSetup s).length < UINT_MOD) :
    ∃ info : SharingInfo,
      LoadTxnSharingInfo n message shard_id
        { cur_offset := offset, i_am_sender := false, i_am_forwarder := false, nodes := [] }
        = some info ∧
      (info.i_am_forwarder = true ↔
        ∃ sh, s.shards.get? shard_id = some sh ∧ n.m_selfPeer ∈ sh.1) ∧
      (info.i_am_sender = true ↔
        ∃ sh, s.shards.get? shard_id = some sh ∧ n.m_selfPeer ∈ sh.2) ∧
      (s.shards.length ≤ shard_id →
        info.i_am_forwarder = false ∧ info.i_am_sender = false) := by
  have hf := selfInShard_zero n.m_selfPeer Prod.fst shard_id s.shards
  have hs := selfInShard_zero n.m_selfPeer Prod.snd shard_id s.shards
  refine ⟨_, LoadTxnSharingInfo_decode n message shard_id s
    { cur_offset := offset, i_am_sender := false, i_am_forwarder := false, nodes := [] }
    hrep h hfit, ?_, ?_, ?_⟩
  · simpa using hf
  · simpa using hs
  · intro hle
    have hnone : s.shards.get? shard_id = none := List.get?_eq_none.mpr hle
    constructor
    · cases hb : selfInShard n.m_selfPeer Prod.fst shard_id s.shards 0 with
      | false => simp [hb]
      | true =>
        obtain ⟨sh, h1, _⟩ := hf.mp hb
        rw [hnone] at h1
        exact absurd h1 (by simp)
    · cases hb : selfInShard n.m_selfPeer Prod.snd shard_id s.shards 0 with
      | false => simp [hb]
      | true =>
        obtain ⟨sh, h1, _⟩ := hs.mp hb
        rw [hnone] at h1
        exact absurd h1 (by simp)

set_option maxRecDepth 20000 in
/-- C12, worked example: the own address of the sample node is a receiver and a
sender of shard 1 of the sample setup; decoded with shard id 1 both flags are
true. -/
theorem LoadTxnSharingInfo_flags_witness :
    (sampleSetup.Representable ∧
     HoldsAt sampleSetupMsg 70 (encodeSharingSetup sampleSetup) ∧
     70 + (encodeSharingSetup sampleSetup).length < UINT_MOD) ∧
    ∃ info : SharingInfo,
      LoadTxnSharingInfo sampleNodeWaitingTxn sampleSetupMsg 1
        { cur_offset := 70, i_am_sender := false, i_am_forwarder := false, nodes := [] }
        = some info ∧
      info.i_am_forwarder = true ∧ info.i_am_sender = true := by
  refine ⟨⟨by decide, by decide, by decide⟩, ?_⟩
  obtain ⟨info, h1, h2, h3, _⟩ :=
    LoadTxnSharingInfo_flags sampleNodeWaitingTxn sampleSetupMsg 1 sampleSetup 70
      (by decide) (by decide) (by decide)
  exact ⟨info, h1,
    h2.mpr ⟨([emptyNode.m_selfPeer, samplePeer], [emptyNode.m_selfPeer]), rfl, by decide⟩,
    h3.mpr ⟨([emptyNode.m_selfPeer, samplePeer], [emptyNode.m_selfPeer]), rfl, by decide⟩⟩

/-! ### Storing the final block -/

/-- C25: StoreFinalBlock appends the block to the chain and sets the epoch
counter to the new block count (as a 64-bit number).  Afterwards the committed
map has no entry for the key (epoch counter - 2) of unsigned 64-bit arithmetic,
which is the epoch counter minus two when the counter is at least 2 and wraps
to 2 ^ 64 - 2 + counter below that; every other entry of the committed map, and
the submitted and received pools, are as before. -/
theorem StoreFinalBlock_prunes_one_entry (n : Node) (txBlock : TxBlock) :
    (StoreFinalBlock n txBlock).m_txBlockChain = n.m_txBlockChain ++ [txBlock] ∧
    (StoreFinalBlock n txBlock).m_currentEpochNum
      = (StoreFinalBlock n txBlock).m_txBlockChain.length % UINT64_MOD ∧
    (StoreFinalBlock n txBlock).m_committedTransactions
        (((StoreFinalBlock n txBlock).m_currentEpochNum + UINT64_MOD - 2) % UINT64_MOD) = none ∧
    (∀ k : BlockNum,
      k ≠ ((StoreFinalBlock n txBlock).m_currentEpochNum + UINT64_MOD - 2) % UINT64_MOD →
      (StoreFinalBlock n txBlock).m_committedTransactions k = n.m_committedTransactions k) ∧
    (StoreFinalBlock n txBlock).m_submittedTransactions = n.m_submittedTransactions ∧
    (StoreFinalBlock n txBlock).m_receivedTransactions = n.m_receivedTransactions ∧
    (2 ≤ (StoreFinalBlock n txBlock).m_currentEpochNum →
      ((StoreFinalBlock n txBlock).m_currentEpochNum + UINT64_MOD - 2) % UINT64_MOD
        = (StoreFinalBlock n txBlock).m_currentEpochNum - 2) ∧
    ((StoreFinalBlock n txBlock).m_currentEpochNum < 2 →
      ((StoreFinalBlock n txBlock).m_currentEpochNum + UINT64_MOD - 2) % UINT64_MOD
        = UINT64_MOD - 2 + (StoreFinalBlock n txBlock).m_currentEpochNum) := by
  have hlt : (n.m_txBlockChain ++ [txBlock]).length % UINT64_MOD < UINT64_MOD :=
    Nat.mod_lt _ (by decide)
  refine ⟨rfl, rfl, ?_, ?_, rfl, rfl, ?_, ?_⟩
  · simp [StoreFinalBlock, StdMap.erase]
  · intro k hk
    simp only [StoreFinalBlock] at hk ⊢
    exact StdMap.erase_other _ _ _ hk
  · intro h2
    simp only [StoreFinalBlock] at h2 ⊢
    generalize (n.m_txBlockChain ++ [txBlock]).length % UINT64_MOD = e at hlt h2 ⊢
    have h64 : UINT64_MOD = 18446744073709551616 := by decide
    rw [h64] at hlt ⊢
    omega
  · intro h2
    simp only [StoreFinalBlock] at h2 ⊢
    generalize (n.m_txBlockChain ++ [txBlock]).length % UINT64_MOD = e at hlt h2 ⊢
    have h64 : UINT64_MOD = 18446744073709551616 := by decide
    rw [h64] at hlt ⊢
    omega

/-! ### Round state -/

theorem UpdateStateForNextConsensusRound_fields (n : Node) :
    (UpdateStateForNextConsensusRound n).m_consensusID = (n.m_consensusID + 1) % UINT_MOD ∧
    (UpdateStateForNextConsensusRound n).m_consensusLeaderID
      = (n.m_consensusLeaderID + 1) % UINT_MOD ∧
    (UpdateStateForNextConsensusRound n).m_state = NodeState.TX_SUBMISSION ∧
    ((UpdateStateForNextConsensusRound n).m_isPrimary = true ↔
      n.m_consensusMyID = (n.m_consensusLeaderID + 1) % UINT_MOD) ∧
    (UpdateStateForNextConsensusRound n).m_consensusMyID = n.m_consensusMyID := by
  unfold UpdateStateForNextConsensusRound
  by_cases hp : n.m_isPrimary = true <;>
    by_cases hl : n.m_consensusMyID = (n.m_consensusLeaderID + 1) % UINT_MOD <;>
      simp [hp, hl]

/-- C23: UpdateStateForNextConsensusRound adds one to the consensus id and to
the leader id (32-bit unsigned, so exactly one more whenever the id is below
2 ^ 32 - 1), sets the round state to TX_SUBMISSION, and leaves the primary flag
set if and only if the own consensus-participant id equals the new leader id,
whatever the flag was before. -/
theorem UpdateStateForNextConsensusRound_rotates (n : Node) :
    (UpdateStateForNextConsensusRound n).m_consensusID = (n.m_consensusID + 1) % UINT_MOD ∧
    (UpdateStateForNextConsensusRound n).m_consensusLeaderID
      = (n.m_consensusLeaderID + 1) % UINT_MOD ∧
    (n.m_consensusID + 1 < UINT_MOD →
      (UpdateStateForNextConsensusRound n).m_consensusID = n.m_consensusID + 1) ∧
    (n.m_consensusLeaderID + 1 < UINT_MOD →
      (UpdateStateForNextConsensusRound n).m_consensusLeaderID = n.m_consensusLeaderID + 1) ∧
    (UpdateStateForNextConsensusRound n).m_state = NodeState.TX_SUBMISSION ∧
    ((UpdateStateForNextConsensusRound n).m_isPrimary = true ↔
      (UpdateStateForNextConsensusRound n).m_consensusMyID
        = (UpdateStateForNextConsensusRound n).m_consensusLeaderID) := by
  obtain ⟨hid, hleader, hstate, hprim, hmy⟩ := UpdateStateForNextConsensusRound_fields n
  refine ⟨hid, hleader, ?_, ?_, hstate, ?_⟩
  · intro h; rw [hid, Nat.mod_eq_of_lt h]
  · intro h; rw [hleader, Nat.mod_eq_of_lt h]
  · rw [hmy, hleader]; exact hprim

/-- C24, counterexample: the shard of the sample node has two members and the
leader id is 1.  After UpdateStateForNextConsensusRound the leader id is 2,
whereas (1 + 1) mod 2 is 0; the new leader id is not below the committee size,
so it designates no member. -/
theorem UpdateStateForNextConsensusRound_leader_counterexample :
    sampleNodeLastLeader.m_myShardMembersNetworkInfo.length = 2 ∧
    sampleNodeLastLeader.m_consensusLeaderID = 1 ∧
    (UpdateStateForNextConsensusRound sampleNodeLastLeader).m_consensusLeaderID = 2 ∧
    (sampleNodeLastLeader.m_consensusLeaderID + 1)
      % sampleNodeLastLeader.m_myShardMembersNetworkInfo.length = 0 ∧
    ¬ (UpdateStateForNextConsensusRound sampleNodeLastLeader).m_consensusLeaderID
        < sampleNodeLastLeader.m_myShardMembersNetworkInfo.length := by
  decide

/-- C24, amended: the leader id after UpdateStateForNextConsensusRound is the
previous leader id plus one (for a previous id below 2 ^ 32 - 1).  For a
non-empty committee it equals (previous leader id + 1) mod committeeSize, and
designates a member of the committee, exactly when the previous leader id plus
one is still below the committee size; the function itself never wraps the id
to the committee size, the id returns to 0 only in InitiatePoW1. -/
theorem UpdateStateForNextConsensusRound_leader_increment (n : Node)
    (hne : 0 < n.m_myShardMembersNetworkInfo.length)
    (hw : n.m_consensusLeaderID + 1 < UINT_MOD) :
    (UpdateStateForNextConsensusRound n).m_consensusLeaderID = n.m_consensusLeaderID + 1 ∧
    ((UpdateStateForNextConsensusRound n).m_consensusLeaderID
        = (n.m_consensusLeaderID + 1) % n.m_myShardMembersNetworkInfo.length ↔
      n.m_consensusLeaderID + 1 < n.m_myShardMembersNetworkInfo.length) ∧
    ((UpdateStateForNextConsensusRound n).m_consensusLeaderID
        < n.m_myShardMembersNetworkInfo.length ↔
      n.m_consensusLeaderID + 1 < n.m_myShardMembersNetworkInfo.length) ∧
    (InitiatePoW1 n).m_consensusLeaderID = 0 := by
  have hleader : (UpdateStateForNextConsensusRound n).m_consensusLeaderID
      = n.m_consensusLeaderID + 1 := by
    rw [(UpdateStateForNextConsensusRound_fields n).2.1, Nat.mod_eq_of_lt hw]
  refine ⟨hleader, ?_, ?_, rfl⟩
  · rw [hleader]
    constructor
    · intro h
      rw [h]
      exact Nat.mod_lt _ hne
    · intro h
      exact (Nat.mod_eq_of_lt h).symm
  · rw [hleader]

/-- C24, worked example: in the shard of two of the sample node with leader id
0 the new leader id is 1, which is (0 + 1) mod 2 and designates the second
member. -/
theorem UpdateStateForNextConsensusRound_leader_increment_witness :
    0 < sampleNodeWaiting.m_myShardMembersNetworkInfo.length ∧
    sampleNodeWaiting.m_consensusLeaderID + 1 < UINT_MOD ∧
    (UpdateStateForNextConsensusRound sampleNodeWaiting).m_consensusLeaderID
      = sampleNodeWaiting.m_consensusLeaderID + 1 :=
  ⟨by decide, by decide,
   (UpdateStateForNextConsensusRound_leader_increment sampleNodeWaiting (by decide)
     (by decide)).1⟩

/-! ### Loading the tracker -/

theorem LoadUnavailableMicroBlockTxRootHashes_eq (n : Node) (finalBlock : TxBlock)
    (b : BlockNum) :
    LoadUnavailableMicroBlockTxRootHashes n finalBlock b
      = { n with m_unavailableMicroBlocks :=
                   trackerWith b finalBlock.GetMicroBlockHashes n.m_unavailableMicroBlocks } := by
  unfold LoadUnavailableMicroBlockTxRootHashes trackerWith
  generalize finalBlock.GetMicroBlockHashes = hashes
  induction hashes generalizing n with
  | nil => rfl
  | cons h rest ih =>
    simp only [List.foldl_cons]
    rw [ih]

theorem trackerWith_spec (b : BlockNum) :
    ∀ (hashes : List TxnHash) (m : StdMap BlockNum (Finset TxnHash)),
      outstandingAt (trackerWith b hashes m) b = outstandingAt m b ∪ hashes.toFinset ∧
      (∀ b', b' ≠ b → trackerWith b hashes m b' = m b') := by
  intro hashes
  induction hashes with
  | nil => intro m; simp [trackerWith]
  | cons h rest ih =>
    intro m
    have hstep : trackerWith b (h :: rest) m
        = trackerWith b rest (m.set b (insert h (outstandingAt m b))) := rfl
    obtain ⟨h1, h2⟩ := ih (m.set b (insert h (outstandingAt m b)))
    rw [hstep]
    refine ⟨?_, ?_⟩
    · rw [h1]
      ext x
      simp [outstandingAt]
    · intro b' hb
      rw [h2 b' hb]
      exact StdMap.set_other _ _ _ _ hb

/-- C21: after LoadUnavailableMicroBlockTxRootHashes for block number b the
outstanding set of b is its previous content united with the set of the
micro-block hashes the final block lists, and the tracker entries of all other
block numbers are as before.  The result does not depend on the transaction
root the header declares, and neither it nor the outcome of ProcessFinalBlock
depends on the root recomputed over the hash list: whatever
ComputeTransactionsRoot returns, equal to the declared root or not, the outcome
is the same. -/
theorem LoadUnavailableMicroBlockTxRootHashes_union (ext : Externals) (n : Node)
    (finalBlock : TxBlock) (b : BlockNum) :
    outstandingAt (LoadUnavailableMicroBlockTxRootHashes n finalBlock b).m_unavailableMicroBlocks b
      = outstandingAt n.m_unavailableMicroBlocks b ∪ finalBlock.GetMicroBlockHashes.toFinset ∧
    (∀ b', b' ≠ b →
      (LoadUnavailableMicroBlockTxRootHashes n finalBlock b).m_unavailableMicroBlocks b'
        = n.m_unavailableMicroBlocks b') ∧
    (∀ declared : TxnHash,
      LoadUnavailableMicroBlockTxRootHashes n { finalBlock with txRootHash := declared } b
        = LoadUnavailableMicroBlockTxRootHashes n finalBlock b) ∧
    (∀ (recomputed : List TxnHash → TxnHash) (message : List Byte) (offset : Nat),
      ProcessFinalBlock { ext with ComputeTransactionsRoot := recomputed } n message offset
        = ProcessFinalBlock ext n message offset) := by
  obtain ⟨h1, h2⟩ := trackerWith_spec b finalBlock.GetMicroBlockHashes n.m_unavailableMicroBlocks
  refine ⟨?_, ?_, ?_, ?_⟩
  · rw [LoadUnavailableMicroBlockTxRootHashes_eq]; exact h1
  · intro b' hb
    rw [LoadUnavailableMicroBlockTxRootHashes_eq]; exact h2 b' hb
  · intro declared; rfl
  · intro recomputed message offset; rfl

/-- C21, worked example: the root the sample final block declares differs from
the root recomputed over its hash list; ProcessFinalBlock accepts the block all
the same, and the tracker entry of block 7 is loaded with the listed hash. -/
theorem LoadUnavailableMicroBlockTxRootHashes_union_witness :
    sampleBlock7.txRootHash
      ≠ sampleExt.ComputeTransactionsRoot sampleBlock7.GetMicroBlockHashes ∧
    (ProcessFinalBlock sampleExt sampleNodeWaiting sampleFinalBlockMsg 0).map Prod.fst
      = some true ∧
    outstandingAt
        (LoadUnavailableMicroBlockTxRootHashes emptyNode sampleBlock7 7).m_unavailableMicroBlocks 7
      = outstandingAt emptyNode.m_unavailableMicroBlocks 7
          ∪ sampleBlock7.GetMicroBlockHashes.toFinset :=
  ⟨by decide, by decide,
   (LoadUnavailableMicroBlockTxRootHashes_union sampleExt emptyNode sampleBlock7 7).1⟩

/-! ### Re-arming the round after a final block -/

theorem FindTxnInSubmittedTxnsList_roundView (n : Node) (b : BlockNum) (mode : TxSharingMode)
    (out : List Transaction) (h : TxnHash) :
    roundView (FindTxnInSubmittedTxnsList n b mode out h).2.1 = roundView n := by
  unfold FindTxnInSubmittedTxnsList
  simp only []
  split <;> rfl

theorem FindTxnInReceivedTxnsList_roundView (n : Node) (b : BlockNum) (mode : TxSharingMode)
    (out : List Transaction) (h : TxnHash) :
    roundView (FindTxnInReceivedTxnsList n b mode out h).2.1 = roundView n := by
  unfold FindTxnInReceivedTxnsList
  simp only []
  split <;> rfl

theorem commitLoop_roundView (b : BlockNum) (mode : TxSharingMode) :
    ∀ (hashes : List TxnHash) (n : Node) (out : List Transaction),
      roundView (commitLoop b mode hashes n out).1 = roundView n := by
  intro hashes
  induction hashes with
  | nil => intro n out; rfl
  | cons h rest ih =>
    intro n out
    unfold commitLoop
    simp only []
    split
    · rw [ih, FindTxnInSubmittedTxnsList_roundView]
    · rw [ih, FindTxnInReceivedTxnsList_roundView, FindTxnInSubmittedTxnsList_roundView]

theorem CommitMyShardsMicroBlock_roundView (n n2 : Node) (b : BlockNum) (mode : TxSharingMode)
    (out0 out : List Transaction) (h : CommitMyShardsMicroBlock n b mode out0 = some (n2, out)) :
    roundView n2 = roundView n := by
  cases hmb : n.m_microblock with
  | none => simp [CommitMyShardsMicroBlock, hmb] at h
  | some mb =>
    rw [CommitMyShardsMicroBlock_eq n mb b mode out0 hmb] at h
    simp only [Option.some.injEq, Prod.mk.injEq] at h
    rw [← h.1, ← commitLoop_roundView b mode mb.GetTranHashes n out0]
    rfl

theorem reconcileAndSend_roundView (ext : Externals) (n n' : Node) (b : BlockNum)
    (mode : TxSharingMode) (sa : List Peer) (h : reconcileAndSend ext n b mode sa = some n') :
    roundView n' = roundView n := by
  unfold reconcileAndSend at h
  have hI : roundView (IsMyShardsMicroBlockTxRootHashInFinalBlock n b).2 = roundView n := by
    unfold IsMyShardsMicroBlockTxRootHashInFinalBlock
    split <;> rfl
  simp only [] at h
  split at h
  · split at h
    · rename_i n2 out mb hc hm
      have h2 := CommitMyShardsMicroBlock_roundView _ _ _ _ _ _ hc
      split at h
      · simp only [Option.some.injEq] at h
        rw [← h, ← hI, ← h2]
        unfold BroadcastTransactionsToSendingAssignment
        split <;> rfl
      · simp only [Option.some.injEq] at h
        rw [← h, h2, hI]
    · exact absurd h (by simp)
  · simp only [Option.some.injEq] at h
    rw [← h, hI]

theorem ActOnFinalBlock_roundView (ext : Externals) (n : Node) (mode : TxSharingMode)
    (nodes : List Peer) (r : Bool × Node) (h : ActOnFinalBlock ext n mode nodes = some r) :
    roundView r.2 = roundView n := by
  unfold ActOnFinalBlock at h
  split at h
  · exact absurd h (by simp)
  · simp only [Option.map_eq_some'] at h
    obtain ⟨n2, hr, hn2⟩ := h
    rw [← hn2]
    rw [reconcileAndSend_roundView ext _ n2 _ _ _ hr]
    cases mode <;> rfl

theorem ActOnFinalBlock3_roundView (ext : Externals) (n : Node) (mode : TxSharingMode)
    (sa fellows : List Peer) (r : Bool × Node)
    (h : ActOnFinalBlock3 ext n mode sa fellows = some r) : roundView r.2 = roundView n := by
  unfold ActOnFinalBlock3 at h
  split at h
  · split at h
    · exact absurd h (by simp)
    · simp only [Option.map_eq_some'] at h
      obtain ⟨n2, hr, hn2⟩ := h
      rw [← hn2]
      rw [reconcileAndSend_roundView ext _ n2 _ _ _ hr]
      rfl
  · simp only [Option.some.injEq] at h
    rw [← h]

theorem CallActOnFinalBlockBasedOnSenderForwarderAssgn_roundView (ext : Externals) (n n' : Node)
    (i_am_sender i_am_forwarder : Bool) (nodes : List (List Peer)) (shard_id : Nat)
    (h : CallActOnFinalBlockBasedOnSenderForwarderAssgn ext n i_am_sender i_am_forwarder nodes
      shard_id = some n') : roundView n' = roundView n := by
  unfold CallActOnFinalBlockBasedOnSenderForwarderAssgn at h
  split at h
  · split at h
    · exact absurd h (by simp)
    · simp only [Option.map_eq_some'] at h
      obtain ⟨r, hr, hn⟩ := h
      rw [← hn]; exact ActOnFinalBlock_roundView ext n _ _ r hr
  · split at h
    · split at h
      · exact absurd h (by simp)
      · simp only [Option.map_eq_some'] at h
        obtain ⟨r, hr, hn⟩ := h
        rw [← hn]; exact ActOnFinalBlock_roundView ext n _ _ r hr
    · split at h
      · split at h
        · exact absurd h (by simp)
        · split at h
          · exact absurd h (by simp)
          · simp only [Option.map_eq_some'] at h
            obtain ⟨r, hr, hn⟩ := h
            rw [← hn]; exact ActOnFinalBlock3_roundView ext n _ _ _ r hr
      · simp only [Option.map_eq_some'] at h
        obtain ⟨r, hr, hn⟩ := h
        rw [← hn]; exact ActOnFinalBlock_roundView ext n _ _ r hr

/-- The node on which ProcessFinalBlock decodes the sharing setup, seen by the
round logic. -/
theorem nodeAfterStore_roundView (ext : Externals) (n : Node) (message : List Byte)
    (cur_offset : Nat) :
    roundView (nodeAfterStore ext n message cur_offset)
      = (if ((n.m_txBlockChain.length + 1) % UINT64_MOD) % ext.NUM_FINAL_BLOCK_PER_POW = 0 then
           (0, 0, NodeState.POW1_SUBMISSION, (n.m_txBlockChain.length + 1) % UINT64_MOD,
            n.detachedTasks ++ [DetachedTask.StartPoW1])
         else
           (n.m_consensusID, n.m_consensusLeaderID, n.m_state,
            (n.m_txBlockChain.length + 1) % UINT64_MOD,
            n.detachedTasks ++ [DetachedTask.BeginNextConsensusRound])) := by
  unfold nodeAfterStore
  simp only [LoadUnavailableMicroBlockTxRootHashes_eq, StoreFinalBlock, List.length_append,
    List.length_singleton]
  split <;> rfl

/-- The round logic sees the node after a successful ProcessFinalBlock as it
sees the node on which the sharing setup is decoded. -/
theorem ProcessFinalBlock_roundView (ext : Externals) (n n' : Node) (message : List Byte)
    (offset : Nat) (h : ProcessFinalBlock ext n message offset = some (true, n')) :
    roundView n'
      = (if ((n.m_txBlockChain.length + 1) % UINT64_MOD) % ext.NUM_FINAL_BLOCK_PER_POW = 0 then
           (0, 0, NodeState.POW1_SUBMISSION, (n.m_txBlockChain.length + 1) % UINT64_MOD,
            n.detachedTasks ++ [DetachedTask.StartPoW1])
         else
           (n.m_consensusID, n.m_consensusLeaderID, n.m_state,
            (n.m_txBlockChain.length + 1) % UINT64_MOD,
            n.detachedTasks ++ [DetachedTask.BeginNextConsensusRound])) := by
  by_cases hstate : n.m_state = NodeState.MICROBLOCK_CONSENSUS
  · simp [ProcessFinalBlock, hstate] at h
  · cases hgate : ext.CheckStateProcessFinalBlock n.m_state with
    | false => simp [ProcessFinalBlock, hstate, hgate] at h
    | true =>
      cases haux : ReadAuxilliaryInfoFromFinalBlockMsg ext n message offset 255 with
      | none => simp [ProcessFinalBlock, hstate, hgate, haux] at h
      | some r =>
        obtain ⟨ok, cur_offset, shard_id⟩ := r
        cases ok with
        | false => simp [ProcessFinalBlock, hstate, hgate, haux] at h
        | true =>
          rw [ProcessFinalBlock_after_checks ext n message offset cur_offset shard_id hstate
            hgate haux] at h
          simp only [Option.bind_eq_some, Option.map_eq_some', Prod.mk.injEq, true_and] at h
          obtain ⟨info, _, n4, hcall, hn4⟩ := h
          rw [← hn4, CallActOnFinalBlockBasedOnSenderForwarderAssgn_roundView ext _ n4 _ _ _ _
            hcall]
          exact nodeAfterStore_roundView ext n message cur_offset

/-- C22: when ProcessFinalBlock has stored a final block (it returned true), the
epoch counter is the new block count.  If that number is a multiple of
NUM_FINAL_BLOCK_PER_POW, the consensus id is 0, the leader id is 0, the round
state is POW1_SUBMISSION and the proof of work was handed to a detached thread.
If it is not a multiple, the consensus id, the leader id and the round state
are those before the call: InitiatePoW1 was not run, and the only task handed
to a detached thread is BeginNextConsensusRound. -/
theorem ProcessFinalBlock_rearms_round (ext : Externals) (n n' : Node) (message : List Byte)
    (offset : Nat) (h : ProcessFinalBlock ext n message offset = some (true, n')) :
    n'.m_currentEpochNum = (n.m_txBlockChain.length + 1) % UINT64_MOD ∧
    (n'.m_currentEpochNum % ext.NUM_FINAL_BLOCK_PER_POW = 0 →
      n'.m_consensusID = 0 ∧ n'.m_consensusLeaderID = 0 ∧
      n'.m_state = NodeState.POW1_SUBMISSION ∧
      n'.detachedTasks = n.detachedTasks ++ [DetachedTask.StartPoW1]) ∧
    (n'.m_currentEpochNum % ext.NUM_FINAL_BLOCK_PER_POW ≠ 0 →
      n'.m_consensusID = n.m_consensusID ∧ n'.m_consensusLeaderID = n.m_consensusLeaderID ∧
      n'.m_state = n.m_state ∧
      n'.detachedTasks = n.detachedTasks ++ [DetachedTask.BeginNextConsensusRound]) := by
  have hv := ProcessFinalBlock_roundView ext n n' message offset h
  unfold roundView at hv
  by_cases hm : ((n.m_txBlockChain.length + 1) % UINT64_MOD) % ext.NUM_FINAL_BLOCK_PER_POW = 0
  · simp only [hm, if_true, Prod.mk.injEq] at hv
    obtain ⟨h1, h2, h3, h4, h5⟩ := hv
    refine ⟨h4, fun _ => ⟨h1, h2, h3, h5⟩, ?_⟩
    intro hne
    rw [h4] at hne
    exact absurd hm hne
  · simp only [hm, if_false, Prod.mk.injEq] at hv
    obtain ⟨h1, h2, h3, h4, h5⟩ := hv
    refine ⟨h4, ?_, fun _ => ⟨h1, h2, h3, h5⟩⟩
    intro he
    rw [h4] at he
    exact absurd he hm

/-- C22, worked example: with a proof of work after every final block, the
sample node whose leader id is 1 accepts the final block 7; the new epoch
number 1 is a multiple of the interval, and afterwards the consensus id and the
leader id are 0 and the round state is POW1_SUBMISSION. -/
theorem ProcessFinalBlock_rearms_round_witness :
    (ProcessFinalBlock sampleExtEveryBlock sampleNodeLastLeader sampleFinalBlockMsg 0).map
        Prod.fst = some true ∧
    sampleNodeLastLeader.m_consensusLeaderID = 1 ∧
    ((ProcessFinalBlock sampleExtEveryBlock sampleNodeLastLeader sampleFinalBlockMsg 0).getD
        (false, sampleNodeLastLeader)).2.m_consensusID = 0 ∧
    ((ProcessFinalBlock sampleExtEveryBlock sampleNodeLastLeader sampleFinalBlockMsg 0).getD
        (false, sampleNodeLastLeader)).2.m_consensusLeaderID = 0 ∧
    ((ProcessFinalBlock sampleExtEveryBlock sampleNodeLastLeader sampleFinalBlockMsg 0).getD
        (false, sampleNodeLastLeader)).2.m_state = NodeState.POW1_SUBMISSION :=
  have h := (ProcessFinalBlock_rearms_round sampleExtEveryBlock sampleNodeLastLeader
    ((ProcessFinalBlock sampleExtEveryBlock sampleNodeLastLeader sampleFinalBlockMsg 0).getD
        (false, sampleNodeLastLeader)).2 sampleFinalBlockMsg 0 rfl).2.1 (by decide)
  ⟨by decide, rfl, h.1, h.2.1, h.2.2.1⟩

/-! ### The own receiver list -/

set_option maxRecDepth 20000 in
/-- C27, evaluation at the failing input: the setup has two shards and the shard
id is 1.  LoadTxnSharingInfo decodes the node list of the setup and finds the
node among the receivers of shard 1 only.  The receivers decoded for shard 1
are the node itself and samplePeer; they sit at index 3 of the node list, the
index the loops of the same function use for shard 1.  The list at index
shard_id + 1 = 2 is the sender list of shard 0.  ProcessFinalBlock therefore
removes the sender of shard 0 instead of the fellow forwarders from the shard
roster: the forwarding assignment of block 7 keeps samplePeer, a fellow
forwarder, whereas ActOnFinalBlock called with the receivers of shard 1 stores
the sender 31 alone. -/
theorem CallActOnFinalBlockBasedOnSenderForwarderAssgn_own_receivers_index :
    sampleSetupReceiver.shards.length = 2 ∧
    LoadTxnSharingInfo sampleNodeShardOfThree sampleReceiverMsg 1
        { cur_offset := 70, i_am_sender := false, i_am_forwarder := false, nodes := [] }
      = some { cur_offset := 214, i_am_sender := false, i_am_forwarder := true,
               nodes := sampleSetupReceiver.nodes } ∧
    sampleSetupReceiver.shards.get? 1
      = some ([emptyNode.m_selfPeer, samplePeer], [{ m_ipAddress := 31, m_listenPortHost := 1 }]) ∧
    sampleSetupReceiver.nodes.get? (2 * 1 + 1) = some [emptyNode.m_selfPeer, samplePeer] ∧
    sampleSetupReceiver.nodes.get? (1 + 1) = some [{ m_ipAddress := 21, m_listenPortHost := 1 }] ∧
    sampleSetupReceiver.shards.get? 0
      = some ([{ m_ipAddress := 20, m_listenPortHost := 1 }],
              [{ m_ipAddress := 21, m_listenPortHost := 1 }]) ∧
    (ProcessFinalBlock sampleExt sampleNodeShardOfThree sampleReceiverMsg 0).map
        (fun r => (r.1, r.2.m_forwardingAssignment 7))
      = some (true, some [samplePeer, { m_ipAddress := 31, m_listenPortHost := 1 }]) ∧
    (ActOnFinalBlock sampleExt
        (nodeAfterStore sampleExt sampleNodeShardOfThree sampleReceiverMsg 37)
        TxSharingMode.NODE_FORWARD_ONLY [emptyNode.m_selfPeer, samplePeer]).map
        (fun r => (r.1, r.2.m_forwardingAssignment 7))
      = some (true, some [{ m_ipAddress := 31, m_listenPortHost := 1 }]) := by
  refine ⟨by decide, by decide, by decide, by decide, by decide, by decide, by decide, by decide⟩

/-! ### The decoding loop of forwarded transactions -/

/-- The decoding loop in closed form: with enough iterations allowed it reads
the transactions at cur, cur + T, cur + 2 T, ... as long as a whole transaction
fits into the message. -/
theorem loadTxnsLoop_reads (ext : Externals) (message : List Byte)
    (hT : 0 < ext.TxnSerializedSize)
    (hlen : message.length + ext.TxnSerializedSize < UINT_MOD) :
    ∀ (fuel cur : Nat) (acc : List Transaction),
      cur ≤ message.length → message.length < fuel + cur →
      loadTxnsLoop ext message fuel cur acc
        = some (acc ++ (List.range ((message.length - cur) / ext.TxnSerializedSize)).map
                  (fun i => ext.readTransaction message (cur + i * ext.TxnSerializedSize))) := by
  intro fuel
  induction fuel with
  | zero =>
    intro cur acc h1 h2
    omega
  | succ fuel ih =>
    intro cur acc h1 h2
    have hmod : (cur + ext.TxnSerializedSize) % UINT_MOD = cur + ext.TxnSerializedSize :=
      Nat.mod_eq_of_lt (by omega)
    unfold loadTxnsLoop
    rw [hmod]
    by_cases hc : cur + ext.TxnSerializedSize ≤ message.length
    · simp only [hc, if_true]
      rw [ih _ _ hc (by omega)]
      have hdiv : (message.length - cur) / ext.TxnSerializedSize
          = (message.length - (cur + ext.TxnSerializedSize)) / ext.TxnSerializedSize + 1 := by
        have h3 : message.length - cur
            = (message.length - (cur + ext.TxnSerializedSize)) + ext.TxnSerializedSize := by
          omega
        rw [h3, Nat.add_div_right _ hT]
      rw [hdiv, List.range_succ_eq_map, List.map_cons, List.map_map, List.append_assoc]
      congr 2
      simp only [Nat.zero_mul, Nat.add_zero, List.singleton_append, List.cons.injEq, true_and]
      apply List.map_congr_left
      intro i _
      simp only [Function.comp, Nat.succ_eq_add_one]
      congr 1
      rw [Nat.add_mul, Nat.one_mul]
      omega
    · simp only [hc, if_false]
      have hzero : (message.length - cur) / ext.TxnSerializedSize = 0 :=
        Nat.div_eq_of_lt (by omega)
      rw [hzero]
      simp

/-- C28: for a message that holds TRAN_HASH_SIZE bytes at the offset, a positive
transaction size T and a message short enough for the 32-bit offsets not to
wrap, LoadForwardedTxnsAndCheckRoot returns: the loop reads exactly
(message length - offset - TRAN_HASH_SIZE) / T transactions, the i-th of them at
offset + TRAN_HASH_SIZE + i T, so a trailing fragment shorter than T is
ignored; the result is true if and only if the root computed over the ids of
these transactions equals the TRAN_HASH_SIZE bytes at the offset. -/
theorem LoadForwardedTxnsAndCheckRoot_reads_whole_txns (ext : Externals) (message : List Byte)
    (cur_offset : Nat)
    (hT : 0 < ext.TxnSerializedSize)
    (hlen : message.length + ext.TxnSerializedSize < UINT_MOD)
    (hcur : cur_offset + TRAN_HASH_SIZE ≤ message.length) :
    ∃ (res : Bool) (txns : List Transaction),
      LoadForwardedTxnsAndCheckRoot ext message cur_offset []
        = some (res, (message.drop cur_offset).take TRAN_HASH_SIZE, txns) ∧
      txns.length = (message.length - cur_offset - TRAN_HASH_SIZE) / ext.TxnSerializedSize ∧
      txns = (List.range ((message.length - cur_offset - TRAN_HASH_SIZE)
                / ext.TxnSerializedSize)).map
               (fun i => ext.readTransaction message
                  (cur_offset + TRAN_HASH_SIZE + i * ext.TxnSerializedSize)) ∧
      (res = true ↔
        ext.ComputeTransactionsRoot (txns.map Transaction.GetTranID)
          = (message.drop cur_offset).take TRAN_HASH_SIZE) := by
  have hlt : cur_offset + TRAN_HASH_SIZE < UINT_MOD := by omega
  have hloop := loadTxnsLoop_reads ext message hT hlen (message.length + 1)
    (cur_offset + TRAN_HASH_SIZE) [] hcur (by omega)
  have hsub : message.length - (cur_offset + TRAN_HASH_SIZE)
      = message.length - cur_offset - TRAN_HASH_SIZE := by omega
  rw [hsub, List.nil_append] at hloop
  refine ⟨decide (ext.ComputeTransactionsRoot
            (((List.range ((message.length - cur_offset - TRAN_HASH_SIZE)
                / ext.TxnSerializedSize)).map
               (fun i => ext.readTransaction message
                  (cur_offset + TRAN_HASH_SIZE + i * ext.TxnSerializedSize))).map
              Transaction.GetTranID)
            = (message.drop cur_offset).take TRAN_HASH_SIZE),
          (List.range ((message.length - cur_offset - TRAN_HASH_SIZE)
                / ext.TxnSerializedSize)).map
               (fun i => ext.readTransaction message
                  (cur_offset + TRAN_HASH_SIZE + i * ext.TxnSerializedSize)),
          ?_, ?_, rfl, ?_⟩
  · unfold LoadForwardedTxnsAndCheckRoot
    rw [if_pos ⟨hlt, hcur⟩]
    simp only [hloop, List.length_nil, List.drop_zero]
  · simp
  · simp

/-- C28, worked example: with transactions of two bytes, a message that holds
the root hash 3 and then five bytes is decoded into two transactions (ids 1 and
2); the fifth byte is ignored and the result is true, the root of the two ids
being 3. -/
theorem LoadForwardedTxnsAndCheckRoot_reads_whole_txns_witness :
    (0 < sampleExtTwoBytes.TxnSerializedSize ∧
     sampleFragmentMsg.length + sampleExtTwoBytes.TxnSerializedSize < UINT_MOD ∧
     0 + TRAN_HASH_SIZE ≤ sampleFragmentMsg.length) ∧
    LoadForwardedTxnsAndCheckRoot sampleExtTwoBytes sampleFragmentMsg 0 []
      = some (true, sampleHash 3, [sampleTxn [1], sampleTxn [2]]) ∧
    ∃ (res : Bool) (txns : List Transaction),
      LoadForwardedTxnsAndCheckRoot sampleExtTwoBytes sampleFragmentMsg 0 []
        = some (res, (sampleFragmentMsg.drop 0).take TRAN_HASH_SIZE, txns) ∧
      txns.length
        = (sampleFragmentMsg.length - 0 - TRAN_HASH_SIZE) / sampleExtTwoBytes.TxnSerializedSize ∧
      txns = (List.range ((sampleFragmentMsg.length - 0 - TRAN_HASH_SIZE)
                / sampleExtTwoBytes.TxnSerializedSize)).map
               (fun i => sampleExtTwoBytes.readTransaction sampleFragmentMsg
                  (0 + TRAN_HASH_SIZE + i * sampleExtTwoBytes.TxnSerializedSize)) ∧
      (res = true ↔
        sampleExtTwoBytes.ComputeTransactionsRoot (txns.map Transaction.GetTranID)
          = (sampleFragmentMsg.drop 0).take TRAN_HASH_SIZE) :=
  ⟨⟨by decide, by decide, by decide⟩, by decide,
   LoadForwardedTxnsAndCheckRoot_reads_whole_txns sampleExtTwoBytes sampleFragmentMsg 0
     (by decide) (by decide) (by decide)⟩

/-! ### Commit and re-broadcast of forwarded transactions -/

theorem CommitForwardedTransactions_committedAt :
    ∀ (txns : List Transaction) (n : Node) (b : BlockNum),
      committedAt (CommitForwardedTransactions n txns b).m_committedTransactions b
        = committedAt n.m_committedTransactions b ++ txns ∧
      (∀ b', b' ≠ b →
        (CommitForwardedTransactions n txns b).m_committedTransactions b'
          = n.m_committedTransactions b') := by
  intro txns
  induction txns with
  | nil => intro n b; simp [CommitForwardedTransactions]
  | cons tx rest ih =>
    intro n b
    have hstep : CommitForwardedTransactions n (tx :: rest) b
        = CommitForwardedTransactions
            { n with m_committedTransactions :=
                       n.m_committedTransactions.set b
                         (committedAt n.m_committedTransactions b ++ [tx]) } rest b := rfl
    obtain ⟨h1, h2⟩ := ih
      { n with m_committedTransactions :=
                 n.m_committedTransactions.set b
                   (committedAt n.m_committedTransactions b ++ [tx]) } b
    rw [hstep]
    refine ⟨?_, ?_⟩
    · rw [h1]; simp
    · intro b' hb
      rw [h2 b' hb]
      exact StdMap.set_other _ _ _ _ hb

/-- What a call of ProcessForwardTransaction that returns hands to the
broadcast: on acceptance the message goes to the forwarding assignment of the
block number as the node held it before the call, if that list is not empty;
otherwise nothing is sent. -/
theorem ProcessForwardTransaction_broadcasts (ext : Externals) (n : Node) (message : List Byte)
    (cur_offset : Nat) (b : BlockNum) (r : Bool) (n' : Node)
    (hnum : GetNumber message cur_offset UINT256_SIZE = some b)
    (h : ProcessForwardTransaction ext n message cur_offset = some (r, n')) :
    n'.sentBroadcasts
      = n.sentBroadcasts ++
          (if r = true ∧ 0 < (LoadFwdingAssgnForThisBlockNum n b []).length then
             [(LoadFwdingAssgnForThisBlockNum n b [], message)]
           else []) := by
  cases hload : LoadForwardedTxnsAndCheckRoot ext message
      ((cur_offset + UINT256_SIZE) % UINT_MOD) [] with
  | none => simp [ProcessForwardTransaction, hnum, hload] at h
  | some res3 =>
    obtain ⟨res, hash, txns⟩ := res3
    cases res with
    | false =>
      simp only [ProcessForwardTransaction, hnum, hload, Option.some.injEq, Prod.mk.injEq] at h
      obtain ⟨hr, hn⟩ := h
      subst hr; subst hn
      simp
    | true =>
      obtain ⟨e1, e2, e3, e4⟩ := IsMicroBlockTxRootHashInFinalBlock_eq n hash b
      have esent : (IsMicroBlockTxRootHashInFinalBlock n hash b).2.sentBroadcasts
          = n.sentBroadcasts := rfl
      by_cases hmem : hash ∈ outstandingAt n.m_unavailableMicroBlocks b
      · have hf := CommitForwardedTransactions_frame txns
          (IsMicroBlockTxRootHashInFinalBlock n hash b).2 b
        have hentry : (CommitForwardedTransactions
              (IsMicroBlockTxRootHashInFinalBlock n hash b).2 txns b).m_unavailableMicroBlocks b
            = some ((outstandingAt n.m_unavailableMicroBlocks b).erase hash) := by
          rw [hf.1, e2]; simp
        have hdel := DeleteEntryFromFwdingAssgnAndMissingBodyCountMap_eq _ b _ hentry
        have hr1 : (IsMicroBlockTxRootHashInFinalBlock n hash b).1 = true := by
          rw [e1]; simpa using hmem
        have hlist : LoadFwdingAssgnForThisBlockNum
              (CommitForwardedTransactions
                (IsMicroBlockTxRootHashInFinalBlock n hash b).2 txns b) b []
            = LoadFwdingAssgnForThisBlockNum n b [] := by
          unfold LoadFwdingAssgnForThisBlockNum
          rw [hf.2.1, e3]
        unfold ProcessForwardTransaction at h
        simp only [hnum, hload, hr1, Bool.true_eq_false, if_false, hdel, hlist] at h
        split at h
        · rename_i hpos
          simp only [Option.some.injEq, Prod.mk.injEq] at h
          obtain ⟨hr, hn⟩ := h
          subst hr; subst hn
          have hpos' : 0 < (LoadFwdingAssgnForThisBlockNum n b []).length := hpos
          simp only [true_and, hpos', if_true]
          congr 1
          split
          · exact hf.2.2.trans esent
          · exact hf.2.2.trans esent
        · rename_i hpos
          simp only [Option.some.injEq, Prod.mk.injEq] at h
          obtain ⟨hr, hn⟩ := h
          subst hr; subst hn
          have hpos' : ¬ 0 < (LoadFwdingAssgnForThisBlockNum n b []).length := hpos
          simp only [true_and, hpos', if_false, List.append_nil]
          split
          · exact hf.2.2.trans esent
          · exact hf.2.2.trans esent
      · have hr1 : (IsMicroBlockTxRootHashInFinalBlock n hash b).1 = false := by
          rw [e1]; simpa using hmem
        unfold ProcessForwardTransaction at h
        simp only [hnum, hload, hr1, if_true, Option.some.injEq, Prod.mk.injEq] at h
        obtain ⟨hr, hn⟩ := h
        subst hr; subst hn
        simp [esent]

/-- C30: let ProcessForwardTransaction return for a message whose block number
is b.  If it returns true, the committed list of b afterwards is its previous
content followed by the transactions decoded from the message, in message
order, and the committed lists of other block numbers are unchanged; the
message, unchanged, is broadcast once, to the forwarding assignment b had
before the call, if that assignment exists and is not empty, and to nobody
otherwise.  This is so also when the call deletes the assignment because the
outstanding set became empty.  If it returns false, the committed map and the
forwarding assignments are unchanged and nothing is broadcast. -/
theorem ProcessForwardTransaction_commit_and_rebroadcast (ext : Externals) (n n' : Node)
    (message : List Byte) (cur_offset : Nat) (b : BlockNum) (r : Bool)
    (hnum : GetNumber message cur_offset UINT256_SIZE = some b)
    (h : ProcessForwardTransaction ext n message cur_offset = some (r, n')) :
    (r = true →
      ∃ (hash : TxnHash) (txns : List Transaction),
        LoadForwardedTxnsAndCheckRoot ext message ((cur_offset + UINT256_SIZE) % UINT_MOD) []
          = some (true, hash, txns) ∧
        committedAt n'.m_committedTransactions b
          = committedAt n.m_committedTransactions b ++ txns ∧
        (∀ b', b' ≠ b → n'.m_committedTransactions b' = n.m_committedTransactions b') ∧
        n'.sentBroadcasts
          = n.sentBroadcasts ++
              (match n.m_forwardingAssignment b with
               | some forward_list =>
                 if 0 < forward_list.length then [(forward_list, message)] else []
               | none => []) ∧
        n'.m_forwardingAssignment
          = (if (outstandingAt n.m_unavailableMicroBlocks b).erase hash = ∅
             then n.m_forwardingAssignment.erase b
             else n.m_forwardingAssignment)) ∧
    (r = false →
      n'.m_committedTransactions = n.m_committedTransactions ∧
      n'.m_forwardingAssignment = n.m_forwardingAssignment ∧
      n'.sentBroadcasts = n.sentBroadcasts) := by
  have hsent := ProcessForwardTransaction_broadcasts ext n message cur_offset b r n' hnum h
  cases hload : LoadForwardedTxnsAndCheckRoot ext message
      ((cur_offset + UINT256_SIZE) % UINT_MOD) [] with
  | none => simp [ProcessForwardTransaction, hnum, hload] at h
  | some res3 =>
    obtain ⟨res, hash, txns⟩ := res3
    obtain ⟨n0, hp, hA, hB, hC⟩ :=
      ProcessForwardTransaction_step ext n message cur_offset b res hash txns hnum hload
    rw [hp] at h
    simp only [Option.some.injEq, Prod.mk.injEq] at h
    obtain ⟨hr, hn⟩ := h
    subst hn
    constructor
    · intro hrt
      rw [hrt] at hr hsent
      simp only [Bool.and_eq_true, decide_eq_true_eq] at hr
      obtain ⟨hres, hmem⟩ := hr
      subst hres
      obtain ⟨_, hfwd, hcom⟩ := hC rfl hmem
      obtain ⟨hc1, hc2⟩ := CommitForwardedTransactions_committedAt txns n b
      refine ⟨hash, txns, rfl, ?_, ?_, ?_, hfwd⟩
      · rw [hcom]; exact hc1
      · intro b' hb
        rw [hcom]; exact hc2 b' hb
      · rw [hsent]
        unfold LoadFwdingAssgnForThisBlockNum
        cases n.m_forwardingAssignment b with
        | none => simp
        | some l => simp
    · intro hrf
      rw [hrf] at hr hsent
      have hs : n0.sentBroadcasts = n.sentBroadcasts := by simpa using hsent
      cases res with
      | false =>
        rw [hA rfl]
        exact ⟨rfl, rfl, rfl⟩
      | true =>
        have hnot : hash ∉ outstandingAt n.m_unavailableMicroBlocks b := by
          simpa using hr
        obtain ⟨_, hfwd, hcom⟩ := hB rfl hnot
        exact ⟨hcom, hfwd, hs⟩

/-- C30, worked example: the sample node has one committed transaction for block
7, waits for the hash 1 alone and forwards block 7 to samplePeer.  The message
for hash 1 is accepted: the committed list of block 7 is the old transaction
followed by the new one, the message is broadcast to samplePeer, and the
forwarding assignment of block 7 is deleted by the same call. -/
theorem ProcessForwardTransaction_commit_and_rebroadcast_witness :
    GetNumber (sampleForwardMsg 7 (sampleHash 1) [1]) 0 UINT256_SIZE = some 7 ∧
    (ProcessForwardTransaction sampleExt sampleNodeOneHash
        (sampleForwardMsg 7 (sampleHash 1) [1]) 0).map
        (fun r => (r.1, r.2.m_committedTransactions 7, r.2.sentBroadcasts,
                   r.2.m_forwardingAssignment 7))
      = some (true, some [sampleTxn (sampleHash 5), sampleTxn [1]],
              [([samplePeer], sampleForwardMsg 7 (sampleHash 1) [1])], none) ∧
    ∃ (hash : TxnHash) (txns : List Transaction),
      LoadForwardedTxnsAndCheckRoot sampleExt (sampleForwardMsg 7 (sampleHash 1) [1])
          ((0 + UINT256_SIZE) % UINT_MOD) [] = some (true, hash, txns) ∧
      committedAt
          ((ProcessForwardTransaction sampleExt sampleNodeOneHash
            (sampleForwardMsg 7 (sampleHash 1) [1]) 0).getD
              (false, sampleNodeOneHash)).2.m_committedTransactions 7
        = committedAt sampleNodeOneHash.m_committedTransactions 7 ++ txns := by
  refine ⟨by decide, rfl, ?_⟩
  obtain ⟨hash, txns, h1, h2, _⟩ :=
    (ProcessForwardTransaction_commit_and_rebroadcast sampleExt sampleNodeOneHash
      ((ProcessForwardTransaction sampleExt sampleNodeOneHash
        (sampleForwardMsg 7 (sampleHash 1) [1]) 0).getD (false, sampleNodeOneHash)).2
      (sampleForwardMsg 7 (sampleHash 1) [1]) 0 7 true (by decide) rfl).1 rfl
  exact ⟨hash, txns, h1, h2⟩

/-! ### Round trip of the forward-transaction message -/

theorem writeAt_end (dst src : List Byte) : writeAt dst dst.length src = dst ++ src := by
  unfold writeAt
  rw [List.take_length, Nat.sub_self, List.drop_eq_nil_of_le (by omega)]
  simp

/-- The serialisation loop of BroadcastTransactionsToSendingAssignment appends
the transactions when the offset is the end of the message and stays below
2 ^ 32. -/
theorem foldl_serializeTransaction (ext : Externals) :
    ∀ (txns : List Transaction) (msg : List Byte),
      (∀ tx ∈ txns, (ext.serializeTransaction tx).length = ext.TxnSerializedSize) →
      msg.length + txns.length * ext.TxnSerializedSize < UINT_MOD →
      (txns.foldl
        (fun (st : List Byte × Nat) tx =>
          (writeAt st.1 st.2 (ext.serializeTransaction tx),
           (st.2 + ext.TxnSerializedSize) % UINT_MOD))
        (msg, msg.length)).1 = msg ++ txns.flatMap ext.serializeTransaction := by
  intro txns
  induction txns with
  | nil => intro msg _ _; simp
  | cons tx rest ih =>
    intro msg hser hfit
    have hlen : (ext.serializeTransaction tx).length = ext.TxnSerializedSize :=
      hser tx (List.mem_cons_self _ _)
    have hfit1 : msg.length + (rest.length + 1) * ext.TxnSerializedSize < UINT_MOD := by
      simpa using hfit
    rw [Nat.add_mul, Nat.one_mul] at hfit1
    have hoff : (msg.length + ext.TxnSerializedSize) % UINT_MOD
        = (msg ++ ext.serializeTransaction tx).length := by
      rw [List.length_append, hlen]
      exact Nat.mod_eq_of_lt (by omega)
    simp only [List.foldl_cons, writeAt_end, hoff]
    rw [ih (msg ++ ext.serializeTransaction tx)
      (fun t ht => hser t (List.mem_cons_of_mem _ ht))
      (by rw [List.length_append, hlen]; omega)]
    simp [List.flatMap_cons]

theorem flatMap_serializeTransaction_length (ext : Externals) :
    ∀ (txns : List Transaction),
      (∀ tx ∈ txns, (ext.serializeTransaction tx).length = ext.TxnSerializedSize) →
      (txns.flatMap ext.serializeTransaction).length = txns.length * ext.TxnSerializedSize := by
  intro txns
  induction txns with
  | nil => intro _; simp
  | cons tx rest ih =>
    intro hser
    rw [List.flatMap_cons, List.length_append, hser tx (List.mem_cons_self _ _),
      ih (fun t ht => hser t (List.mem_cons_of_mem _ ht)), List.length_cons, Nat.add_mul,
      Nat.one_mul, Nat.add_comm]

/-- The message of BroadcastTransactionsToSendingAssignment in closed form. -/
theorem forwardTxnMessage_eq (ext : Externals) (blocknum : BlockNum) (root : TxnHash)
    (txns : List Transaction) (hroot : root.length = TRAN_HASH_SIZE)
    (hser : ∀ tx ∈ txns, (ext.serializeTransaction tx).length = ext.TxnSerializedSize)
    (hfit : MessageOffset_BODY + UINT256_SIZE + TRAN_HASH_SIZE
      + txns.length * ext.TxnSerializedSize < UINT_MOD) :
    forwardTxnMessage ext blocknum root txns
      = [ext.MessageType_NODE, ext.FORWARDTRANSACTION]
          ++ encodeBE UINT256_SIZE (blocknum % UINT256_MOD) ++ root
          ++ txns.flatMap ext.serializeTransaction := by
  unfold forwardTxnMessage
  have h1 : writeAt [ext.MessageType_NODE, ext.FORWARDTRANSACTION] MessageOffset_BODY
        (encodeBE UINT256_SIZE (blocknum % UINT256_MOD))
      = [ext.MessageType_NODE, ext.FORWARDTRANSACTION]
          ++ encodeBE UINT256_SIZE (blocknum % UINT256_MOD) :=
    writeAt_end [ext.MessageType_NODE, ext.FORWARDTRANSACTION] _
  have htake : root.take TRAN_HASH_SIZE = root := by
    rw [← hroot]; exact List.take_length _
  have hlen1 : ([ext.MessageType_NODE, ext.FORWARDTRANSACTION]
        ++ encodeBE UINT256_SIZE (blocknum % UINT256_MOD)).length
      = MessageOffset_BODY + UINT256_SIZE := by
    rw [List.length_append, encodeBE_length]; rfl
  have h2 : writeAt ([ext.MessageType_NODE, ext.FORWARDTRANSACTION]
        ++ encodeBE UINT256_SIZE (blocknum % UINT256_MOD)) (MessageOffset_BODY + UINT256_SIZE)
        (root.take TRAN_HASH_SIZE)
      = [ext.MessageType_NODE, ext.FORWARDTRANSACTION]
          ++ encodeBE UINT256_SIZE (blocknum % UINT256_MOD) ++ root := by
    rw [← hlen1, writeAt_end, htake]
  have hlen2 : ([ext.MessageType_NODE, ext.FORWARDTRANSACTION]
        ++ encodeBE UINT256_SIZE (blocknum % UINT256_MOD) ++ root).length
      = MessageOffset_BODY + UINT256_SIZE + TRAN_HASH_SIZE := by
    rw [List.length_append, hlen1, hroot]
  simp only [h1, h2]
  rw [← hlen2]
  exact foldl_serializeTransaction ext txns _ hser (by rw [hlen2]; exact hfit)

/-- The decoding loop on a message that ends with the serialised transactions:
started at their first byte it reads them back. -/
theorem loadTxnsLoop_flatMap (ext : Externals) (hT : 0 < ext.TxnSerializedSize) :
    ∀ (rest : List Transaction) (pre : List Byte) (acc : List Transaction) (fuel : Nat),
      (∀ tx ∈ rest, (ext.serializeTransaction tx).length = ext.TxnSerializedSize) →
      (∀ tx ∈ rest, ∀ (m : List Byte) (off : Nat),
        HoldsAt m off (ext.serializeTransaction tx) → ext.readTransaction m off = tx) →
      rest.length < fuel →
      (pre ++ rest.flatMap ext.serializeTransaction).length + ext.TxnSerializedSize < UINT_MOD →
      loadTxnsLoop ext (pre ++ rest.flatMap ext.serializeTransaction) fuel pre.length acc
        = some (acc ++ rest) := by
  intro rest
  induction rest with
  | nil =>
    intro pre acc fuel _ _ hfuel _
    cases fuel with
    | zero => omega
    | succ fuel =>
      unfold loadTxnsLoop
      have hmod : (pre.length + ext.TxnSerializedSize) % UINT_MOD ≤ pre.length ↔ False := by
        constructor
        · intro h
          rcases Nat.lt_or_ge (pre.length + ext.TxnSerializedSize) UINT_MOD with h1 | h1
          · rw [Nat.mod_eq_of_lt h1] at h; omega
          · rename_i hfit
            simp at hfit
            omega
        · intro h; exact absurd h id
      simp [hmod]
  | cons tx rest ih =>
    intro pre acc fuel hser hrt hfuel hfit
    have hlen : (ext.serializeTransaction tx).length = ext.TxnSerializedSize :=
      hser tx (List.mem_cons_self _ _)
    have hmsg : pre ++ (tx :: rest).flatMap ext.serializeTransaction
        = (pre ++ ext.serializeTransaction tx) ++ rest.flatMap ext.serializeTransaction := by
      simp [List.flatMap_cons]
    cases fuel with
    | zero => simp at hfuel
    | succ fuel =>
      rw [hmsg] at hfit ⊢
      have hlen' : (pre ++ ext.serializeTransaction tx).length
          = pre.length + ext.TxnSerializedSize := by
        rw [List.length_append, hlen]
      have htotal : ((pre ++ ext.serializeTransaction tx)
            ++ rest.flatMap ext.serializeTransaction).length
          = pre.length + ext.TxnSerializedSize
              + (rest.flatMap ext.serializeTransaction).length := by
        rw [List.length_append, hlen']
      have hmod : (pre.length + ext.TxnSerializedSize) % UINT_MOD
          = pre.length + ext.TxnSerializedSize := Nat.mod_eq_of_lt (by omega)
      have hread : ext.readTransaction
            ((pre ++ ext.serializeTransaction tx) ++ rest.flatMap ext.serializeTransaction)
            pre.length = tx := by
        apply hrt tx (List.mem_cons_self _ _)
        refine ⟨by rw [htotal, hlen]; omega, ?_⟩
        rw [List.append_assoc, List.drop_left, List.take_left]
      unfold loadTxnsLoop
      rw [hmod, if_pos (by rw [htotal]; omega), hread, ← hlen']
      rw [ih (pre ++ ext.serializeTransaction tx) (acc ++ [tx]) fuel
        (fun t ht => hser t (List.mem_cons_of_mem _ ht))
        (fun t ht => hrt t (List.mem_cons_of_mem _ ht))
        (by simpa using hfuel) hfit]
      simp

/-- C29: let the root hash have TRAN_HASH_SIZE bytes, the block number fit 256
bits, every transaction of the list serialise to the fixed size T > 0 and be
read back from its serialisation, and the message be short enough for the
32-bit offsets not to wrap.  For a non-empty list,
BroadcastTransactionsToSendingAssignment sends one message: two tag bytes, the
32-byte block number, the root hash, the transactions.  The receiving path
reads the same block number at the body offset, and
LoadForwardedTxnsAndCheckRoot then reads the same root hash and the same
transactions in the same order, so that ProcessForwardTransaction, on any node,
accepts the message exactly when the root over the ids is the root hash and the
root hash is outstanding for the block number.  For the empty list no message
is sent and the node is unchanged. -/
theorem forwardTxnMessage_round_trip (ext : Externals) (n receiver : Node) (blocknum : BlockNum)
    (sendingAssignment : List Peer) (root : TxnHash) (txns : List Transaction)
    (hb : blocknum < UINT256_MOD) (hroot : root.length = TRAN_HASH_SIZE)
    (hT : 0 < ext.TxnSerializedSize)
    (hser : ∀ tx ∈ txns, (ext.serializeTransaction tx).length = ext.TxnSerializedSize)
    (hrt : ∀ tx ∈ txns, ∀ (m : List Byte) (off : Nat),
      HoldsAt m off (ext.serializeTransaction tx) → ext.readTransaction m off = tx)
    (hfit : MessageOffset_BODY + UINT256_SIZE + TRAN_HASH_SIZE
      + (txns.length + 1) * ext.TxnSerializedSize < UINT_MOD) :
    (txns ≠ [] →
      (BroadcastTransactionsToSendingAssignment ext n blocknum sendingAssignment root
          txns).sentBroadcasts
        = n.sentBroadcasts
            ++ [(sendingAssignment, forwardTxnMessage ext blocknum root txns)]) ∧
    BroadcastTransactionsToSendingAssignment ext n blocknum sendingAssignment root [] = n ∧
    forwardTxnMessage ext blocknum root txns
      = [ext.MessageType_NODE, ext.FORWARDTRANSACTION] ++ encodeBE UINT256_SIZE blocknum ++ root
          ++ txns.flatMap ext.serializeTransaction ∧
    GetNumber (forwardTxnMessage ext blocknum root txns) MessageOffset_BODY UINT256_SIZE
      = some blocknum ∧
    LoadForwardedTxnsAndCheckRoot ext (forwardTxnMessage ext blocknum root txns)
        ((MessageOffset_BODY + UINT256_SIZE) % UINT_MOD) []
      = some (decide (ext.ComputeTransactionsRoot (txns.map Transaction.GetTranID) = root),
              root, txns) ∧
    ∃ receiver' : Node,
      ProcessForwardTransaction ext receiver (forwardTxnMessage ext blocknum root txns)
          MessageOffset_BODY
        = some (decide (ext.ComputeTransactionsRoot (txns.map Transaction.GetTranID) = root)
                  && decide (root ∈ outstandingAt receiver.m_unavailableMicroBlocks blocknum),
                receiver') := by
  have h256 : UINT256_SIZE = 32 := rfl
  have hhash : TRAN_HASH_SIZE = 32 := rfl
  have hbody : MessageOffset_BODY = 2 := rfl
  have hmul : (txns.length + 1) * ext.TxnSerializedSize
      = txns.length * ext.TxnSerializedSize + ext.TxnSerializedSize := by
    rw [Nat.add_mul, Nat.one_mul]
  have hmsg : forwardTxnMessage ext blocknum root txns
      = [ext.MessageType_NODE, ext.FORWARDTRANSACTION] ++ encodeBE UINT256_SIZE blocknum ++ root
          ++ txns.flatMap ext.serializeTransaction := by
    rw [forwardTxnMessage_eq ext blocknum root txns hroot hser (by omega),
      Nat.mod_eq_of_lt hb]
  have hpre : ([ext.MessageType_NODE, ext.FORWARDTRANSACTION] ++ encodeBE UINT256_SIZE blocknum
      ++ root).length = MessageOffset_BODY + UINT256_SIZE + TRAN_HASH_SIZE := by
    rw [List.length_append, List.length_append, encodeBE_length, hroot]; rfl
  have hlen : (forwardTxnMessage ext blocknum root txns).length
      = MessageOffset_BODY + UINT256_SIZE + TRAN_HASH_SIZE
          + txns.length * ext.TxnSerializedSize := by
    rw [hmsg, List.length_append, hpre, flatMap_serializeTransaction_length ext txns hser]
  have hnum : GetNumber (forwardTxnMessage ext blocknum root txns) MessageOffset_BODY
      UINT256_SIZE = some blocknum := by
    apply GetNumber_holdsAt _ _ _ _ _ (by
      have : (256 : Nat) ^ UINT256_SIZE = UINT256_MOD := by decide
      rw [this]; exact hb)
    refine ⟨by rw [encodeBE_length, hlen]; omega, ?_⟩
    rw [hmsg, encodeBE_length]
    have h2 : [ext.MessageType_NODE, ext.FORWARDTRANSACTION] ++ encodeBE UINT256_SIZE blocknum
          ++ root ++ txns.flatMap ext.serializeTransaction
        = [ext.MessageType_NODE, ext.FORWARDTRANSACTION]
            ++ (encodeBE UINT256_SIZE blocknum
                  ++ (root ++ txns.flatMap ext.serializeTransaction)) := by
      simp
    rw [h2, hbody]
    have h3 : ([ext.MessageType_NODE, ext.FORWARDTRANSACTION]
          ++ (encodeBE UINT256_SIZE blocknum
                ++ (root ++ txns.flatMap ext.serializeTransaction))).drop 2
        = encodeBE UINT256_SIZE blocknum
            ++ (root ++ txns.flatMap ext.serializeTransaction) := by
      simp
    rw [h3]
    exact List.take_left' (encodeBE_length _ _)
  have hoff : (MessageOffset_BODY + UINT256_SIZE) % UINT_MOD = MessageOffset_BODY + UINT256_SIZE :=
    Nat.mod_eq_of_lt (by omega)
  have hload : LoadForwardedTxnsAndCheckRoot ext (forwardTxnMessage ext blocknum root txns)
        ((MessageOffset_BODY + UINT256_SIZE) % UINT_MOD) []
      = some (decide (ext.ComputeTransactionsRoot (txns.map Transaction.GetTranID) = root),
              root, txns) := by
    rw [hoff]
    unfold LoadForwardedTxnsAndCheckRoot
    rw [if_pos ⟨by omega, by rw [hlen]; omega⟩]
    have hroothash : ((forwardTxnMessage ext blocknum root txns).drop
          (MessageOffset_BODY + UINT256_SIZE)).take TRAN_HASH_SIZE = root := by
      rw [hmsg]
      have h2 : [ext.MessageType_NODE, ext.FORWARDTRANSACTION] ++ encodeBE UINT256_SIZE blocknum
            ++ root ++ txns.flatMap ext.serializeTransaction
          = ([ext.MessageType_NODE, ext.FORWARDTRANSACTION] ++ encodeBE UINT256_SIZE blocknum)
              ++ (root ++ txns.flatMap ext.serializeTransaction) := by
        simp
      rw [h2, List.drop_left' (by rw [List.length_append, encodeBE_length]; rfl)]
      exact List.take_left' hroot
    have hloop := loadTxnsLoop_flatMap ext hT txns
      ([ext.MessageType_NODE, ext.FORWARDTRANSACTION] ++ encodeBE UINT256_SIZE blocknum ++ root)
      [] ((forwardTxnMessage ext blocknum root txns).length + 1) hser hrt
      (by
        rw [hlen]
        have : txns.length ≤ txns.length * ext.TxnSerializedSize :=
          Nat.le_mul_of_pos_right _ hT
        omega)
      (by rw [← hmsg, hlen]; omega)
    rw [← hmsg, hpre] at hloop
    simp only [hloop, hroothash, List.nil_append, List.length_nil, List.drop_zero]
  refine ⟨?_, ?_, hmsg, hnum, hload, ?_⟩
  · intro hne
    have hpos : txns.length > 0 := List.length_pos.mpr hne
    simp [BroadcastTransactionsToSendingAssignment, hpos]
  · simp [BroadcastTransactionsToSendingAssignment]
  · obtain ⟨n', hp, _⟩ := ProcessForwardTransaction_step ext receiver
      (forwardTxnMessage ext blocknum root txns) MessageOffset_BODY blocknum _ root txns hnum
      hload
    exact ⟨n', hp⟩

set_option maxRecDepth 20000 in
/-- C29, worked example: the transactions with the ids 1 and 2 of block 7, whose
root is the hash 3, are sent as the two tag bytes, the block number, the root
and the two bytes 1 and 2; a node that waits for the hash 3 of block 7 decodes
the same block number, root and transactions and accepts the message. -/
theorem forwardTxnMessage_round_trip_witness :
    (BroadcastTransactionsToSendingAssignment sampleExt emptyNode 7 [samplePeer] (sampleHash 3)
        [sampleTxn [1], sampleTxn [2]]).sentBroadcasts
      = [([samplePeer], [2, 8] ++ encodeBE 32 7 ++ sampleHash 3 ++ [1, 2])] ∧
    (ProcessForwardTransaction sampleExt sampleNodeHashThree
        (forwardTxnMessage sampleExt 7 (sampleHash 3) [sampleTxn [1], sampleTxn [2]])
        MessageOffset_BODY).map (fun r => (r.1, r.2.m_committedTransactions 7))
      = some (true, some [sampleTxn [1], sampleTxn [2]]) ∧
    GetNumber (forwardTxnMessage sampleExt 7 (sampleHash 3) [sampleTxn [1], sampleTxn [2]])
        MessageOffset_BODY UINT256_SIZE = some 7 ∧
    LoadForwardedTxnsAndCheckRoot sampleExt
        (forwardTxnMessage sampleExt 7 (sampleHash 3) [sampleTxn [1], sampleTxn [2]])
        ((MessageOffset_BODY + UINT256_SIZE) % UINT_MOD) []
      = some (decide (sampleExt.ComputeTransactionsRoot
                ([sampleTxn [1], sampleTxn [2]].map Transaction.GetTranID) = sampleHash 3),
              sampleHash 3, [sampleTxn [1], sampleTxn [2]]) := by
  have h := forwardTxnMessage_round_trip sampleExt emptyNode sampleNodeHashThree 7 [samplePeer]
    (sampleHash 3) [sampleTxn [1], sampleTxn [2]] (by decide) (by decide) (by decide)
    (by decide)
    (by
      intro tx htx m off hh
      simp only [List.mem_cons, List.mem_singleton, List.not_mem_nil, or_false] at htx
      rcases htx with rfl | rfl
      · exact congrArg sampleTxn hh.2
      · exact congrArg sampleTxn hh.2)
    (by decide)
  exact ⟨rfl, rfl, h.2.2.2.1, h.2.2.2.2.1⟩

/-! ### Role determinism -/

/-- The reconciliation never changes the forwarding assignments, and broadcasts
at most one message, to the sending assignment it was given. -/
theorem reconcileAndSend_targets (ext : Externals) (n n' : Node) (b : BlockNum)
    (mode : TxSharingMode) (sa : List Peer) (h : reconcileAndSend ext n b mode sa = some n') :
    n'.m_forwardingAssignment = n.m_forwardingAssignment ∧
    (n'.sentBroadcasts = n.sentBroadcasts ∨
      ∃ msg, 0 < sa.length ∧ n'.sentBroadcasts = n.sentBroadcasts ++ [(sa, msg)]) := by
  obtain ⟨hA, hB, hC⟩ := reconcileAndSend_spec ext n b mode sa
  cases hmb : n.m_microblock with
  | none =>
    rw [hA hmb] at h
    simp only [Option.some.injEq] at h
    subst h
    exact ⟨rfl, Or.inl rfl⟩
  | some mb =>
    by_cases hmem : mb.GetTxRootHash ∈ outstandingAt n.m_unavailableMicroBlocks b
    · obtain ⟨n0, _, out, hr, _, _, _, _, h4, _, h6⟩ := hC mb hmb hmem
      rw [hr] at h
      simp only [Option.some.injEq] at h
      subst h
      refine ⟨h4, ?_⟩
      by_cases hsend : sa.length > 0 ∧ out.length > 0
      · right
        exact ⟨_, hsend.1, by rw [h6, if_pos hsend]⟩
      · left
        rw [h6, if_neg hsend, List.append_nil]
    · obtain ⟨n0, hr, _, _, _, h4, h5, _⟩ := hB mb hmb hmem
      rw [hr] at h
      simp only [Option.some.injEq] at h
      subst h
      exact ⟨h4, Or.inl h5⟩

/-- The forwarding assignments and the broadcast of
CallActOnFinalBlockBasedOnSenderForwarderAssgn: a forwarding node stores the
list LoadForwardingAssignmentFromFinalBlock builds for the last stored block,
any other node keeps its assignments; at most one message is broadcast, to the
sending target. -/
theorem CallActOnFinalBlockBasedOnSenderForwarderAssgn_targets (ext : Externals) (n n' : Node)
    (i_am_sender i_am_forwarder : Bool) (nodes : List (List Peer)) (shard_id : Nat)
    (h : CallActOnFinalBlockBasedOnSenderForwarderAssgn ext n i_am_sender i_am_forwarder nodes
      shard_id = some n') :
    ∃ finalblock : TxBlock,
      n.m_txBlockChain.getLast? = some finalblock ∧
      n'.m_forwardingAssignment
        = (if i_am_forwarder = true then
             (LoadForwardingAssignmentFromFinalBlock n
               (forwardingFellows i_am_sender nodes shard_id)
               finalblock.GetBlockNum).m_forwardingAssignment
           else n.m_forwardingAssignment) ∧
      (n'.sentBroadcasts = n.sentBroadcasts ∨
        ∃ msg, n'.sentBroadcasts
          = n.sentBroadcasts
              ++ [(sendingTarget i_am_sender i_am_forwarder nodes shard_id, msg)]) := by
  cases hlast : n.m_txBlockChain.getLast? with
  | none =>
    exfalso
    unfold CallActOnFinalBlockBasedOnSenderForwarderAssgn at h
    simp only [ActOnFinalBlock, ActOnFinalBlock3, hlast, if_true, Option.map_none'] at h
    repeat' split at h
    all_goals exact absurd h (by simp)
  | some finalblock =>
    refine ⟨finalblock, rfl, ?_⟩
    cases i_am_sender <;> cases i_am_forwarder
    · -- neither
      simp only [CallActOnFinalBlockBasedOnSenderForwarderAssgn, ActOnFinalBlock, hlast,
        Bool.false_eq_true, and_self, and_false, false_and, if_false, Option.map_map,
        Option.map_eq_some', Function.comp] at h
      obtain ⟨n2, hr, hn2⟩ := h
      subst hn2
      obtain ⟨h1, h2⟩ := reconcileAndSend_targets ext _ _ _ _ _ hr
      refine ⟨by simpa using h1, ?_⟩
      rcases h2 with h2 | ⟨msg, hpos, _⟩
      · exact Or.inl h2
      · simp at hpos
    · -- forwarder only
      unfold CallActOnFinalBlockBasedOnSenderForwarderAssgn at h
      rw [if_pos ⟨rfl, rfl⟩] at h
      cases hget : nodes.get? (shard_id + 1) with
      | none => rw [hget] at h; simp at h
      | some recv =>
        have hf : forwardingFellows false nodes shard_id = recv := by
          unfold forwardingFellows
          rw [if_neg (by simp), hget]
          rfl
        rw [hget] at h
        simp only [ActOnFinalBlock, hlast, Option.map_map, Option.map_eq_some',
          Function.comp] at h
        obtain ⟨n2, hr, hn2⟩ := h
        subst hn2
        obtain ⟨h1, h2⟩ := reconcileAndSend_targets ext _ _ _ _ _ hr
        refine ⟨?_, ?_⟩
        · rw [h1, if_pos rfl, hf]
        · rcases h2 with h2 | ⟨msg, hpos, _⟩
          · left
            rw [h2]
            rfl
          · simp at hpos
    · -- sender only
      unfold CallActOnFinalBlockBasedOnSenderForwarderAssgn at h
      rw [if_neg (by simp), if_pos ⟨rfl, rfl⟩] at h
      cases hrecv : receiversInOtherCommittees nodes shard_id with
      | none => rw [hrecv] at h; simp at h
      | some targets =>
        have ht : sendingTarget true false nodes shard_id = targets := by
          unfold sendingTarget
          rw [if_pos ⟨rfl, rfl⟩, hrecv]
          rfl
        rw [hrecv] at h
        simp only [ActOnFinalBlock, hlast, Option.map_map, Option.map_eq_some',
          Function.comp] at h
        obtain ⟨n2, hr, hn2⟩ := h
        subst hn2
        obtain ⟨h1, h2⟩ := reconcileAndSend_targets ext _ _ _ _ _ hr
        refine ⟨by simpa using h1, ?_⟩
        rcases h2 with h2 | ⟨msg, _, h2⟩
        · exact Or.inl h2
        · right
          refine ⟨msg, ?_⟩
          rw [h2, ht]
          simp
    · -- both
      unfold CallActOnFinalBlockBasedOnSenderForwarderAssgn at h
      rw [if_neg (by simp), if_neg (by simp), if_pos ⟨rfl, rfl⟩] at h
      cases hget : nodes.get? (shard_id + 1) with
      | none => rw [hget] at h; simp at h
      | some recv =>
        cases hrecv : receiversInOtherCommittees nodes shard_id with
        | none => rw [hget, hrecv] at h; simp at h
        | some fellows =>
          have hf : forwardingFellows true nodes shard_id = fellows := by
            unfold forwardingFellows
            rw [if_pos rfl, hrecv]
            rfl
          have ht : sendingTarget true true nodes shard_id = recv := by
            unfold sendingTarget
            rw [if_neg (by simp), if_pos ⟨rfl, rfl⟩, hget]
            rfl
          rw [hget, hrecv] at h
          simp only [ActOnFinalBlock3, hlast, if_true, Option.map_map, Option.map_eq_some',
            Function.comp] at h
          obtain ⟨n2, hr, hn2⟩ := h
          subst hn2
          obtain ⟨h1, h2⟩ := reconcileAndSend_targets ext _ _ _ _ _ hr
          refine ⟨?_, ?_⟩
          · rw [h1, if_pos rfl, hf]
          · rcases h2 with h2 | ⟨msg, _, h2⟩
            · left
              rw [h2]
              rfl
            · right
              refine ⟨msg, ?_⟩
              rw [h2, ht]
              rfl

/-- C26, counterexample: two nodes with the same local address, of which one
knows a shard of two members and the other a shard of three, decode the same
sharing-setup bytes with the same shard id.  Both find the same flags and node
list (forwarder only), but the forwarding assignment stored for block 7 is
samplePeer alone for the first and samplePeer and the peer 31 for the
second. -/
theorem CallActOnFinalBlockBasedOnSenderForwarderAssgn_deterministic_counterexample :
    sampleNodeStored.m_selfPeer = sampleNodeStoredOfThree.m_selfPeer ∧
    LoadTxnSharingInfo sampleNodeStored (encodeSharingSetup sampleSetupOwn) 0
        { cur_offset := 0, i_am_sender := false, i_am_forwarder := false, nodes := [] }
      = some { cur_offset := 36, i_am_sender := false, i_am_forwarder := true,
               nodes := sampleSetupOwn.nodes } ∧
    LoadTxnSharingInfo sampleNodeStoredOfThree (encodeSharingSetup sampleSetupOwn) 0
        { cur_offset := 0, i_am_sender := false, i_am_forwarder := false, nodes := [] }
      = some { cur_offset := 36, i_am_sender := false, i_am_forwarder := true,
               nodes := sampleSetupOwn.nodes } ∧
    (CallActOnFinalBlockBasedOnSenderForwarderAssgn sampleExt sampleNodeStored false true
        sampleSetupOwn.nodes 0).map (fun n => n.m_forwardingAssignment 7)
      = some (some [samplePeer]) ∧
    (CallActOnFinalBlockBasedOnSenderForwarderAssgn sampleExt sampleNodeStoredOfThree false true
        sampleSetupOwn.nodes 0).map (fun n => n.m_forwardingAssignment 7)
      = some (some [samplePeer, { m_ipAddress := 31, m_listenPortHost := 1 }]) := by
  refine ⟨rfl, by decide, by decide, by decide, by decide⟩

/-- C26, amended: two nodes with the same local address decode the same
sharing-setup bytes with the same shard id into the same flags and the same
node list, hence into the same role, and whatever
CallActOnFinalBlockBasedOnSenderForwarderAssgn broadcasts goes, on both nodes,
to the same peer list, which is a function of the flags, the node list and the
shard id.  The forwarding assignment stored for the last stored block is the
same on both nodes when they also agree on the number of that block, on the
shard roster, on the own index in it and on the assignment already stored for
that block: the list is built from the roster, not from the message alone. -/
theorem CallActOnFinalBlockBasedOnSenderForwarderAssgn_deterministic (ext : Externals)
    (n1 n2 n1' n2' : Node) (message : List Byte) (shard_id : Nat) (st info : SharingInfo)
    (haddr : n1.m_selfPeer = n2.m_selfPeer)
    (hd : LoadTxnSharingInfo n1 message shard_id st = some info)
    (hc1 : CallActOnFinalBlockBasedOnSenderForwarderAssgn ext n1 info.i_am_sender
      info.i_am_forwarder info.nodes shard_id = some n1')
    (hc2 : CallActOnFinalBlockBasedOnSenderForwarderAssgn ext n2 info.i_am_sender
      info.i_am_forwarder info.nodes shard_id = some n2') :
    LoadTxnSharingInfo n2 message shard_id st = some info ∧
    (n1'.sentBroadcasts = n1.sentBroadcasts ∨
      ∃ msg, n1'.sentBroadcasts
        = n1.sentBroadcasts
            ++ [(sendingTarget info.i_am_sender info.i_am_forwarder info.nodes shard_id, msg)]) ∧
    (n2'.sentBroadcasts = n2.sentBroadcasts ∨
      ∃ msg, n2'.sentBroadcasts
        = n2.sentBroadcasts
            ++ [(sendingTarget info.i_am_sender info.i_am_forwarder info.nodes shard_id, msg)]) ∧
    (∀ fb1 fb2 : TxBlock,
      n1.m_txBlockChain.getLast? = some fb1 → n2.m_txBlockChain.getLast? = some fb2 →
      fb1.GetBlockNum = fb2.GetBlockNum →
      n1.m_myShardMembersNetworkInfo = n2.m_myShardMembersNetworkInfo →
      n1.m_consensusMyID = n2.m_consensusMyID →
      n1.m_forwardingAssignment fb1.GetBlockNum = n2.m_forwardingAssignment fb1.GetBlockNum →
      n1'.m_forwardingAssignment fb1.GetBlockNum = n2'.m_forwardingAssignment fb1.GetBlockNum) := by
  obtain ⟨b1, hl1, hf1, hs1⟩ :=
    CallActOnFinalBlockBasedOnSenderForwarderAssgn_targets ext n1 n1' _ _ _ _ hc1
  obtain ⟨b2, hl2, hf2, hs2⟩ :=
    CallActOnFinalBlockBasedOnSenderForwarderAssgn_targets ext n2 n2' _ _ _ _ hc2
  refine ⟨?_, hs1, hs2, ?_⟩
  · rw [← hd]
    unfold LoadTxnSharingInfo
    rw [haddr]
  · intro fb1 fb2 h1 h2 hnum hroster hmy hprev
    rw [hl1] at h1
    rw [hl2] at h2
    have e1 : b1 = fb1 := Option.some.inj h1
    have e2 : b2 = fb2 := Option.some.inj h2
    subst e1; subst e2
    rw [hf1, hf2]
    by_cases hfw : info.i_am_forwarder = true
    · rw [if_pos hfw, if_pos hfw, ← hnum]
      simp only [LoadForwardingAssignmentFromFinalBlock, StdMap.set_same, hroster, hmy, hprev]
    · rw [if_neg hfw, if_neg hfw]
      exact hprev

/-- C26, worked example: the sample node that has stored block 7 and the same
node with the primary flag set decode the setup in which the node is the only
receiver of shard 0; both runs find the same flags and node list and store the
same forwarding assignment for block 7, samplePeer. -/
theorem CallActOnFinalBlockBasedOnSenderForwarderAssgn_deterministic_witness :
    LoadTxnSharingInfo sampleNodeStored (encodeSharingSetup sampleSetupOwn) 0
        { cur_offset := 0, i_am_sender := false, i_am_forwarder := false, nodes := [] }
      = some { cur_offset := 36, i_am_sender := false, i_am_forwarder := true,
               nodes := sampleSetupOwn.nodes } ∧
    (CallActOnFinalBlockBasedOnSenderForwarderAssgn sampleExt sampleNodeStored false true
        sampleSetupOwn.nodes 0).map (fun n => n.m_forwardingAssignment 7)
      = some (some [samplePeer]) ∧
    LoadTxnSharingInfo { sampleNodeStored with m_isPrimary := true }
        (encodeSharingSetup sampleSetupOwn) 0
        { cur_offset := 0, i_am_sender := false, i_am_forwarder := false, nodes := [] }
      = some { cur_offset := 36, i_am_sender := false, i_am_forwarder := true,
               nodes := sampleSetupOwn.nodes } ∧
    ((CallActOnFinalBlockBasedOnSenderForwarderAssgn sampleExt sampleNodeStored false true
        sampleSetupOwn.nodes 0).getD sampleNodeStored).m_forwardingAssignment 7
      = ((CallActOnFinalBlockBasedOnSenderForwarderAssgn sampleExt
          { sampleNodeStored with m_isPrimary := true } false true
          sampleSetupOwn.nodes 0).getD sampleNodeStored).m_forwardingAssignment 7 :=
  have h := CallActOnFinalBlockBasedOnSenderForwarderAssgn_deterministic sampleExt
    sampleNodeStored { sampleNodeStored with m_isPrimary := true }
    ((CallActOnFinalBlockBasedOnSenderForwarderAssgn sampleExt sampleNodeStored false true
        sampleSetupOwn.nodes 0).getD sampleNodeStored)
    ((CallActOnFinalBlockBasedOnSenderForwarderAssgn sampleExt
        { sampleNodeStored with m_isPrimary := true } false true
        sampleSetupOwn.nodes 0).getD sampleNodeStored)
    (encodeSharingSetup sampleSetupOwn) 0
    { cur_offset := 0, i_am_sender := false, i_am_forwarder := false, nodes := [] }
    { cur_offset := 36, i_am_sender := false, i_am_forwarder := true,
      nodes := sampleSetupOwn.nodes }
    rfl (by decide) rfl rfl
  ⟨by decide, by decide, h.1, h.2.2.2 sampleBlock7 sampleBlock7 rfl rfl rfl rfl rfl rfl⟩

/-! ### The tracker entry at the completion check -/

/-- C31: let ProcessForwardTransaction have read the block number b and the
forwarded transactions with a matching root, and let the tracker test
IsMicroBlockTxRootHashInFinalBlock have succeeded, so that the call reaches
DeleteEntryFromFwdingAssgnAndMissingBodyCountMap(b).  The node on which that
function runs has a tracker entry for b, namely the outstanding set without the
root of the message: the tracker test itself creates or rewrites the entry and
the commit does not touch the tracker.  The lookup therefore finds the entry,
the function returns, and so does ProcessForwardTransaction, with true. -/
theorem ProcessForwardTransaction_tracker_entry_present (ext : Externals) (n : Node)
    (message : List Byte) (cur_offset : Nat) (b : BlockNum) (hash : TxnHash)
    (txns : List Transaction)
    (hnum : GetNumber message cur_offset UINT256_SIZE = some b)
    (hload : LoadForwardedTxnsAndCheckRoot ext message ((cur_offset + UINT256_SIZE) % UINT_MOD) []
      = some (true, hash, txns))
    (hreach : (IsMicroBlockTxRootHashInFinalBlock n hash b).1 = true) :
    (CommitForwardedTransactions (IsMicroBlockTxRootHashInFinalBlock n hash b).2 txns
        b).m_unavailableMicroBlocks b
      = some ((outstandingAt n.m_unavailableMicroBlocks b).erase hash) ∧
    (∃ n2 : Node,
      DeleteEntryFromFwdingAssgnAndMissingBodyCountMap
        (CommitForwardedTransactions (IsMicroBlockTxRootHashInFinalBlock n hash b).2 txns b) b
        = some n2) ∧
    (∃ n' : Node, ProcessForwardTransaction ext n message cur_offset = some (true, n')) := by
  obtain ⟨e1, e2, _, _⟩ := IsMicroBlockTxRootHashInFinalBlock_eq n hash b
  have hf := CommitForwardedTransactions_frame txns
    (IsMicroBlockTxRootHashInFinalBlock n hash b).2 b
  have hentry : (CommitForwardedTransactions
        (IsMicroBlockTxRootHashInFinalBlock n hash b).2 txns b).m_unavailableMicroBlocks b
      = some ((outstandingAt n.m_unavailableMicroBlocks b).erase hash) := by
    rw [hf.1, e2]; simp
  have hdel := DeleteEntryFromFwdingAssgnAndMissingBodyCountMap_eq _ b _ hentry
  have hmem : hash ∈ outstandingAt n.m_unavailableMicroBlocks b := by
    rw [e1] at hreach
    simpa using hreach
  refine ⟨hentry, ⟨_, hdel⟩, ?_⟩
  obtain ⟨n', hp, _⟩ :=
    ProcessForwardTransaction_step ext n message cur_offset b true hash txns hnum hload
  refine ⟨n', ?_⟩
  rw [hp]
  simp [hmem]

/-- C31, worked example: the sample node waits for the hash 1 of block 7; the
message for that hash reaches the completion check, where the tracker entry of
block 7 is the empty set, and the call returns true. -/
theorem ProcessForwardTransaction_tracker_entry_present_witness :
    (GetNumber (sampleForwardMsg 7 (sampleHash 1) [1]) 0 UINT256_SIZE = some 7 ∧
     LoadForwardedTxnsAndCheckRoot sampleExt (sampleForwardMsg 7 (sampleHash 1) [1])
         ((0 + UINT256_SIZE) % UINT_MOD) [] = some (true, sampleHash 1, [sampleTxn [1]]) ∧
     (IsMicroBlockTxRootHashInFinalBlock sampleNodeOneHash (sampleHash 1) 7).1 = true) ∧
    (CommitForwardedTransactions
        (IsMicroBlockTxRootHashInFinalBlock sampleNodeOneHash (sampleHash 1) 7).2
        [sampleTxn [1]] 7).m_unavailableMicroBlocks 7
      = some ((outstandingAt sampleNodeOneHash.m_unavailableMicroBlocks 7).erase (sampleHash 1)) ∧
    (ProcessForwardTransaction sampleExt sampleNodeOneHash
        (sampleForwardMsg 7 (sampleHash 1) [1]) 0).map Prod.fst = some true :=
  ⟨⟨by decide, by decide, by decide⟩,
   (ProcessForwardTransaction_tracker_entry_present sampleExt sampleNodeOneHash
      (sampleForwardMsg 7 (sampleHash 1) [1]) 0 7 (sampleHash 1) [sampleTxn [1]]
      (by decide) (by decide) (by decide)).1,
   by decide⟩

/-! ### Indices into the node list -/

theorem SharingSetup.nodes_length (s : SharingSetup) :
    s.nodes.length = 2 * s.shards.length + 1 := by
  unfold SharingSetup.nodes
  rw [List.length_cons]
  congr 1
  induction s.shards with
  | nil => rfl
  | cons sh rest ih =>
    rw [flatMap_nodes_cons, List.length_append, ih, List.length_cons]
    simp only [List.length_cons, List.length_nil]
    omega

/-- The reconciliation returns on every node. -/
theorem reconcileAndSend_returns (ext : Externals) (n : Node) (b : BlockNum)
    (mode : TxSharingMode) (sa : List Peer) :
    ∃ n' : Node, reconcileAndSend ext n b mode sa = some n' := by
  obtain ⟨hA, hB, hC⟩ := reconcileAndSend_spec ext n b mode sa
  cases hmb : n.m_microblock with
  | none => exact ⟨n, hA hmb⟩
  | some mb =>
    by_cases hmem : mb.GetTxRootHash ∈ outstandingAt n.m_unavailableMicroBlocks b
    · obtain ⟨n', _, _, hr, _⟩ := hC mb hmb hmem
      exact ⟨n', hr⟩
    · obtain ⟨n', hr, _⟩ := hB mb hmb hmem
      exact ⟨n', hr⟩

/-- CallActOnFinalBlockBasedOnSenderForwarderAssgn returns on a node that has
stored a final block, provided the indices it takes with at() are within the
node list. -/
theorem CallActOnFinalBlockBasedOnSenderForwarderAssgn_returns (ext : Externals) (n : Node)
    (i_am_sender i_am_forwarder : Bool) (nodes : List (List Peer)) (shard_id : Nat)
    (finalblock : TxBlock) (hlast : n.m_txBlockChain.getLast? = some finalblock)
    (hfwd : i_am_forwarder = true → ∃ recv, nodes.get? (shard_id + 1) = some recv)
    (hsnd : i_am_sender = true → ∃ targets, receiversInOtherCommittees nodes shard_id
      = some targets) :
    ∃ n' : Node,
      CallActOnFinalBlockBasedOnSenderForwarderAssgn ext n i_am_sender i_am_forwarder nodes
        shard_id = some n' := by
  cases i_am_sender <;> cases i_am_forwarder
  · obtain ⟨n', hr⟩ := reconcileAndSend_returns ext n finalblock.GetBlockNum
      TxSharingMode.IDLE []
    refine ⟨n', ?_⟩
    simp [CallActOnFinalBlockBasedOnSenderForwarderAssgn, ActOnFinalBlock, hlast, hr]
  · obtain ⟨recv, hget⟩ := hfwd rfl
    obtain ⟨n', hr⟩ := reconcileAndSend_returns ext
      (LoadForwardingAssignmentFromFinalBlock n recv finalblock.GetBlockNum)
      finalblock.GetBlockNum TxSharingMode.NODE_FORWARD_ONLY []
    refine ⟨n', ?_⟩
    unfold CallActOnFinalBlockBasedOnSenderForwarderAssgn
    rw [if_pos ⟨rfl, rfl⟩, hget]
    simp [ActOnFinalBlock, hlast, hr]
  · obtain ⟨targets, hrecv⟩ := hsnd rfl
    obtain ⟨n', hr⟩ := reconcileAndSend_returns ext n finalblock.GetBlockNum
      TxSharingMode.SEND_ONLY targets
    refine ⟨n', ?_⟩
    unfold CallActOnFinalBlockBasedOnSenderForwarderAssgn
    rw [if_neg (by simp), if_pos ⟨rfl, rfl⟩, hrecv]
    simp [ActOnFinalBlock, hlast, hr]
  · obtain ⟨recv, hget⟩ := hfwd rfl
    obtain ⟨fellows, hrecv⟩ := hsnd rfl
    obtain ⟨n', hr⟩ := reconcileAndSend_returns ext
      (LoadForwardingAssignmentFromFinalBlock n fellows finalblock.GetBlockNum)
      finalblock.GetBlockNum TxSharingMode.SEND_AND_FORWARD recv
    refine ⟨n', ?_⟩
    unfold CallActOnFinalBlockBasedOnSenderForwarderAssgn
    rw [if_neg (by simp), if_neg (by simp), if_pos ⟨rfl, rfl⟩, hget, hrecv]
    simp [ActOnFinalBlock3, hlast, hr]

/-- C32: let the message hold the encoding of a sharing setup with S shards at
the offset (counts below 2 ^ 32, peers fitting their fields, the end of the
encoding within the range of the 32-bit offset).  LoadTxnSharingInfo, started
with false flags and an empty list, returns a node list of 2 S + 1 entries, so
nodes.at(0) is within the list.  The loop over the odd indices, whose counter
is tested against the length of the list before every access, yields the
sender targets.  Whenever the forwarder flag is set, shard_id is below S, so
shard_id + 1 is within the list; the index is not used when the flag is clear.
Hence CallActOnFinalBlockBasedOnSenderForwarderAssgn, called with these flags
and this list on any node that has stored a final block, returns: no
out-of-range failure is reachable, for any shard id. -/
theorem CallActOnFinalBlockBasedOnSenderForwarderAssgn_indices_in_range (ext : Externals)
    (n : Node) (message : List Byte) (shard_id : Nat) (s : SharingSetup) (offset : Nat)
    (hrep : s.Representable)
    (h : HoldsAt message offset (encodeSharingSetup s))
    (hfit : offset + (encodeSharingSetup s).length < UINT_MOD) :
    ∃ info : SharingInfo,
      LoadTxnSharingInfo n message shard_id
        { cur_offset := offset, i_am_sender := false, i_am_forwarder := false, nodes := [] }
        = some info ∧
      info.nodes.length = 2 * s.shards.length + 1 ∧
      (∃ ds, info.nodes.get? 0 = some ds) ∧
      receiversInOtherCommittees info.nodes shard_id = some (s.senderTargets shard_id) ∧
      (info.i_am_forwarder = true →
        shard_id < s.shards.length ∧ shard_id + 1 < info.nodes.length ∧
        ∃ recv, info.nodes.get? (shard_id + 1) = some recv) ∧
      (∀ (node : Node) (finalblock : TxBlock),
        node.m_txBlockChain.getLast? = some finalblock →
        ∃ node' : Node,
          CallActOnFinalBlockBasedOnSenderForwarderAssgn ext node info.i_am_sender
            info.i_am_forwarder info.nodes shard_id = some node') := by
  have hdec := LoadTxnSharingInfo_decode n message shard_id s
    { cur_offset := offset, i_am_sender := false, i_am_forwarder := false, nodes := [] }
    hrep h hfit
  have hlen := SharingSetup.nodes_length s
  have hrecv := receiversInOtherCommittees_nodes s shard_id
  have hfwd : selfInShard n.m_selfPeer Prod.fst shard_id s.shards 0 = true →
      shard_id < s.shards.length ∧ shard_id + 1 < s.nodes.length ∧
      ∃ recv, s.nodes.get? (shard_id + 1) = some recv := by
    intro hflag
    obtain ⟨sh, hsh, _⟩ := (selfInShard_zero n.m_selfPeer Prod.fst shard_id s.shards).mp hflag
    have hlt : shard_id < s.shards.length := by
      rcases Nat.lt_or_ge shard_id s.shards.length with h1 | h1
      · exact h1
      · rw [List.get?_eq_none.mpr h1] at hsh
        exact absurd hsh (by simp)
    have hlt2 : shard_id + 1 < s.nodes.length := by omega
    exact ⟨hlt, hlt2, s.nodes.get ⟨shard_id + 1, hlt2⟩, List.get?_eq_get hlt2⟩
  refine ⟨_, hdec, ?_, ?_, ?_, ?_, ?_⟩
  · simpa using hlen
  · refine ⟨s.dsForwarders, ?_⟩
    simp [SharingSetup.nodes]
  · simpa using hrecv
  · intro hflag
    have hflag' : selfInShard n.m_selfPeer Prod.fst shard_id s.shards 0 = true := by
      simpa using hflag
    simpa using hfwd hflag'
  · intro node finalblock hlast
    apply CallActOnFinalBlockBasedOnSenderForwarderAssgn_returns ext node _ _ _ _ finalblock hlast
    · intro hflag
      have hflag' : selfInShard n.m_selfPeer Prod.fst shard_id s.shards 0 = true := by
        simpa using hflag
      obtain ⟨_, _, recv, hget⟩ := hfwd hflag'
      exact ⟨recv, by simpa using hget⟩
    · intro _
      exact ⟨_, by simpa using hrecv⟩

set_option maxRecDepth 20000 in
/-- C32, worked example: the sample setup has three shards, so the node list
has seven entries; decoded with shard id 1 by the sample node, a receiver and a
sender of shard 1, both flags are set and the index 1 + 1 is within the list;
the node that has stored block 7 gets through
CallActOnFinalBlockBasedOnSenderForwarderAssgn. -/
theorem CallActOnFinalBlockBasedOnSenderForwarderAssgn_indices_in_range_witness :
    (sampleSetup.Representable ∧
     HoldsAt sampleSetupMsg 70 (encodeSharingSetup sampleSetup) ∧
     70 + (encodeSharingSetup sampleSetup).length < UINT_MOD) ∧
    ∃ info : SharingInfo,
      LoadTxnSharingInfo sampleNodeStored sampleSetupMsg 1
        { cur_offset := 70, i_am_sender := false, i_am_forwarder := false, nodes := [] }
        = some info ∧
      info.nodes.length = 2 * sampleSetup.shards.length + 1 ∧
      (info.i_am_forwarder = true → 1 + 1 < info.nodes.length) ∧
      ∃ node' : Node,
        CallActOnFinalBlockBasedOnSenderForwarderAssgn sampleExt sampleNodeStored
          info.i_am_sender info.i_am_forwarder info.nodes 1 = some node' := by
  refine ⟨⟨by decide, by decide, by decide⟩, ?_⟩
  obtain ⟨info, h1, h2, _, _, h5, h6⟩ :=
    CallActOnFinalBlockBasedOnSenderForwarderAssgn_indices_in_range sampleExt sampleNodeStored
      sampleSetupMsg 1 sampleSetup 70 (by decide) (by decide) (by decide)
  exact ⟨info, h1, h2, fun hf => (h5 hf).2.1, h6 sampleNodeStored sampleBlock7 rfl⟩

end Zilliqa
